import Mathlib

/-!
# Freddi: boundary tracker, evolution step, opacity relation, grid, observables,
# arguments, options and geometry

Shallow embedding of `FreddiEvolution::truncateOuterRadius`, `FreddiEvolution::step`
and `FreddiEvolution::wunction` (src/cpp/src/freddi_evolution.cpp), of the
constructor of `BasicDiskBinaryArguments` (src/cpp/include/arguments.hpp) and of
the grid, the initial torque, the observables and the boundary block of the
stand-alone program src/fred.cpp, of the neutron-star arguments
(src/cpp/src/ns/ns_arguments.cpp), of the option parsing (options.hpp,
ns_options.cpp) and of the vectors, triangles and unit sphere of
src/cpp/src/geometry.cpp.

Conventions of the embedding.

* In the boundary tracker and the step, `double` values live in an arbitrary type
  `α` equipped with `DoubleOps α`: the comparisons `<`, `<=` and the division `/`
  are the ones of the machine, whatever they are, as long as `a < b` excludes
  `b <= a` (this holds for IEEE doubles, NaN included).  The general theorems about
  them therefore hold for the real arithmetic of the program; concrete
  evaluations use `ratOps` on `ℚ`, at values where double arithmetic is exact.
* The formulas (`wunction`, fred.cpp, arguments.hpp) are written over an ordered
  field `α` with the functions of `<cmath>` as parameters (`CMath α`); statements
  about their values are made on the real numbers (`realMath`).
* The grid and the initial torque of fred.cpp ask of `α` its operations only, so
  that they also run in `Double`, a model of the binary64 arithmetic of the
  program (every operation rounds to 53 bits, to nearest, ties to even); what is
  said of them is said in that arithmetic where it holds there, and in exact real
  arithmetic otherwise, and the two are kept apart in the statements.
* `size_t` values are natural numbers below `2^64`; `+ 1`, `--` and `- 1` wrap
  around as in the source (`sizeInc`, `sizeDec`).
* `std::vector<double>` is `Vec α`: a list whose length fits in `size_t`.
  `std::vector::at` is `vecAt`: it fails with `out_of_range` past the end.
* A C++ member function that may throw is a function from the state to a pair
  `(error, state)`: `none` means that it returned normally, and the state is
  the object as it is left behind in either case.
* `FreddiState` (freddi_state.hpp), the diffusion solver
  (nonlinear_diffusion.hpp), `OpacityRelated` and the helpers of arguments.hpp
  whose bodies are elsewhere are not part of the sources at hand: they are
  parameters (`Env`, `OpacityRelated`, `ArgumentFunctions`).
-/

namespace Freddi

/-- Comparisons and division of `double`, with the one law the proofs use. -/
structure DoubleOps (α : Type) where
  zero : α
  lt : α → α → Bool
  le : α → α → Bool
  div : α → α → α
  lt_not_le : ∀ a b, lt a b = true → le b a = false

/-- Exact rational arithmetic as an instance of `DoubleOps`. -/
def ratOps : DoubleOps ℚ where
  zero := 0
  lt := fun a b => decide (a < b)
  le := fun a b => decide (a ≤ b)
  div := fun a b => a / b
  lt_not_le := by
    intro a b h
    have h1 : a < b := of_decide_eq_true h
    exact decide_eq_false (not_le.mpr h1)

/-- Exceptions thrown by the code: `std::runtime_error`, `std::invalid_argument`,
`std::out_of_range` (from `vector::at`), `po::invalid_option_value` (fred.cpp),
and the exhaustion of the loop budget of the embedding. -/
inductive Err where
  | runtime_error (what : String)
  | invalid_argument (what : String)
  | out_of_range
  | out_of_fuel
  | invalid_option_value (what : String)
  | validation_error
  deriving DecidableEq, Repr

deriving instance DecidableEq for Except

/-- The width of `size_t`. -/
def SIZE_MAX1 : Nat := 2 ^ 64

/-- Unsigned `n + 1` on a `size_t`: `2^64 - 1` wraps to `0`. -/
def sizeInc (n : Nat) : Nat := if n + 1 = SIZE_MAX1 then 0 else n + 1

/-- Unsigned `n - 1` (also `n--`) on a `size_t`: `0` wraps to `2^64 - 1`. -/
def sizeDec (n : Nat) : Nat := if n = 0 then SIZE_MAX1 - 1 else n - 1

/-- The type `vecd`, a `std::vector<double>`: its `size()` is a `size_t`. -/
structure Vec (α : Type) where
  data : List α
  size_lt : data.length < SIZE_MAX1

/-- The member `size()`. -/
def Vec.size {α : Type} (v : Vec α) : Nat := v.data.length

/-- Bounds-checked access `v.at(i)`. -/
def vecAt {α : Type} (v : Vec α) (i : Nat) : Except Err α :=
  match v.data.get? i with
  | some x => Except.ok x
  | none => Except.error Err.out_of_range

/-- The fields of `args().disk` read by the boundary tracker. -/
structure DiskStructureArguments (α : Type) where
  boundcond : String
  Thot : α
  Tirr2Tvishot : α

/-- The class `CalculationArguments` (arguments.hpp, lines 272-294); `step` reads
`tau` and `eps`. -/
structure CalculationArguments (α : Type) where
  time : α
  tau : α
  Nx : Nat
  gridscale : String
  starlod : Nat
  eps : α

/-- The disk state owned by the evolver (`current_`, the grid and the star's
sources).  The accessors `h()`, `R()`, `first()`, `last()`, `F_in()`, `Mdot_out()`
and `Mdot_in_prev()` read the fields of the same name, as in freddi.hpp. -/
structure State (α : Type) where
  h : Vec α
  R : Vec α
  F : Vec α
  first : Nat
  last : Nat
  t : α
  i_t : Nat
  Mdot_out : α
  F_in : α
  Mdot_in_prev : α
  star_sources : List α

/-- Outcome of a member function: the exception thrown, if any, and the object
as it is afterwards. -/
abbrev Outcome (α : Type) : Type := Option Err × State α

/-- The type of `wunc()`: `W` from `h`, `F` and the window. -/
abbrev Wunc (α : Type) : Type := Vec α → Vec α → Nat → Nat → Vec α

/-- Everything `FreddiEvolution` reads that is defined outside of
freddi_evolution.cpp: the arguments, the arithmetic, the accessors of
`FreddiState`, the virtual `truncateInnerRadius`, `FreddiState::step` and the
diffusion solver. -/
structure Env (α : Type) where
  ops : DoubleOps α
  disk : DiskStructureArguments α
  calc_ : CalculationArguments α
  Mdot_in : State α → α
  Tirr : State α → Vec α
  Tph_vis : State α → Vec α
  Tph : State α → Vec α
  Sigma : State α → Vec α
  Sigma_minus : α → α
  windA : State α → Vec α
  windB : State α → Vec α
  windC : State α → Vec α
  wunc : Wunc α
  star_irr_sources : State α → List α
  truncateInnerRadius : State α → Outcome α
  stateStep : α → State α → Outcome α
  nonlinear_diffusion_nonuniform_wind_1_2 :
    α → α → α → α → Vec α → Vec α → Vec α → Wunc α → Vec α → Vec α → Nat → Nat →
      Option Err × Vec α

/-- The three retreat criteria of `truncateOuterRadius`. -/
inductive Criterion where
  | sigma
  | teff
  | tirr
  deriving DecidableEq, Repr

/-- The loop condition of each of the three `do ... while` loops, at index `ii`:
`Sigma().at(ii) < Sigma_minus(R().at(ii))`, `Tph().at(ii) < Thot`,
`Tirr().at(ii) < Thot`. -/
def retreatCond {α : Type} (E : Env α) (s : State α) (c : Criterion) (ii : Nat) :
    Except Err Bool :=
  match c with
  | Criterion.sigma =>
    match vecAt (E.Sigma s) ii with
    | Except.error e => Except.error e
    | Except.ok sg =>
      match vecAt s.R ii with
      | Except.error e => Except.error e
      | Except.ok r => Except.ok (E.ops.lt sg (E.Sigma_minus r))
  | Criterion.teff =>
    match vecAt (E.Tph s) ii with
    | Except.error e => Except.error e
    | Except.ok x => Except.ok (E.ops.lt x E.disk.Thot)
  | Criterion.tirr =>
    match vecAt (E.Tirr s) ii with
    | Except.error e => Except.error e
    | Except.ok x => Except.ok (E.ops.lt x E.disk.Thot)

/-- The loop `do { ii--; if (ii <= first()) throw ...; } while (cond(ii));`
started at `ii`, with a budget of `fuel` iterations.  The result is the value of
`ii` on exit. -/
def retreatLoop (cond : Nat → Except Err Bool) (first : Nat) : Nat → Nat → Except Err Nat
  | 0, _ => Except.error Err.out_of_fuel
  | fuel + 1, ii =>
    let ii1 := sizeDec ii
    if ii1 ≤ first then Except.error (Err.runtime_error "Rout <= Rin")
    else
      match cond ii1 with
      | Except.error e => Except.error e
      | Except.ok true => retreatLoop cond first fuel ii1
      | Except.ok false => Except.ok ii1

/-- Lines 39-57: the value of `ii` after the branch that is taken, or the
exception.  A loop that starts at `last() + 1` makes at most `last() + 1`
iterations, which is the budget given. -/
def retreatIndex {α : Type} (E : Env α) (s : State α) : Except Err Nat :=
  let ii := sizeInc s.last
  match vecAt (E.Tirr s) s.last with
  | Except.error e => Except.error e
  | Except.ok tirr =>
    match vecAt (E.Tph_vis s) s.last with
    | Except.error e => Except.error e
    | Except.ok tvis =>
      if E.ops.lt (E.ops.div tirr tvis) E.disk.Tirr2Tvishot then
        retreatLoop (retreatCond E s Criterion.sigma) s.first (s.last + 1) ii
      else if E.disk.boundcond = "Teff" then
        retreatLoop (retreatCond E s Criterion.teff) s.first (s.last + 1) ii
      else if E.disk.boundcond = "Tirr" then
        retreatLoop (retreatCond E s Criterion.tirr) s.first (s.last + 1) ii
      else Except.error (Err.invalid_argument "Wrong boundcond")

/-- The member function `FreddiEvolution::truncateOuterRadius`. -/
def truncateOuterRadius {α : Type} (E : Env α) (s : State α) : Outcome α :=
  if E.ops.le E.disk.Thot E.ops.zero then (none, s)
  else if E.ops.lt s.Mdot_in_prev (E.Mdot_in s) then (none, s)
  else
    match retreatIndex E s with
    | Except.error e => (some e, s)
    | Except.ok ii =>
      if ii ≤ sizeDec s.last then (none, { s with last := ii })
      else (none, s)

/-- The criterion of the branch taken by the `if` chain of lines 40-57, or the
exception thrown before any loop starts. -/
def selectCriterion {α : Type} (E : Env α) (s : State α) : Except Err Criterion :=
  match vecAt (E.Tirr s) s.last with
  | Except.error e => Except.error e
  | Except.ok tirr =>
    match vecAt (E.Tph_vis s) s.last with
    | Except.error e => Except.error e
    | Except.ok tvis =>
      if E.ops.lt (E.ops.div tirr tvis) E.disk.Tirr2Tvishot then Except.ok Criterion.sigma
      else if E.disk.boundcond = "Teff" then Except.ok Criterion.teff
      else if E.disk.boundcond = "Tirr" then Except.ok Criterion.tirr
      else Except.error (Err.invalid_argument "Wrong boundcond")

/-- The retreat under a given loop condition: the loop from `last() + 1`, then
lines 59-61. -/
def retreatWith {α : Type} (cond : Nat → Except Err Bool) (s : State α) : Outcome α :=
  match retreatLoop cond s.first (s.last + 1) (sizeInc s.last) with
  | Except.error e => (some e, s)
  | Except.ok ii =>
    if ii ≤ sizeDec s.last then (none, { s with last := ii })
    else (none, s)

/-- The retreat by a given criterion `c`.  This is the yardstick against which the
selection of the criterion is stated. -/
def retreatBy {α : Type} (E : Env α) (s : State α) (c : Criterion) : Outcome α :=
  retreatWith (retreatCond E s c) s

/-- The solver call of `step`, lines 19-25: `current_.F` is passed by reference and
holds the solver's result afterwards. -/
def diffusionCall {α : Type} (E : Env α) (s : State α) : Outcome α :=
  let r := E.nonlinear_diffusion_nonuniform_wind_1_2
    E.calc_.tau E.calc_.eps s.F_in s.Mdot_out (E.windA s) (E.windB s) (E.windC s)
    E.wunc s.h s.F s.first s.last
  (r.1, { s with F := r.2 })

/-- Sequencing of statements: the next statement runs only if no exception is
pending. -/
def andThen {α : Type} (r : Outcome α) (k : State α → Outcome α) : Outcome α :=
  match r.1 with
  | none => k r.2
  | some e => (some e, r.2)

/-- The member function `FreddiEvolution::step`, lines 16-28: the virtual
`truncateInnerRadius()`, `FreddiState::step(tau)`, the solver call,
`truncateOuterRadius()` and `star_.set_sources(star_irr_sources())`. -/
def step {α : Type} (E : Env α) (tau : α) (s : State α) : Outcome α :=
  andThen (E.truncateInnerRadius s) fun s1 =>
  andThen (E.stateStep tau s1) fun s2 =>
  andThen (diffusionCall E s2) fun s3 =>
  andThen (truncateOuterRadius E s3) fun s4 =>
  (none, { s4 with star_sources := E.star_irr_sources s4 })

/-! ## Concrete data for evaluation

The observables are fixed profiles, `Sigma_minus` is the identity, the inner
truncation is the empty body of the base class, and the two collaborators of
`step` that are not in the sources are stand-ins which make their time step
visible: `stateStep tau` adds `tau` to `t`, the solver adds its time step to every
entry of `F`. -/

/-- A vector of four values. -/
def vec4 (a b c d : ℚ) : Vec ℚ := ⟨[a, b, c, d], by simp [SIZE_MAX1]⟩

/-- An environment over `ℚ` with fixed profiles. -/
def demoEnv (bc : String) (Thot T2 Mdot tau : ℚ) (Tirr Tvis Tph Sigma : Vec ℚ) : Env ℚ where
  ops := ratOps
  disk := { boundcond := bc, Thot := Thot, Tirr2Tvishot := T2 }
  calc_ := { time := 100, tau := tau, Nx := 4, gridscale := "log", starlod := 3, eps := 0 }
  Mdot_in := fun _ => Mdot
  Tirr := fun _ => Tirr
  Tph_vis := fun _ => Tvis
  Tph := fun _ => Tph
  Sigma := fun _ => Sigma
  Sigma_minus := fun r => r
  windA := fun s => s.h
  windB := fun s => s.h
  windC := fun s => s.h
  wunc := fun _ F _ _ => F
  star_irr_sources := fun _ => []
  truncateInnerRadius := fun s => (none, s)
  stateStep := fun tau s => (none, { s with t := s.t + tau, i_t := s.i_t + 1 })
  nonlinear_diffusion_nonuniform_wind_1_2 := fun tau _ _ _ _ _ _ _ _ F _ _ =>
    (none, ⟨F.data.map (fun x => x + tau), by simpa using F.size_lt⟩)

/-- A disk of four grid points with the window `[0, 3]` and `Mdot_in_prev = 1`. -/
def demoState : State ℚ where
  h := vec4 1 2 3 4
  R := vec4 1 2 3 4
  F := vec4 0 1 1 1
  first := 0
  last := 3
  t := 0
  i_t := 0
  Mdot_out := 0
  F_in := 0
  Mdot_in_prev := 1
  star_sources := []

/-- Irradiation dominates at the outer edge (`Tirr/Tph_vis = 2 >= 1`), the outer
point is colder than `Thot = 10`, and `Sigma` is above `Sigma_minus` everywhere. -/
def envIrradiated : Env ℚ :=
  demoEnv "Teff" 10 1 1 2 (vec4 2 2 2 2) (vec4 1 1 1 1) (vec4 20 20 20 5) (vec4 9 9 9 9)

/-- The ratio `Tirr/Tph_vis` is `1/2` at index 3 and `2` at index 2; `Sigma` is
below `Sigma_minus` at index 3 only; `Tph` is below `Thot = 10` at indices 2, 3. -/
def envMixed : Env ℚ :=
  demoEnv "Teff" 10 1 1 2 (vec4 0 0 2 1) (vec4 1 1 1 2) (vec4 20 20 5 5) (vec4 9 9 9 0)

/-- Every point is colder than `Thot = 10` and below `Sigma_minus`. -/
def envCold : Env ℚ :=
  demoEnv "Teff" 10 1 1 2 (vec4 1 1 1 1) (vec4 1 1 1 1) (vec4 5 5 5 5) (vec4 0 0 0 0)

/-- As `envCold`, with `Thot = 0`: the tracker is switched off. -/
def envNoThot : Env ℚ :=
  demoEnv "Teff" 0 1 1 2 (vec4 1 1 1 1) (vec4 1 1 1 1) (vec4 5 5 5 5) (vec4 0 0 0 0)

/-- As `envCold`, with `Mdot_in = 2 > Mdot_in_prev = 1`: the disk is rising. -/
def envRising : Env ℚ :=
  demoEnv "Teff" 10 1 2 2 (vec4 1 1 1 1) (vec4 1 1 1 1) (vec4 5 5 5 5) (vec4 0 0 0 0)

/-- As `envNoThot` (`Thot = 0`), with a `boundcond` that is neither Teff nor Tirr. -/
def envUnknownOff : Env ℚ :=
  demoEnv "MdotOut" 0 1 1 2 (vec4 1 1 1 1) (vec4 1 1 1 1) (vec4 5 5 5 5) (vec4 0 0 0 0)

/-- As `envIrradiated` (`Thot = 10`, ratio `2 >= 1` at the outer edge), with a
`boundcond` that is neither Teff nor Tirr. -/
def envUnknown : Env ℚ :=
  demoEnv "MdotOut" 10 1 1 2 (vec4 2 2 2 2) (vec4 1 1 1 1) (vec4 20 20 20 5) (vec4 9 9 9 9)

/-! ## Arithmetic of the formulas

The formulas of the program are written over an arbitrary ordered field `α`; the
functions of `<cmath>` and the constant `M_PI` are the fields of `CMath α`.  Theorems
about the values of the formulas are stated for the real numbers, `realMath`,
where `pow` is the real power: this is the arithmetic the formulas approximate,
and it agrees with `pow` of C wherever the latter is defined (non-negative base,
or integral exponent). -/

/-- The functions of `<cmath>` used by the program, and `M_PI`. -/
structure CMath (α : Type) where
  pow : α → α → α
  fabs : α → α
  sqrt : α → α
  cbrt : α → α
  sin : α → α
  cos : α → α
  exp : α → α
  log : α → α
  pi : α
  acos : α → α
  atan2 : α → α → α

/-- The functions of `<cmath>` on the real numbers. -/
noncomputable def realMath : CMath ℝ where
  pow := fun x y => x ^ y
  fabs := fun x => |x|
  sqrt := Real.sqrt
  cbrt := fun x => if 0 ≤ x then x ^ ((1 : ℝ) / 3) else -((-x) ^ ((1 : ℝ) / 3))
  sin := Real.sin
  cos := Real.cos
  exp := Real.exp
  log := Real.log
  pi := Real.pi
  acos := Real.arccos
  atan2 := fun y x => Complex.arg ⟨x, y⟩

/-- A loop `for (i = i0; ...; ++i) W[i] = f(i);` of `n` iterations. -/
def fillLoop {α : Type} (f : Nat → α) : Nat → Nat → List α → List α
  | _, 0, W => W
  | i, n + 1, W => fillLoop f (i + 1) n (W.set i (f i))

/-- A list as a `vecd`; a vector cannot hold `2^64` elements. -/
def Vec.ofList {α : Type} (l : List α) : Vec α :=
  if h : l.length < SIZE_MAX1 then ⟨l, h⟩ else ⟨[], by simp [SIZE_MAX1]⟩

/-- Unchecked access `v[i]`; reading past the end is undefined in the source and
yields `0` here. -/
def Vec.idx {α : Type} [Zero α] (v : Vec α) (i : Nat) : α := v.data.getD i 0

/-- The parameters of `oprel()` read by `wunction` (opacity_related.hpp). -/
structure OpacityRelated (α : Type) where
  m : α
  n : α
  D : α

/-- The right-hand side of the assignment in the loop of `wunction`, line 68. -/
def wunctionAt {α : Type} [LinearOrderedField α] (M : CMath α) (oprel : OpacityRelated α)
    (h F : Vec α) (i : Nat) : α :=
  M.pow (M.fabs (F.idx i)) (1 - oprel.m) * M.pow (h.idx i) oprel.n / (1 - oprel.m) / oprel.D

/-- The member function `FreddiEvolution::wunction`, lines 65-71: a vector of
`_last + 1` zeros, then the loop over `_first <= i <= _last`, which makes
`_last + 1 - _first` iterations.  (For `_last = 2^64 - 1` the loop of the source
does not end; that case is outside of every statement below.) -/
def wunction {α : Type} [LinearOrderedField α] (M : CMath α) (oprel : OpacityRelated α)
    (h F : Vec α) (first last : Nat) : Vec α :=
  Vec.ofList (fillLoop (wunctionAt M oprel h F) first (last + 1 - first)
    (List.replicate (sizeInc last) 0))

/-! ## fred.cpp

The stand-alone program: its vectors are lists, `int` indices are natural numbers
(they stay within `0 .. Nx`), the constants of gsl_const_cgsm.h are the fields of
`GslConst`.  Inside the loops over `i < Nx` the vectors have at least `Nx` entries,
so `v.at(i)` does not throw there and is read with `getD`; the accesses
`v.at(ii)` of the boundary block, which can throw, are `listAt`. -/

/-- The constants of gsl_const_cgsm.h used by the program. -/
structure GslConst (α : Type) where
  GRAVITATIONAL_CONSTANT : α
  SPEED_OF_LIGHT : α
  SOLAR_MASS : α
  STEFAN_BOLTZMANN_CONSTANT : α

/-- The values of gsl_const_cgsm.h. -/
noncomputable def gslCgsm : GslConst ℝ where
  GRAVITATIONAL_CONSTANT := 6.673e-8
  SPEED_OF_LIGHT := 2.99792458e10
  SOLAR_MASS := 1.98892e33
  STEFAN_BOLTZMANN_CONSTANT := 5.67040047374e-5

/-- Bounds-checked access `v.at(i)` on a list. -/
def listAt {α : Type} (v : List α) (i : Nat) : Except Err α :=
  match v[i]? with
  | some x => Except.ok x
  | none => Except.error Err.out_of_range

/-- The lambda `Sigma_hot_disk` of fred.cpp, lines 161-163. -/
def Sigma_hot_disk {α : Type} [Mul α] [Div α] [Neg α] [OfScientific α] (M : CMath α)
    (K : GslConst α) (alpha Mx : α) (r : α) : α :=
  0.5 * 39.9 * M.pow (alpha / 0.1) (-0.80) * M.pow (r / 1e10) 1.11 *
    M.pow (Mx / K.SOLAR_MASS) (-0.37)

/-- The value assigned to `h.at(i)` in the grid loop, lines 167-173, in the arithmetic
of `α`. -/
def gridPoint {α : Type} [Add α] [Sub α] [Mul α] [Div α] [Zero α] [One α] [NatCast α]
    (M : CMath α) (grid_scale : String) (h_in h_out : α) (Nx i : Nat) : Except Err α :=
  if grid_scale = "log" then
    Except.ok (h_in * M.pow (h_out / h_in) ((i : α) / ((Nx : α) - 1)))
  else if grid_scale = "linear" then
    Except.ok (h_in + (h_out - h_in) * (i : α) / ((Nx : α) - 1))
  else Except.error (Err.invalid_option_value grid_scale)

/-- The grid loop, lines 166-175, from index `i` for `n` iterations: `h.at(i)` is
assigned, then `R.at(i) = h.at(i) * h.at(i) / GM` reads it back. -/
def gridLoop {α : Type} [Add α] [Sub α] [Mul α] [Div α] [Zero α] [One α] [NatCast α]
    (M : CMath α) (grid_scale : String) (GM h_in h_out : α) (Nx : Nat) :
    Nat → Nat → List α × List α → Except Err (List α × List α)
  | _, 0, hR => Except.ok hR
  | i, n + 1, hR =>
    match gridPoint M grid_scale h_in h_out Nx i with
    | Except.error e => Except.error e
    | Except.ok x =>
      let h1 := hR.1.set i x
      let R1 := hR.2.set i (h1.getD i 0 * h1.getD i 0 / GM)
      gridLoop M grid_scale GM h_in h_out Nx (i + 1) n (h1, R1)

/-- Lines 165-175: `vector<double> h(Nx), R(Nx)` and the loop over `0 <= i < Nx`. -/
def makeGrid {α : Type} [Add α] [Sub α] [Mul α] [Div α] [Zero α] [One α] [NatCast α]
    (M : CMath α) (grid_scale : String) (GM h_in h_out : α) (Nx : Nat) :
    Except Err (List α × List α) :=
  gridLoop M grid_scale GM h_in h_out Nx 0 Nx (List.replicate Nx 0, List.replicate Nx 0)

/-- The variables of `main` read by the initial condition. -/
structure InitialParams (α : Type) where
  initial_cond_shape : String
  F0_gauss : α
  sigma_for_F_gauss : α
  r_gauss_cut_to_r_out : α
  power_order : α
  kMdot_out : α
  alpha : α
  Mx : α
  GM : α
  h_in : α
  h_out : α
  Mdot_out : α

/-- What the initial condition leaves behind: `F`, and `F0_gauss` and `Mdot_out`,
which the shape sinusparabola overwrites. -/
structure InitialCond (α : Type) where
  F : List α
  F0_gauss : α
  Mdot_out : α

/-- Lines 177-213: `vector<double> F(Nx)` and the loop of the selected shape over the
grid `h` (of `Nx` points). -/
def initialF {α : Type} [Add α] [Sub α] [Mul α] [Div α] [Zero α] [One α] [NatCast α]
    [Neg α] [OfScientific α] [LT α] [LE α] [DecidableRel (fun a b : α => a < b)]
    [DecidableRel (fun a b : α => a ≤ b)]
    (M : CMath α) (K : GslConst α) (P : InitialParams α) (h R : List α) (Nx : Nat) :
    Except Err (InitialCond α) :=
  if P.initial_cond_shape = "sinusgauss" then
    let F0_sinus := 1e-6 * P.F0_gauss
    let h_cut_for_F_gauss := P.h_out / M.sqrt P.r_gauss_cut_to_r_out
    let F_gauss_cut := P.F0_gauss * M.exp (-(h_cut_for_F_gauss - P.h_out) *
      (h_cut_for_F_gauss - P.h_out) /
        (2 * P.h_out * P.h_out / (P.sigma_for_F_gauss * P.sigma_for_F_gauss)))
    Except.ok {
      F := fillLoop (fun i =>
        let F_gauss := P.F0_gauss * M.exp (-(h.getD i 0 - P.h_out) * (h.getD i 0 - P.h_out) /
          (2 * P.h_out * P.h_out / (P.sigma_for_F_gauss * P.sigma_for_F_gauss))) - F_gauss_cut
        let F_gauss1 := if F_gauss ≥ 0 then F_gauss else 0
        let F_sinus := F0_sinus * M.sin ((h.getD i 0 - P.h_in) / (P.h_out - P.h_in) * M.pi / 2)
        F_gauss1 + F_sinus) 0 Nx (List.replicate Nx 0)
      F0_gauss := P.F0_gauss
      Mdot_out := P.Mdot_out }
  else if P.initial_cond_shape = "power" then
    Except.ok {
      F := fillLoop (fun i =>
        P.F0_gauss * M.pow ((h.getD i 0 - P.h_in) / (P.h_out - P.h_in)) P.power_order)
        0 Nx (List.replicate Nx 0)
      F0_gauss := P.F0_gauss
      Mdot_out := P.Mdot_out }
  else if P.initial_cond_shape = "sinus" then
    Except.ok {
      F := fillLoop (fun i =>
        P.F0_gauss * M.sin ((h.getD i 0 - P.h_in) / (P.h_out - P.h_in) * M.pi / 2))
        0 Nx (List.replicate Nx 0)
      F0_gauss := P.F0_gauss
      Mdot_out := P.Mdot_out }
  else if P.initial_cond_shape = "sinusparabola" then
    let h_F0 := P.h_out * 0.9
    let delta_h := P.h_out - h_F0
    match listAt R (Nx - 1), listAt h (Nx - 1) with
    | Except.error e, _ => Except.error e
    | Except.ok _, Except.error e => Except.error e
    | Except.ok rl, Except.ok hl =>
      if Nx = 0 then Except.error Err.out_of_range
      else
        let F0 := 1.24e13 * M.pow (Sigma_hot_disk M K P.alpha P.Mx rl) (10 / 7) *
          M.pow hl (22 / 7) * M.pow P.GM (-10 / 7) * M.pow P.alpha (8 / 7)
        Except.ok {
          F := fillLoop (fun i =>
            if h.getD i 0 < h_F0 then
              F0 * M.sin ((h.getD i 0 - P.h_in) / (h_F0 - P.h_in) * M.pi / 2)
            else
              F0 * (1 - P.kMdot_out / (h_F0 - P.h_in) / delta_h * M.pi / 4 *
                (h.getD i 0 - h_F0) * (h.getD i 0 - h_F0))) 0 Nx (List.replicate Nx 0)
          F0_gauss := F0
          Mdot_out := -P.kMdot_out * F0 / (h_F0 - P.h_in) * M.pi * M.pi }
  else Except.error (Err.invalid_option_value P.initial_cond_shape)

/-- The value assigned to `Tph_vis.at(i)` in the evolution loop, line 242. -/
def Tph_vis_at {α : Type} [LinearOrderedField α] (M : CMath α) (K : GslConst α)
    (GM : α) (h F : List α) (i : Nat) : α :=
  GM * M.pow (h.getD i 0) (-1.75) *
    M.pow (0.75 * F.getD i 0 / K.STEFAN_BOLTZMANN_CONSTANT) 0.25

/-- The value assigned to `Height.at(i)` in the evolution loop, line 241. -/
def Height_at {α : Type} [LinearOrderedField α] (M : CMath α) (alpha GM : α)
    (h F : List α) (i : Nat) : α :=
  6.4e4 * M.pow (F.getD i 0) 0.15 * M.pow (h.getD i 0) 2.1 * M.pow alpha (-0.1) *
    M.pow GM (-1.5)

/-- The value assigned to `Sigma.at(i)` in the evolution loop, line 240. -/
def Sigma_at {α : Type} [LinearOrderedField α] (M : CMath α) (GM : α)
    (W h : List α) (i : Nat) : α :=
  W.getD i 0 * GM * GM / (4 * M.pow (h.getD i 0) 3)

/-- Lines 227 and 239-244 for `Tph_vis`: `Nx` zeros, then the loop over
`1 <= i < Nx`. -/
def Tph_vis_loop {α : Type} [LinearOrderedField α] (M : CMath α) (K : GslConst α)
    (GM : α) (h F : List α) (Nx : Nat) : List α :=
  fillLoop (Tph_vis_at M K GM h F) 1 (Nx - 1) (List.replicate Nx 0)

/-- Lines 227 and 239-244 for `Height`. -/
def Height_loop {α : Type} [LinearOrderedField α] (M : CMath α) (alpha GM : α)
    (h F : List α) (Nx : Nat) : List α :=
  fillLoop (Height_at M alpha GM h F) 1 (Nx - 1) (List.replicate Nx 0)

/-- Lines 227 and 239-244 for `Sigma`. -/
def Sigma_loop {α : Type} [LinearOrderedField α] (M : CMath α) (GM : α)
    (W h : List α) (Nx : Nat) : List α :=
  fillLoop (Sigma_at M GM W h) 1 (Nx - 1) (List.replicate Nx 0)

/-- The variables of `main` read by the boundary block, lines 248-274. -/
structure WalkParams (α : Type) where
  bound_cond_type : String
  T_min_hot_disk : α
  k_irr : α
  eta : α
  kMdot_out : α
  alpha : α
  Mx : α

/-- The value assigned to `Tph.at(ii)` on lines 267-269, with `k_x`. -/
def irradiatedTph {α : Type} [LinearOrderedField α] (M : CMath α) (K : GslConst α)
    (P : WalkParams α) (Mdot_in : α) (Height R Tph_vis : α) : α × α :=
  let k_x := P.k_irr * M.pow (Height / R) 2
  let Qx := k_x * Mdot_in * K.SPEED_OF_LIGHT * K.SPEED_OF_LIGHT * P.eta / (4 * M.pi * R * R)
  (k_x, M.pow (M.pow Tph_vis 4 + Qx / K.STEFAN_BOLTZMANN_CONSTANT) 0.25)

/-- The loop of the branch Teff, lines 265-270, entered with `ii`: the result is
`ii`, `k_x` and `Tph` on exit.  With `ii = 0` the decrement gives `-1` and
`Height.at(-1)` throws. -/
def teffLoop {α : Type} [LinearOrderedField α] (M : CMath α) (K : GslConst α)
    (P : WalkParams α) (Mdot_in : α) (Height R Tph_vis : List α) :
    Nat → List α → Except Err (Nat × α × List α)
  | 0, _ => Except.error Err.out_of_range
  | n + 1, Tph =>
    match listAt Height n, listAt R n, listAt Tph_vis n with
    | Except.error e, _, _ => Except.error e
    | Except.ok _, Except.error e, _ => Except.error e
    | Except.ok _, Except.ok _, Except.error e => Except.error e
    | Except.ok H, Except.ok r, Except.ok tv =>
      let kv := irradiatedTph M K P Mdot_in H r tv
      if n < Tph.length then
        if kv.2 < P.T_min_hot_disk then
          teffLoop M K P Mdot_in Height R Tph_vis n (Tph.set n kv.2)
        else Except.ok (n, kv.1, Tph.set n kv.2)
      else Except.error Err.out_of_range

/-- The loops of the branches MdotOut and fourSigmaCrit, lines 254-262, entered
with `ii`; `crit r` is `Sigma_hot_disk(r)`, or four times it. -/
def sigmaLoop {α : Type} [LinearOrderedField α] (crit : α → α) (Sigma R : List α) :
    Nat → Except Err Nat
  | 0 => Except.error Err.out_of_range
  | n + 1 =>
    match listAt Sigma n with
    | Except.error e => Except.error e
    | Except.ok sg =>
      if sg < crit (R.getD n 0) then sigmaLoop crit Sigma R n
      else Except.ok n

/-- What the boundary block leaves behind. -/
structure WalkResult (α : Type) where
  ii : Nat
  k_x : α
  Tph : List α
  Mdot_out : α

/-- Lines 248-274 of the evolution loop: `Tph` starts as a copy of `Tph_vis`,
`k_x = 0`, `ii = Nx`, then the branch of `bound_cond_type`.  `Tph` is what the
magnitudes are computed from and what is reported, lines 276-301. -/
def boundaryWalk {α : Type} [LinearOrderedField α] (M : CMath α) (K : GslConst α)
    (P : WalkParams α) (Mdot_in Mdot_out : α) (Sigma Height R Tph_vis : List α)
    (Nx : Nat) : Except Err (WalkResult α) :=
  if P.bound_cond_type = "MdotOut" then
    match sigmaLoop (fun r => Sigma_hot_disk M K P.alpha P.Mx r) Sigma R Nx with
    | Except.error e => Except.error e
    | Except.ok ii => Except.ok ⟨ii, 0, Tph_vis, -P.kMdot_out * Mdot_in⟩
  else if P.bound_cond_type = "fourSigmaCrit" then
    match sigmaLoop (fun r => 4 * Sigma_hot_disk M K P.alpha P.Mx r) Sigma R Nx with
    | Except.error e => Except.error e
    | Except.ok ii => Except.ok ⟨ii, 0, Tph_vis, Mdot_out⟩
  else if P.bound_cond_type = "Teff" then
    if P.T_min_hot_disk > 0 then
      match teffLoop M K P Mdot_in Height R Tph_vis Nx Tph_vis with
      | Except.error e => Except.error e
      | Except.ok r => Except.ok ⟨r.1, r.2.1, r.2.2, Mdot_out⟩
    else Except.ok ⟨Nx, 0, Tph_vis, Mdot_out⟩
  else Except.error (Err.invalid_option_value P.bound_cond_type)

/-- The functions declared in arguments.hpp whose bodies are in files that are
not at hand (arguments.cpp, orbit.hpp, unit_transformation.hpp). -/
structure ArgumentFunctions (α : Type) where
  rocheLobeVolumeRadiusSemiaxis : α → α
  r_kerrISCORg : α → α
  rgToCm : α → α → α

/-- The class `BasicDiskBinaryArguments`, fields of lines 60-69. -/
structure BasicDiskBinaryArguments (α : Type) where
  alpha : α
  Mx : α
  kerr : α
  period : α
  Mopt : α
  Ropt : α
  Topt : α
  rin : α
  rout : α
  risco : α

/-- The static function `BlackHoleFunctions::r_kerrISCO`, line 36. -/
def r_kerrISCO {α : Type} (X : ArgumentFunctions α) (Mx kerr : α) : α :=
  X.rgToCm (X.r_kerrISCORg kerr) Mx

/-- The static function `BinaryFunctions::semiaxis(total_mass, period)`, lines 43-45;
`m::pow<2>(x)` is the square of `x`. -/
def semiaxis {α : Type} [LinearOrderedField α] (M : CMath α) (K : GslConst α)
    (total_mass period : α) : α :=
  M.cbrt (K.GRAVITATIONAL_CONSTANT * total_mass * (period * period) / (4 * (M.pi * M.pi)))

/-- The static function `BinaryFunctions::semiaxis(mass1, mass2, period)`, lines 46-48. -/
def semiaxis3 {α : Type} [LinearOrderedField α] (M : CMath α) (K : GslConst α)
    (mass1 mass2 period : α) : α :=
  semiaxis M K (mass1 + mass2) period

/-- The static function `BinaryFunctions::rocheLobeVolumeRadius`, lines 49-51. -/
def rocheLobeVolumeRadius {α : Type} [LinearOrderedField α] (M : CMath α) (K : GslConst α)
    (X : ArgumentFunctions α) (mass1 mass2 period : α) : α :=
  X.rocheLobeVolumeRadiusSemiaxis (mass1 / mass2) * semiaxis3 M K mass1 mass2 period

/-- The static function `rinFromMxKerr`, line 71. -/
def rinFromMxKerr {α : Type} (X : ArgumentFunctions α) (Mx kerr : α) : α :=
  r_kerrISCO X Mx kerr

/-- The static function `routFromMxMoptPeriod`, lines 72-77. -/
def routFromMxMoptPeriod {α : Type} [LinearOrderedField α] (M : CMath α) (K : GslConst α)
    (X : ArgumentFunctions α) (Mx Mopt period : α) : α :=
  0.9 * rocheLobeVolumeRadius M K X Mx Mopt period

/-- The static function `roptFromMxMoptPeriod`, lines 78-80. -/
def roptFromMxMoptPeriod {α : Type} [LinearOrderedField α] (M : CMath α) (K : GslConst α)
    (X : ArgumentFunctions α) (Mx Mopt period : α) : α :=
  rocheLobeVolumeRadius M K X Mopt Mx period

/-- The static function `riscoFromMxKerr`, line 81. -/
def riscoFromMxKerr {α : Type} (X : ArgumentFunctions α) (Mx kerr : α) : α :=
  r_kerrISCO X Mx kerr

/-- The constructor of `BasicDiskBinaryArguments`, lines 83-98; an absent
`std::optional` is `none`. -/
def BasicDiskBinaryArguments.new {α : Type} [LinearOrderedField α] (M : CMath α)
    (K : GslConst α) (X : ArgumentFunctions α) (alpha Mx kerr period Mopt : α)
    (Ropt : Option α) (Topt : α) (rin rout risco : Option α) :
    BasicDiskBinaryArguments α where
  alpha := alpha
  Mx := Mx
  kerr := kerr
  period := period
  Mopt := Mopt
  Ropt := match Ropt with
    | some v => v
    | none => roptFromMxMoptPeriod M K X Mx Mopt period
  Topt := Topt
  rin := match rin with
    | some v => v
    | none => rinFromMxKerr X Mx kerr
  rout := match rout with
    | some v => v
    | none => routFromMxMoptPeriod M K X Mx Mopt period
  risco := match risco with
    | some v => v
    | none => riscoFromMxKerr X Mx kerr

/-- Stand-ins for the functions of `ArgumentFunctions`: Eggleton's formula for the
Roche lobe, `6` gravitational radii for every spin, and `GM/c^2` as the
gravitational radius. -/
noncomputable def demoArgumentFunctions : ArgumentFunctions ℝ where
  rocheLobeVolumeRadiusSemiaxis := fun q =>
    0.49 * realMath.cbrt q * realMath.cbrt q /
      (0.6 * realMath.cbrt q * realMath.cbrt q + Real.log (1 + realMath.cbrt q))
  r_kerrISCORg := fun _ => 6
  rgToCm := fun rg Mx =>
    rg * gslCgsm.GRAVITATIONAL_CONSTANT * Mx / (gslCgsm.SPEED_OF_LIGHT * gslCgsm.SPEED_OF_LIGHT)

/-- The grid point `i` for the scales log and linear in exact real arithmetic: the
value of `gridPoint realMath` (see `gridPoint_real`), which the doubles of the
program approximate. -/
noncomputable def gridValue (grid_scale : String) (h_in h_out : ℝ) (Nx i : Nat) : ℝ :=
  if grid_scale = "log" then h_in * (h_out / h_in) ^ ((i : ℝ) / ((Nx : ℝ) - 1))
  else h_in + (h_out - h_in) * (i : ℝ) / ((Nx : ℝ) - 1)

/-- The variables of `main` for the shape power with `powerorder = 0`, `F0 = 10^37`
and a grid from `h_in = 1` to `h_out = 4`. -/
noncomputable def demoPowerZero : InitialParams ℝ where
  initial_cond_shape := "power"
  F0_gauss := 1e37
  sigma_for_F_gauss := 5
  r_gauss_cut_to_r_out := 0.01
  power_order := 0
  kMdot_out := 2
  alpha := 0.55
  Mx := 1
  GM := 1
  h_in := 1
  h_out := 4
  Mdot_out := 0

/-- As `demoPowerZero`, with the default `powerorder = 6`. -/
noncomputable def demoPowerSix : InitialParams ℝ :=
  { demoPowerZero with power_order := 6 }

/-- The variables of `main` for the boundary block: the defaults of the program
(`boundcond = Teff`, `k_irr = 0.05`, `eta = 1/12`, `Mx = 7.5` solar masses), and
`Thot = 8000`. -/
noncomputable def demoWalkParams : WalkParams ℝ where
  bound_cond_type := "Teff"
  T_min_hot_disk := 8000
  k_irr := 0.05
  eta := 1 / 12
  kMdot_out := 2
  alpha := 0.55
  Mx := 7.5 * gslCgsm.SOLAR_MASS

/-- A vector of two real numbers. -/
noncomputable def realVec2 (a b : ℝ) : Vec ℝ := ⟨[a, b], by simp [SIZE_MAX1]⟩

/-- An opacity law with the exponents of Kramers' law, `m = 0.3`, `n = 0.8`, and
`D = 1`. -/
noncomputable def demoOprel : OpacityRelated ℝ := ⟨0.3, 0.8, 1⟩

/-! ## The default radii of fred.cpp -/

/-- The function `r_out_func`, fred.cpp lines 18-23. -/
def r_out_func {α : Type} [LinearOrderedField α] (M : CMath α) (K : GslConst α)
    (Mx Mopt P : α) : α :=
  let semiAxis := M.cbrt (K.GRAVITATIONAL_CONSTANT * (Mx + Mopt) * P * P / (4 * M.pi * M.pi))
  let q := M.cbrt (Mx / Mopt)
  let roche := semiAxis * 0.49 * q * q / (0.6 * q * q + M.log (1 + q))
  0.8 * roche

/-- The function `r_in_func`, fred.cpp lines 25-29. -/
def r_in_func {α : Type} [LinearOrderedField α] (M : CMath α) (K : GslConst α)
    (Mx A : α) : α :=
  let Z1 := 1 + M.cbrt (1 - A * A) * (M.cbrt (1 + A) + M.cbrt (1 - A))
  let Z2 := M.sqrt (3 * A * A + Z1 * Z1)
  K.GRAVITATIONAL_CONSTANT * Mx / (K.SPEED_OF_LIGHT * K.SPEED_OF_LIGHT) *
    (3 + Z2 - M.sqrt ((3 - Z1) * (3 + Z1 + 2 * Z2)))

/-- Eggleton's volume radius of the Roche lobe of the compact object, as the spec
writes it: `a * 0.49 * q^(2/3) / (0.6 * q^(2/3) + ln(1 + q^(1/3)))` with `q = Mx/Mopt`
and `a = (G * (Mx + Mopt) * P^2 / (4*pi^2))^(1/3)`. -/
noncomputable def eggletonRadius (K : GslConst ℝ) (Mx Mopt P : ℝ) : ℝ :=
  (K.GRAVITATIONAL_CONSTANT * (Mx + Mopt) * P ^ 2 / (4 * Real.pi ^ 2)) ^ ((1 : ℝ) / 3) *
    0.49 * (Mx / Mopt) ^ ((2 : ℝ) / 3) /
    (0.6 * (Mx / Mopt) ^ ((2 : ℝ) / 3) + Real.log (1 + (Mx / Mopt) ^ ((1 : ℝ) / 3)))

/-! ## Neutron-star arguments (ns_arguments.hpp, ns_arguments.cpp)

`m::pow<N>(x)` of util.hpp is the `N`-th power of `x`. -/

/-- The type `pard`, a `std::map<std::string, double>`: the value stored under
each key, if any. -/
abbrev Pard (α : Type) : Type := String → Option α

/-- The empty map. -/
def Pard.empty {α : Type} : Pard α := fun _ => none

/-- The assignment `m[key] = value`. -/
def Pard.assign {α : Type} (m : Pard α) (key : String) (value : α) : Pard α :=
  fun k => if k = key then some value else m k

/-- The function `SibgatullinSunyaev2000Geometry::radiusNS`, lines 37-43. -/
def radiusNS {α : Type} [LinearOrderedField α] (freqx : α) : α :=
  let freqx_kHz := freqx / 1000.0
  let r_km := 12.44 - 3.061 * freqx_kHz + 0.843 * freqx_kHz ^ 2 + 0.6 * freqx_kHz ^ 3 +
    1.56 * freqx_kHz ^ 4
  1e5 * r_km

/-- The function `SibgatullinSunyaev2000Geometry::radiusISCO`, lines 45-51. -/
def radiusISCO {α : Type} [LinearOrderedField α] (freqx : α) : α :=
  let freqx_kHz := freqx / 1000.0
  let isco_minus_ns_km := 1.44 - 3.061 * freqx_kHz + 0.843 * freqx_kHz ^ 2 +
    0.6 * freqx_kHz ^ 3 - 0.22 * freqx_kHz ^ 4
  1e5 * isco_minus_ns_km + radiusNS freqx

/-- The class `NeutronStarArguments`, fields of lines 28-37. -/
structure NeutronStarArguments (α : Type) where
  nsprop : String
  freqx : α
  Rx : α
  Bx : α
  hotspotarea : α
  epsilonAlfven : α
  inversebeta : α
  Rdead : α
  fptype : String
  fpparams : Pard α

/-- The constant `default_Rx_dummy`, line 25. -/
def default_Rx_dummy {α : Type} [LinearOrderedField α] : α := 1e6

/-- The constant `default_freqx_dummy`, line 26. -/
def default_freqx_dummy {α : Type} [LinearOrderedField α] : α := 0

/-- The static function `NeutronStarArguments::initializeFreqx`, lines 13-21. -/
def initializeFreqx {α : Type} [LinearOrderedField α] (nsprop : String) : Except Err α :=
  if nsprop = "dummy" then Except.ok default_freqx_dummy
  else if nsprop = "sibgatullinsunyaev2000" ∨ nsprop = "sibsun2000" then
    Except.error
      (Err.runtime_error "freqx must be specified for nsprop=sibgatullinsunyaev2000")
  else Except.error (Err.invalid_argument "Wrong nsprop value")

/-- The static function `NeutronStarArguments::initializeRx`, lines 23-34. -/
def initializeRx {α : Type} [LinearOrderedField α] (nsprop : String) (freqx : Option α) :
    Except Err α :=
  if nsprop = "dummy" then Except.ok default_Rx_dummy
  else if nsprop = "sibgatullinsunyaev2000" ∨ nsprop = "sibsun2000" then
    match freqx with
    | none =>
      Except.error
        (Err.runtime_error "freqx must be specified for nsprop=sibgatullinsunyaev2000")
    | some f => Except.ok (radiusNS f)
  else Except.error (Err.invalid_argument "Wrong nsprop value")

/-- The constructor of `NeutronStarArguments`, lines 42-54: the members are
initialised in the order `nsprop`, `freqx`, `Rx`, and the first exception ends the
construction. -/
def NeutronStarArguments.new {α : Type} [LinearOrderedField α] (nsprop : String)
    (freqx Rx : Option α) (Bx hotspotarea epsilonAlfven inversebeta Rdead : α)
    (fptype : String) (fpparams : Pard α) : Except Err (NeutronStarArguments α) :=
  match (match freqx with
    | some v => Except.ok v
    | none => initializeFreqx nsprop) with
  | Except.error e => Except.error e
  | Except.ok f =>
    match (match Rx with
      | some v => Except.ok v
      | none => initializeRx nsprop freqx) with
    | Except.error e => Except.error e
    | Except.ok r =>
      Except.ok {
        nsprop := nsprop
        freqx := f
        Rx := r
        Bx := Bx
        hotspotarea := hotspotarea
        epsilonAlfven := epsilonAlfven
        inversebeta := inversebeta
        Rdead := Rdead
        fptype := fptype
        fpparams := fpparams }

/-- The static function `NeutronStarBasicDiskBinaryArguments::initializeRisco`,
lines 54-65. -/
def initializeRisco {α : Type} [LinearOrderedField α] (ns_args : NeutronStarArguments α)
    (risco : Option α) : Except Err (Option α) :=
  match risco with
  | some v => Except.ok (some v)
  | none =>
    if ns_args.nsprop = "dummy" then Except.ok none
    else if ns_args.nsprop = "sibgatullinsunyaev2000" ∨ ns_args.nsprop = "sibsun2000" then
      Except.ok (some (radiusISCO ns_args.freqx))
    else Except.error (Err.invalid_argument "Wrong nsprop value")

/-- The constructor of `NeutronStarBasicDiskBinaryArguments`, lines 63-80: the base
class is constructed with `initializeRisco(ns_args, risco)` for `risco`. -/
def NeutronStarBasicDiskBinaryArguments.new {α : Type} [LinearOrderedField α]
    (M : CMath α) (K : GslConst α) (X : ArgumentFunctions α)
    (ns_args : NeutronStarArguments α) (alpha Mx kerr period Mopt : α)
    (Ropt : Option α) (Topt : α) (rin rout risco : Option α) :
    Except Err (BasicDiskBinaryArguments α) :=
  match initializeRisco ns_args risco with
  | Except.error e => Except.error e
  | Except.ok r =>
    Except.ok (BasicDiskBinaryArguments.new M K X alpha Mx kerr period Mopt Ropt Topt rin rout r)

/-- The two constructions in a row: `NeutronStarArguments`, then
`NeutronStarBasicDiskBinaryArguments` from it. -/
def constructNeutronStar {α : Type} [LinearOrderedField α]
    (M : CMath α) (K : GslConst α) (X : ArgumentFunctions α) (nsprop : String)
    (freqx Rx : Option α) (Bx hotspotarea epsilonAlfven inversebeta Rdead : α)
    (fptype : String) (fpparams : Pard α) (alpha Mx kerr period Mopt : α)
    (Ropt : Option α) (Topt : α) (rin rout risco : Option α) :
    Except Err (NeutronStarArguments α × BasicDiskBinaryArguments α) :=
  match NeutronStarArguments.new nsprop freqx Rx Bx hotspotarea epsilonAlfven inversebeta
      Rdead fptype fpparams with
  | Except.error e => Except.error e
  | Except.ok ns =>
    match NeutronStarBasicDiskBinaryArguments.new M K X ns alpha Mx kerr period Mopt Ropt Topt
        rin rout risco with
    | Except.error e => Except.error e
    | Except.ok b => Except.ok (ns, b)

/-! ## Options (options.hpp, ns_options.cpp)

`boost::split(parts, token, boost::is_any_of(":"))` cuts the token at every colon,
without merging adjacent colons: a token with `n` colons gives `n + 1` parts, some
of them possibly empty. `std::stod` is a parameter `stod`. The exception
`po::validation_error(po::validation_error::invalid_option_value)` is
`Err.validation_error`. -/

/-- The parts of a list of characters cut at every `sep`. -/
def splitChars (sep : Char) : List Char → List (List Char)
  | [] => [[]]
  | c :: cs =>
    if c = sep then [] :: splitChars sep cs
    else
      match splitChars sep cs with
      | [] => [[c]]
      | part :: parts => (c :: part) :: parts

/-- The call `boost::split(parts, token, boost::is_any_of(":"))`: the value of `parts`. -/
def boostSplit (token : String) : List String :=
  (splitChars ':' token.data).map String.mk

/-- The body of the loop of `fpparamsInitializer`, lines 21-28, over the tokens left. -/
def fpparamsLoop {α : Type} (stod : String → Except Err α) :
    List String → Pard α → Except Err (Pard α)
  | [], m => Except.ok m
  | token :: tokens, m =>
    let parts := boostSplit token
    if parts.length ≠ 2 then Except.error Err.validation_error
    else
      match stod (parts.getD 1 "") with
      | Except.error e => Except.error e
      | Except.ok v => fpparamsLoop stod tokens (m.assign (parts.getD 0 "") v)

/-- The static function `NeutronStarOptions::fpparamsInitializer`, lines 15-30; the
argument is the value of the option `fpparams` in `vm`, `none` when
`vm.count("fpparams") == 0`. -/
def fpparamsInitializer {α : Type} (stod : String → Except Err α)
    (fpparams : Option (List String)) : Except Err (Pard α) :=
  match fpparams with
  | none => Except.ok Pard.empty
  | some tokens => fpparamsLoop stod tokens Pard.empty

/-- The default of the preprocessor symbol `INSTALLPATHPREFIX`, options.hpp line 6. -/
def default_INSTALLPATHPREFIX : String := ""

/-- The constant `default_config_filename` of `parseOptions`, line 89. -/
def default_config_filename : String := "freddi.ini"

/-- The array `config_file_dirs` of `parseOptions`, line 92; `home` is the value of the
environment variable `HOME`. -/
def config_file_dirs (home INSTALLPATHPREFIX : String) : List String :=
  [".", home, INSTALLPATHPREFIX ++ "/etc", "/etc"]

/-- The vector `config_file_paths` after the loop of lines 94-96. -/
def config_file_paths_default (home INSTALLPATHPREFIX : String) : List String :=
  (config_file_dirs home INSTALLPATHPREFIX).map
    (fun dir => dir ++ "/" ++ default_config_filename)

/-- The vector `config_file_paths` when the files are read, after lines 101-103;
`config` is the value of the option `config` once the command line is stored, `none`
when `vm.count("config") == 0`. -/
def config_file_paths (home INSTALLPATHPREFIX : String) (config : Option String) :
    List String :=
  match config with
  | some path => path :: config_file_paths_default home INSTALLPATHPREFIX
  | none => config_file_paths_default home INSTALLPATHPREFIX

/-- A source handed to `po::store`. -/
inductive Source where
  | command_line
  | config_file (path : String)
  deriving DecidableEq, Repr

/-- The calls of `po::store` made by `parseOptions`, lines 100-108, in order. -/
def parseOptions (home INSTALLPATHPREFIX : String) (config : Option String) : List Source :=
  Source.command_line ::
    (config_file_paths home INSTALLPATHPREFIX config).map Source.config_file

/-- The number written by a list of decimal digits, after the digits `n`. -/
def digitsValue : List Char → Nat → Option Nat
  | [], n => some n
  | c :: cs, n =>
    if c.isDigit then digitsValue cs (10 * n + (c.toNat - 48)) else none

/-- A stand-in for `std::stod` on the rationals, defined on the non-empty strings of
decimal digits; other strings are the `std::invalid_argument` of `std::stod`. -/
def demoStod (s : String) : Except Err ℚ :=
  match s.data with
  | [] => Except.error (Err.invalid_argument "stod")
  | c :: cs =>
    match digitsValue (c :: cs) 0 with
    | some n => Except.ok (n : ℚ)
    | none => Except.error (Err.invalid_argument "stod")

/-- The constant `CalculationArguments::default_Nt_for_tau`, line 275. -/
def default_Nt_for_tau : Nat := 200

/-- The constructor of `CalculationArguments`, lines 286-293; an absent
`std::optional` is `none`. -/
def CalculationArguments.new {α : Type} [LinearOrderedField α] (time : α) (tau : Option α)
    (Nx : Nat) (gridscale : String) (starlod : Nat) (eps : α) : CalculationArguments α where
  time := time
  tau := match tau with
    | some v => v
    | none => time / (default_Nt_for_tau : α)
  Nx := Nx
  gridscale := gridscale
  starlod := starlod
  eps := eps

/-! ## Geometry (geometry.cpp)

`std::array<double, 3>` is a triple. The class declarations are in geometry.hpp; the
members are read off the member functions of geometry.cpp. On the real numbers
`std::atan2(y, x)` is the argument of the complex number `x + i y` (in `(-pi, pi]`,
and `0` at the origin) and `std::acos` is the arc cosine. -/

/-- The type `std::array<double, 3>`. -/
abbrev Array3 (α : Type) : Type := α × α × α

/-- The static function `Vec3::cartesianToSpherical(x, y, z)`, lines 6-16. -/
def cartesianToSpherical {α : Type} [LinearOrderedField α] (M : CMath α) (x y z : α) :
    Array3 α :=
  let r := M.sqrt (x * x + y * y + z * z)
  if r = 0 then (0, 0, 0)
  else (r, M.acos (z / r), M.atan2 y x)

/-- The static function `Vec3::sphericalToCartesian(r, theta, phi)`, lines 22-29. -/
def sphericalToCartesian {α : Type} [LinearOrderedField α] (M : CMath α) (r theta phi : α) :
    Array3 α :=
  let sin_theta := M.sin theta
  (r * sin_theta * M.cos phi, r * sin_theta * M.sin phi, r * M.cos theta)

/-- The class `Vec3`: the members `cartesian_` and `spherical_`; the constructor of
lines 35-36 is `Vec3.mk`. -/
structure Vec3 (α : Type) where
  cartesian_ : Array3 α
  spherical_ : Array3 α

/-- The constructor `Vec3(x, y, z)`, lines 42-44. -/
def Vec3.new {α : Type} [LinearOrderedField α] (M : CMath α) (x y z : α) : Vec3 α :=
  ⟨(x, y, z), cartesianToSpherical M x y z⟩

/-- The static function `Vec3::fromSpherical(r, theta, phi)`, lines 50-52. -/
def Vec3.fromSpherical {α : Type} [LinearOrderedField α] (M : CMath α) (r theta phi : α) :
    Vec3 α :=
  ⟨sphericalToCartesian M r theta phi, (r, theta, phi)⟩

/-- The member function `Vec3::x`, lines 54-56. -/
def Vec3.x {α : Type} (v : Vec3 α) : α := v.cartesian_.1

/-- The member function `Vec3::y`, lines 58-60. -/
def Vec3.y {α : Type} (v : Vec3 α) : α := v.cartesian_.2.1

/-- The member function `Vec3::z`, lines 62-64. -/
def Vec3.z {α : Type} (v : Vec3 α) : α := v.cartesian_.2.2

/-- The member function `Vec3::r`, lines 66-68. -/
def Vec3.r {α : Type} (v : Vec3 α) : α := v.spherical_.1

/-- The member function `Vec3::theta`, lines 70-72. -/
def Vec3.theta {α : Type} (v : Vec3 α) : α := v.spherical_.2.1

/-- The member function `Vec3::phi`, lines 74-76. -/
def Vec3.phi {α : Type} (v : Vec3 α) : α := v.spherical_.2.2

/-- The operator `Vec3::operator+`, lines 94-100. -/
def Vec3.add {α : Type} [LinearOrderedField α] (M : CMath α) (v other : Vec3 α) : Vec3 α :=
  Vec3.new M (v.x + other.x) (v.y + other.y) (v.z + other.z)

/-- The operator `Vec3::operator*(factor)`, lines 110-115. -/
def Vec3.mul {α : Type} [LinearOrderedField α] (v : Vec3 α) (factor : α) : Vec3 α :=
  ⟨(factor * v.x, factor * v.y, factor * v.z), (factor * v.r, v.theta, v.phi)⟩

/-- The operator `operator*(factor, vec3)`, lines 117-119. -/
def Vec3.lmul {α : Type} [LinearOrderedField α] (factor : α) (vec3 : Vec3 α) : Vec3 α :=
  vec3.mul factor

/-- The operator `Vec3::operator/`, lines 121-123. -/
def Vec3.div {α : Type} [LinearOrderedField α] (v : Vec3 α) (factor : α) : Vec3 α :=
  v.mul (1 / factor)

/-- The member function `Vec3::dotProduct`, lines 133-135. -/
def Vec3.dotProduct {α : Type} [LinearOrderedField α] (v other : Vec3 α) : α :=
  v.x * other.x + v.y * other.y + v.z * other.z

/-- The constructor `UnitVec3(vec3)`, lines 146-148. -/
def UnitVec3.new {α : Type} [LinearOrderedField α] (vec3 : Vec3 α) : Vec3 α :=
  ⟨(vec3.x / vec3.r, vec3.y / vec3.r, vec3.z / vec3.r), (1, vec3.theta, vec3.phi)⟩

/-- The constructor `UnitVec3(theta, phi)`, lines 150-151. -/
def UnitVec3.ofAngles {α : Type} [LinearOrderedField α] (M : CMath α) (theta phi : α) :
    Vec3 α :=
  Vec3.fromSpherical M 1 theta phi

/-- The class `Triangle`: the member `vertices_`, a `std::array<Vec3, 3>`. -/
structure Triangle (α : Type) where
  vertices_ : Vec3 α × Vec3 α × Vec3 α

/-- The constructor `Triangle(vertex1, vertex2, vertex3)`, lines 159-160. -/
def Triangle.new {α : Type} (vertex1 vertex2 vertex3 : Vec3 α) : Triangle α :=
  ⟨(vertex1, vertex2, vertex3)⟩

/-- The member function `Triangle::divide`, lines 218-228; the `std::array` of four
triangles is a list. -/
def Triangle.divide {α : Type} [LinearOrderedField α] (M : CMath α) (t : Triangle α) :
    List (Triangle α) :=
  let vertex01 := Vec3.lmul 0.5 (t.vertices_.1.add M t.vertices_.2.1)
  let vertex02 := Vec3.lmul 0.5 (t.vertices_.1.add M t.vertices_.2.2)
  let vertex12 := Vec3.lmul 0.5 (t.vertices_.2.1.add M t.vertices_.2.2)
  [Triangle.new t.vertices_.1 vertex01 vertex02,
    Triangle.new t.vertices_.2.1 vertex12 vertex01,
    Triangle.new t.vertices_.2.2 vertex02 vertex12,
    Triangle.new vertex01 vertex12 vertex02]

/-- The member function `Triangle::projectedOntoUnitSphere`, lines 230-232. -/
def Triangle.projectedOntoUnitSphere {α : Type} [LinearOrderedField α] (t : Triangle α) :
    Triangle α :=
  Triangle.new (UnitVec3.new t.vertices_.1) (UnitVec3.new t.vertices_.2.1)
    (UnitVec3.new t.vertices_.2.2)

/-- The inner loop of the constructor of `UnitSphere`, lines 241-243: the small
triangles of one large triangle are pushed onto `tmp`. -/
def UnitSphere.pushSmall {α : Type} [LinearOrderedField α] :
    List (Triangle α) → List (Triangle α) → List (Triangle α)
  | [], tmp => tmp
  | small_triangle :: rest, tmp =>
    UnitSphere.pushSmall rest (tmp ++ [small_triangle.projectedOntoUnitSphere])

/-- The loop over `triangles_` of the constructor of `UnitSphere`, lines 240-244. -/
def UnitSphere.pass {α : Type} [LinearOrderedField α] (M : CMath α) :
    List (Triangle α) → List (Triangle α) → List (Triangle α)
  | [], tmp => tmp
  | large_triangle :: rest, tmp =>
    UnitSphere.pass M rest (UnitSphere.pushSmall (large_triangle.divide M) tmp)

/-- One turn of the outer loop, lines 239-245: the new value of `triangles_`. -/
def UnitSphere.refine {α : Type} [LinearOrderedField α] (M : CMath α)
    (triangles_ : List (Triangle α)) : List (Triangle α) :=
  UnitSphere.pass M triangles_ []

/-- The outer loop `for (unsigned short i = grid_scale; i != 0; --i)`, lines 238-246:
the number of passes made and the final `triangles_`. -/
def UnitSphere.loop {α : Type} [LinearOrderedField α] (M : CMath α) :
    Nat → Nat × List (Triangle α) → Nat × List (Triangle α)
  | 0, acc => acc
  | i + 1, (passes, triangles_) =>
    UnitSphere.loop M i (passes + 1, UnitSphere.refine M triangles_)

/-- The constructor of `UnitSphere`, lines 235-247; the triangles of the base
polyhedron, `polyhedron_triangles<Icosahedron>()` of geometry.hpp, are the
parameter `base`. The result is the number of passes of the loop and the member
`triangles_`. -/
def UnitSphere.new {α : Type} [LinearOrderedField α] (M : CMath α) (base : List (Triangle α))
    (grid_scale : Nat) : Nat × List (Triangle α) :=
  UnitSphere.loop M grid_scale (0, base)

/-- The position of the leading bit of `n`, with at most `fuel` halvings. -/
def log2Fuel : Nat → Nat → Nat
  | 0, _ => 0
  | fuel + 1, n => if n < 2 then 0 else log2Fuel fuel (n / 2) + 1

/-- The binary exponent `b` of a positive rational `q`: `2^b <= q < 2^(b+1)`. -/
def binade (q : ℚ) : ℤ :=
  let e0 : ℤ := (log2Fuel q.num.natAbs q.num.natAbs : ℤ) - (log2Fuel q.den q.den : ℤ)
  if (2 : ℚ) ^ e0 ≤ q then e0 else e0 - 1

/-- Rounding to the nearest integer, ties to even. -/
def roundEven (x : ℚ) : ℤ :=
  if x - ⌊x⌋ < 1 / 2 then ⌊x⌋
  else if 1 / 2 < x - ⌊x⌋ then ⌊x⌋ + 1
  else if ⌊x⌋ % 2 = 0 then ⌊x⌋ else ⌊x⌋ + 1

/-- Rounding of a positive rational to 53 significant bits. -/
def roundPos (q : ℚ) : ℚ :=
  (roundEven (q / (2 : ℚ) ^ (binade q - 52)) : ℚ) * (2 : ℚ) ^ (binade q - 52)

/-- Rounding to 53 significant bits, to nearest, ties to even. -/
def roundDouble (q : ℚ) : ℚ :=
  if q = 0 then 0 else if q < 0 then -roundPos (-q) else roundPos q

/-- A value of the arithmetic of `double`. -/
structure Double where
  val : ℚ
  deriving DecidableEq

/-- The value is a number of the format. -/
def Double.IsDouble (x : Double) : Prop := roundDouble x.val = x.val

instance : Zero Double := ⟨⟨0⟩⟩

instance : One Double := ⟨⟨1⟩⟩

instance : Add Double := ⟨fun a b => ⟨roundDouble (a.val + b.val)⟩⟩

instance : Sub Double := ⟨fun a b => ⟨roundDouble (a.val - b.val)⟩⟩

instance : Mul Double := ⟨fun a b => ⟨roundDouble (a.val * b.val)⟩⟩

instance : Div Double := ⟨fun a b => ⟨roundDouble (a.val / b.val)⟩⟩

instance : Neg Double := ⟨fun a => ⟨-a.val⟩⟩

instance : NatCast Double := ⟨fun n => ⟨roundDouble (n : ℚ)⟩⟩

instance : OfScientific Double :=
  ⟨fun m s e => ⟨roundDouble (OfScientific.ofScientific m s e : ℚ)⟩⟩

instance : LT Double := ⟨fun a b => a.val < b.val⟩

instance : LE Double := ⟨fun a b => a.val ≤ b.val⟩

instance : DecidableRel (fun a b : Double => a < b) :=
  fun a b => inferInstanceAs (Decidable (a.val < b.val))

instance : DecidableRel (fun a b : Double => a ≤ b) :=
  fun a b => inferInstanceAs (Decidable (a.val ≤ b.val))

/-- What the theorems on the power shape ask of `pow` of libm on doubles:
`pow(0, p) = 0` for `p > 0` and `pow(1, p) = 1` (Annex F of the C standard), and a
result in `[0, 1]` for a base in `[0, 1]` and `p > 0`. -/
structure PowLaws (M : CMath Double) : Prop where
  pow_zero_base : ∀ p : Double, 0 < p → M.pow 0 p = 0
  pow_one_base : ∀ p : Double, M.pow 1 p = 1
  pow_unit : ∀ x p : Double, 0 ≤ x → x ≤ 1 → 0 < p → 0 ≤ M.pow x p ∧ M.pow x p ≤ 1

/-- What the theorems on the sinus shape ask of `sin` of libm on doubles:
`sin(0) = 0`, `sin(M_PI / 2) = 1` and a result in `[0, 1]` on the quarter period. -/
structure SinLaws (M : CMath Double) : Prop where
  sin_zero : M.sin 0 = 0
  sin_half_pi : M.sin (1 * M.pi / 2) = 1
  sin_unit : ∀ x : Double, 0 ≤ x → x ≤ 1 →
    0 ≤ M.sin (x * M.pi / 2) ∧ M.sin (x * M.pi / 2) ≤ 1

/-- A stand-in for libm on doubles: `fabs` is exact and `pow` is exact at the
exponents 0 and 1; the other functions are not used where it stands. -/
def demoLibm : CMath Double where
  pow := fun x y => if y = 0 then 1 else x
  fabs := fun x => ⟨|x.val|⟩
  sqrt := fun x => x
  cbrt := fun x => x
  sin := fun x => x
  cos := fun x => x
  exp := fun x => x
  log := fun x => x
  pi := ⟨884279719003555 / 281474976710656⟩
  acos := fun x => x
  atan2 := fun y _ => y

/-- The variables of `main` for the shape power with `powerorder = 1` and the default
`F0 = 10^37`, in doubles, on a grid from 1 to 4. -/
def demoPowerOneD : InitialParams Double where
  initial_cond_shape := "power"
  F0_gauss := 1e37
  sigma_for_F_gauss := 5
  r_gauss_cut_to_r_out := 0.01
  power_order := 1
  kMdot_out := 2
  alpha := 0.55
  Mx := 1
  GM := 1
  h_in := 1
  h_out := 4
  Mdot_out := 0

/-! ## Size arithmetic and vector access -/

theorem sizeDec_of_pos (n : Nat) (h1 : 1 ≤ n) : sizeDec n = n - 1 := by
  unfold sizeDec
  rw [if_neg (by omega)]

theorem sizeInc_of_lt (n : Nat) (h : n + 1 < SIZE_MAX1) : sizeInc n = n + 1 := by
  unfold sizeInc
  rw [if_neg (by omega)]

theorem vecAt_ok_lt {α : Type} (v : Vec α) (i : Nat) (x : α) (h : vecAt v i = Except.ok x) :
    i < v.size := by
  unfold vecAt at h
  cases hg : v.data.get? i with
  | none => rw [hg] at h; cases h
  | some y =>
    have := List.get?_eq_some.mp hg
    obtain ⟨hlt, _⟩ := this
    exact hlt

theorem vecAt_ok_succ_lt {α : Type} (v : Vec α) (i : Nat) (x : α)
    (h : vecAt v i = Except.ok x) : i + 1 < SIZE_MAX1 := by
  have h1 := vecAt_ok_lt v i x h
  have h2 := v.size_lt
  unfold Vec.size at h1
  omega

theorem vecAt_of_lt {α : Type} (v : Vec α) (i : Nat) (h : i < v.size) :
    ∃ x, vecAt v i = Except.ok x := by
  unfold Vec.size at h
  refine ⟨v.data.get ⟨i, h⟩, ?_⟩
  unfold vecAt
  rw [List.get?_eq_get h]

/-! ## The retreat loop -/

/-- The conditions of the three loops throw nothing but `out_of_range`. -/
theorem retreatCond_error {α : Type} (E : Env α) (s : State α) (c : Criterion) (ii : Nat)
    (e : Err) (h : retreatCond E s c ii = Except.error e) : e = Err.out_of_range := by
  have key : ∀ (v : Vec α) (j : Nat) (e1 : Err), vecAt v j = Except.error e1 →
      e1 = Err.out_of_range := by
    intro v j e1 h1
    unfold vecAt at h1
    cases hg : v.data.get? j with
    | none => rw [hg] at h1; cases h1; rfl
    | some y => rw [hg] at h1; cases h1
  cases c with
  | sigma =>
    simp only [retreatCond] at h
    cases h1 : vecAt (E.Sigma s) ii with
    | error e1 => rw [h1] at h; cases h; exact key _ _ _ h1
    | ok sg =>
      rw [h1] at h
      cases h2 : vecAt s.R ii with
      | error e2 => rw [h2] at h; cases h; exact key _ _ _ h2
      | ok r => rw [h2] at h; cases h
  | teff =>
    simp only [retreatCond] at h
    cases h1 : vecAt (E.Tph s) ii with
    | error e1 => rw [h1] at h; cases h; exact key _ _ _ h1
    | ok x => rw [h1] at h; cases h
  | tirr =>
    simp only [retreatCond] at h
    cases h1 : vecAt (E.Tirr s) ii with
    | error e1 => rw [h1] at h; cases h; exact key _ _ _ h1
    | ok x => rw [h1] at h; cases h

/-- A loop started at `ii` in `1 .. fuel` exits normally at `r` exactly when `r`
is the first index below `ii`, above `first`, where the condition is false. -/
theorem retreatLoop_ok_iff (cond : Nat → Except Err Bool) (first : Nat) :
    ∀ (fuel ii r : Nat), 1 ≤ ii → ii ≤ fuel →
      (retreatLoop cond first fuel ii = Except.ok r ↔
        first < r ∧ r < ii ∧ cond r = Except.ok false ∧
          ∀ j, r < j → j < ii → cond j = Except.ok true) := by
  intro fuel
  induction fuel with
  | zero => intro ii r h1 h2; omega
  | succ n ih =>
    intro ii r h1 h2
    have hd : sizeDec ii = ii - 1 := sizeDec_of_pos ii h1
    simp only [retreatLoop, hd]
    by_cases hf : ii - 1 ≤ first
    · rw [if_pos hf]
      constructor
      · intro h; cases h
      · rintro ⟨ha, hb, _, _⟩; omega
    · rw [if_neg hf]
      have hf1 : first < ii - 1 := Nat.lt_of_not_le hf
      cases hc : cond (ii - 1) with
      | error e =>
        constructor
        · intro h; cases h
        · rintro ⟨_, hb, hr, hall⟩
          by_cases hrm : r = ii - 1
          · rw [hrm, hc] at hr; cases hr
          · have := hall (ii - 1) (by omega) (by omega)
            rw [hc] at this; cases this
      | ok b =>
        cases b with
        | true =>
          have ih1 := ih (ii - 1) r (by omega) (by omega)
          simp only []
          rw [ih1]
          constructor
          · rintro ⟨ha, hb, hr, hall⟩
            refine ⟨ha, by omega, hr, ?_⟩
            intro j hj1 hj2
            by_cases hjm : j = ii - 1
            · rw [hjm]; exact hc
            · exact hall j hj1 (by omega)
          · rintro ⟨ha, hb, hr, hall⟩
            have hne : r ≠ ii - 1 := by
              intro hrm
              rw [hrm, hc] at hr
              cases hr
            refine ⟨ha, by omega, hr, ?_⟩
            intro j hj1 hj2
            exact hall j hj1 (by omega)
        | false =>
          simp only []
          constructor
          · intro h
            cases h
            refine ⟨hf1, by omega, hc, ?_⟩
            intro j hj1 hj2
            omega
          · rintro ⟨_, hb, hr, hall⟩
            by_cases hrm : r = ii - 1
            · rw [hrm]
            · have := hall (ii - 1) (by omega) (by omega)
              rw [hc] at this; cases this

/-- A loop started at `ii` in `1 .. fuel` throws "Rout <= Rin" exactly when the
condition is true at every index below `ii` and above `first`, provided the
condition itself does not throw that error. -/
theorem retreatLoop_exhausted_iff (cond : Nat → Except Err Bool) (first : Nat)
    (hcond : ∀ j e, cond j = Except.error e → e ≠ Err.runtime_error "Rout <= Rin") :
    ∀ (fuel ii : Nat), 1 ≤ ii → ii ≤ fuel →
      (retreatLoop cond first fuel ii = Except.error (Err.runtime_error "Rout <= Rin") ↔
        ∀ j, first < j → j < ii → cond j = Except.ok true) := by
  intro fuel
  induction fuel with
  | zero => intro ii h1 h2; omega
  | succ n ih =>
    intro ii h1 h2
    have hd : sizeDec ii = ii - 1 := sizeDec_of_pos ii h1
    simp only [retreatLoop, hd]
    by_cases hf : ii - 1 ≤ first
    · rw [if_pos hf]
      constructor
      · intro _ j hj1 hj2; omega
      · intro _; rfl
    · rw [if_neg hf]
      have hf1 : first < ii - 1 := Nat.lt_of_not_le hf
      cases hc : cond (ii - 1) with
      | error e =>
        constructor
        · intro h
          cases h
          exact absurd rfl (hcond _ _ hc)
        · intro hall
          have := hall (ii - 1) hf1 (by omega)
          rw [hc] at this; cases this
      | ok b =>
        cases b with
        | true =>
          have ih1 := ih (ii - 1) (by omega) (by omega)
          simp only []
          rw [ih1]
          constructor
          · intro hall j hj1 hj2
            by_cases hjm : j = ii - 1
            · rw [hjm]; exact hc
            · exact hall j hj1 (by omega)
          · intro hall j hj1 hj2
            exact hall j hj1 (by omega)
        | false =>
          simp only []
          constructor
          · intro h; cases h
          · intro hall
            have := hall (ii - 1) hf1 (by omega)
            rw [hc] at this; cases this

/-- The loop does not look at the condition at or below `first`. -/
theorem retreatLoop_congr (cond cond2 : Nat → Except Err Bool) (first : Nat)
    (hag : ∀ j, first < j → cond2 j = cond j) :
    ∀ (fuel ii : Nat), retreatLoop cond2 first fuel ii = retreatLoop cond first fuel ii := by
  intro fuel
  induction fuel with
  | zero => intro ii; rfl
  | succ n ih =>
    intro ii
    simp only [retreatLoop]
    by_cases hf : sizeDec ii ≤ first
    · rw [if_pos hf, if_pos hf]
    · rw [if_neg hf, if_neg hf, hag _ (Nat.lt_of_not_le hf), ih]

/-! ## The structure of `truncateOuterRadius` -/

/-- The three copies of the loop are the loop of the selected criterion. -/
theorem retreatIndex_eq {α : Type} (E : Env α) (s : State α) :
    retreatIndex E s =
      match selectCriterion E s with
      | Except.error e => Except.error e
      | Except.ok c => retreatLoop (retreatCond E s c) s.first (s.last + 1) (sizeInc s.last) := by
  unfold retreatIndex selectCriterion
  cases vecAt (E.Tirr s) s.last with
  | error e => rfl
  | ok tirr =>
    cases vecAt (E.Tph_vis s) s.last with
    | error e => rfl
    | ok tvis =>
      simp only []
      split_ifs <;> rfl

/-- With `Thot > 0` the first guard does not return. -/
theorem guard_Thot {α : Type} (E : Env α)
    (hThot : E.ops.lt E.ops.zero E.disk.Thot = true) :
    E.ops.le E.disk.Thot E.ops.zero = false :=
  E.ops.lt_not_le _ _ hThot

/-- With `Mdot_in <= Mdot_in_prev` the second guard does not return. -/
theorem guard_Mdot {α : Type} (E : Env α) (s : State α)
    (hM : E.ops.le (E.Mdot_in s) s.Mdot_in_prev = true) :
    E.ops.lt s.Mdot_in_prev (E.Mdot_in s) = false := by
  cases hlt : E.ops.lt s.Mdot_in_prev (E.Mdot_in s) with
  | false => rfl
  | true =>
    have := E.ops.lt_not_le _ _ hlt
    rw [hM] at this
    cases this

/-- Past the two guards the function is the retreat by the selected criterion. -/
theorem truncateOuterRadius_past_guards {α : Type} (E : Env α) (s : State α)
    (h1 : E.ops.le E.disk.Thot E.ops.zero = false)
    (h2 : E.ops.lt s.Mdot_in_prev (E.Mdot_in s) = false) :
    truncateOuterRadius E s =
      match selectCriterion E s with
      | Except.error e => (some e, s)
      | Except.ok c => retreatBy E s c := by
  unfold truncateOuterRadius
  rw [h1, h2, retreatIndex_eq]
  simp only [Bool.false_eq_true, if_false]
  cases selectCriterion E s with
  | error e => simp only []
  | ok c => simp only [retreatBy, retreatWith]

/-- A selected criterion means that `.at(last())` succeeded: `last() + 1` does not
wrap. -/
theorem selectCriterion_ok_bound {α : Type} (E : Env α) (s : State α) (c : Criterion)
    (h : selectCriterion E s = Except.ok c) : s.last + 1 < SIZE_MAX1 := by
  unfold selectCriterion at h
  cases h1 : vecAt (E.Tirr s) s.last with
  | error e => rw [h1] at h; cases h
  | ok tirr => exact vecAt_ok_succ_lt _ _ _ h1

/-- A normal return of the retreat under a condition, when `last() + 1` does not
wrap: either the loop stopped at `last()` and nothing changed, or `last` moved to
the exit index of the loop.  In both cases the new `last` is the exit index. -/
theorem retreatWith_ok {α : Type} (cond : Nat → Except Err Bool) (s s1 : State α)
    (hb : s.last + 1 < SIZE_MAX1) (h : retreatWith cond s = (none, s1)) :
    s1 = { s with last := s1.last } ∧ s.first < s1.last ∧ s1.last ≤ s.last ∧
      cond s1.last = Except.ok false ∧
      ∀ j, s1.last < j → j ≤ s.last → cond j = Except.ok true := by
  unfold retreatWith at h
  rw [sizeInc_of_lt _ hb] at h
  cases hl : retreatLoop cond s.first (s.last + 1) (s.last + 1) with
  | error e => rw [hl] at h; cases h
  | ok ii =>
    rw [hl] at h
    have hspec := (retreatLoop_ok_iff cond s.first (s.last + 1) (s.last + 1) ii
      (by omega) (le_refl _)).mp hl
    obtain ⟨ha, hb2, hc, hall⟩ := hspec
    simp only [] at h
    by_cases hii : ii ≤ sizeDec s.last
    · rw [if_pos hii] at h
      cases h
      exact ⟨rfl, ha, by simp only []; omega, hc, fun j hj1 hj2 => hall j hj1 (by omega)⟩
    · rw [if_neg hii] at h
      cases h
      have hlast : 1 ≤ s.last := by omega
      rw [sizeDec_of_pos _ hlast] at hii
      have heq : ii = s.last := by omega
      rw [heq] at hc
      exact ⟨rfl, by omega, le_refl _, hc, fun j hj1 hj2 => by omega⟩

/-- The four ways through `truncateOuterRadius`. -/
theorem truncateOuterRadius_cases {α : Type} (E : Env α) (s : State α) :
    (E.ops.le E.disk.Thot E.ops.zero = true ∧ truncateOuterRadius E s = (none, s)) ∨
    (E.ops.lt s.Mdot_in_prev (E.Mdot_in s) = true ∧ truncateOuterRadius E s = (none, s)) ∨
    (E.ops.le E.disk.Thot E.ops.zero = false ∧
      E.ops.lt s.Mdot_in_prev (E.Mdot_in s) = false ∧
      ∃ e, selectCriterion E s = Except.error e ∧ truncateOuterRadius E s = (some e, s)) ∨
    (E.ops.le E.disk.Thot E.ops.zero = false ∧
      E.ops.lt s.Mdot_in_prev (E.Mdot_in s) = false ∧
      ∃ c, selectCriterion E s = Except.ok c ∧
        truncateOuterRadius E s = retreatBy E s c) := by
  cases h1 : E.ops.le E.disk.Thot E.ops.zero with
  | true =>
    left
    refine ⟨rfl, ?_⟩
    unfold truncateOuterRadius
    rw [h1, if_pos rfl]
  | false =>
    cases h2 : E.ops.lt s.Mdot_in_prev (E.Mdot_in s) with
    | true =>
      right; left
      refine ⟨rfl, ?_⟩
      unfold truncateOuterRadius
      rw [h1, h2, if_neg (by simp), if_pos rfl]
    | false =>
      have hp := truncateOuterRadius_past_guards E s h1 h2
      cases hc : selectCriterion E s with
      | error e =>
        right; right; left
        rw [hc] at hp
        exact ⟨rfl, rfl, e, rfl, hp⟩
      | ok c =>
        right; right; right
        rw [hc] at hp
        exact ⟨rfl, rfl, c, rfl, hp⟩

/-- The retreat under a condition writes `last` only, and nothing when it throws. -/
theorem retreatWith_frame {α : Type} (cond : Nat → Except Err Bool) (s : State α) :
    (retreatWith cond s).2 = { s with last := (retreatWith cond s).2.last } ∧
      ((retreatWith cond s).1 ≠ none → (retreatWith cond s).2 = s) := by
  unfold retreatWith
  cases retreatLoop cond s.first (s.last + 1) (sizeInc s.last) with
  | error e => exact ⟨rfl, fun _ => rfl⟩
  | ok ii =>
    by_cases hii : ii ≤ sizeDec s.last
    · rw [show (match (Except.ok ii : Except Err Nat) with
        | Except.error e => ((some e, s) : Outcome α)
        | Except.ok ii =>
          if ii ≤ sizeDec s.last then (none, { s with last := ii })
          else (none, s)) = (none, { s with last := ii }) from if_pos hii]
      exact ⟨rfl, fun h => absurd rfl h⟩
    · rw [show (match (Except.ok ii : Except Err Nat) with
        | Except.error e => ((some e, s) : Outcome α)
        | Except.ok ii =>
          if ii ≤ sizeDec s.last then (none, { s with last := ii })
          else (none, s)) = (none, s) from if_neg hii]
      exact ⟨rfl, fun h => absurd rfl h⟩

/-- The retreat under a condition that is false at `last()`, above `first()`,
returns normally and changes nothing. -/
theorem retreatWith_fixed {α : Type} (cond : Nat → Except Err Bool) (s : State α)
    (hb : s.last + 1 < SIZE_MAX1) (hf : s.first < s.last)
    (hc : cond s.last = Except.ok false) : retreatWith cond s = (none, s) := by
  have hl : retreatLoop cond s.first (s.last + 1) (s.last + 1) = Except.ok s.last :=
    (retreatLoop_ok_iff cond s.first (s.last + 1) (s.last + 1) s.last
      (by omega) (le_refl _)).mpr ⟨hf, by omega, hc, fun j hj1 hj2 => by omega⟩
  unfold retreatWith
  rw [sizeInc_of_lt _ hb, hl]
  have hd : ¬ s.last ≤ sizeDec s.last := by
    rw [sizeDec_of_pos _ (by omega)]
    omega
  simp only [if_neg hd]

/-- The loop conditions read the observables and `R` only. -/
theorem retreatCond_congr {α : Type} (E : Env α) (s s1 : State α) (c : Criterion)
    (hR : s1.R = s.R) (hTirr : E.Tirr s1 = E.Tirr s) (hTph : E.Tph s1 = E.Tph s)
    (hSigma : E.Sigma s1 = E.Sigma s) :
    retreatCond E s1 c = retreatCond E s c := by
  funext ii
  cases c with
  | sigma => simp only [retreatCond, hR, hSigma]
  | teff => simp only [retreatCond, hTph]
  | tirr => simp only [retreatCond, hTirr]

/-- The branch of the `if` chain, from the two values read at `last()`. -/
theorem selectCriterion_eq {α : Type} (E : Env α) (s : State α) (tirr tvis : α)
    (h1 : vecAt (E.Tirr s) s.last = Except.ok tirr)
    (h2 : vecAt (E.Tph_vis s) s.last = Except.ok tvis) :
    selectCriterion E s =
      if E.ops.lt (E.ops.div tirr tvis) E.disk.Tirr2Tvishot then Except.ok Criterion.sigma
      else if E.disk.boundcond = "Teff" then Except.ok Criterion.teff
      else if E.disk.boundcond = "Tirr" then Except.ok Criterion.tirr
      else Except.error (Err.invalid_argument "Wrong boundcond") := by
  unfold selectCriterion
  rw [h1, h2]

/-- Past the guards, with a selected criterion, the call is the retreat by it. -/
theorem truncateOuterRadius_of_select {α : Type} (E : Env α) (s : State α) (c : Criterion)
    (hThot : E.ops.lt E.ops.zero E.disk.Thot = true)
    (hM : E.ops.le (E.Mdot_in s) s.Mdot_in_prev = true)
    (hc : selectCriterion E s = Except.ok c) :
    truncateOuterRadius E s = retreatBy E s c := by
  have hp := truncateOuterRadius_past_guards E s (guard_Thot E hThot) (guard_Mdot E s hM)
  rw [hc] at hp
  exact hp

/-- The call writes `last` only, and nothing when it throws. -/
theorem truncateOuterRadius_writes_last {α : Type} (E : Env α) (s : State α) :
    (truncateOuterRadius E s).2 = { s with last := (truncateOuterRadius E s).2.last } ∧
      ((truncateOuterRadius E s).1 ≠ none → (truncateOuterRadius E s).2 = s) := by
  rcases truncateOuterRadius_cases E s with ⟨_, h⟩ | ⟨_, h⟩ | ⟨_, _, e, _, h⟩ | ⟨_, _, c, _, h⟩
  · rw [h]; exact ⟨rfl, fun _ => rfl⟩
  · rw [h]; exact ⟨rfl, fun _ => rfl⟩
  · rw [h]; exact ⟨rfl, fun _ => rfl⟩
  · rw [h]; exact retreatWith_frame (retreatCond E s c) s

/-- A normal return either changes nothing or is the retreat by the selected
criterion. -/
theorem truncateOuterRadius_ok_cases {α : Type} (E : Env α) (s s1 : State α)
    (h : truncateOuterRadius E s = (none, s1)) :
    s1 = s ∨
      (E.ops.le E.disk.Thot E.ops.zero = false ∧
        E.ops.lt s.Mdot_in_prev (E.Mdot_in s) = false ∧
        ∃ c, selectCriterion E s = Except.ok c ∧ retreatBy E s c = (none, s1)) := by
  rcases truncateOuterRadius_cases E s with ⟨_, h1⟩ | ⟨_, h1⟩ | ⟨_, _, e, _, h1⟩ |
    ⟨ha, hb, c, hc, h1⟩
  · rw [h1] at h; cases h; exact Or.inl rfl
  · rw [h1] at h; cases h; exact Or.inl rfl
  · rw [h1] at h; cases h
  · rw [h1] at h; exact Or.inr ⟨ha, hb, c, hc, h⟩

/-- A loop started at `ii` in `1 .. fuel` does not exhaust its budget. -/
theorem retreatLoop_budget (cond : Nat → Except Err Bool) (first : Nat)
    (hcond : ∀ j, cond j ≠ Except.error Err.out_of_fuel) :
    ∀ (fuel ii : Nat), 1 ≤ ii → ii ≤ fuel →
      retreatLoop cond first fuel ii ≠ Except.error Err.out_of_fuel := by
  intro fuel
  induction fuel with
  | zero => intro ii h1 h2; omega
  | succ n ih =>
    intro ii h1 h2
    have hd : sizeDec ii = ii - 1 := sizeDec_of_pos ii h1
    simp only [retreatLoop, hd]
    by_cases hf : ii - 1 ≤ first
    · rw [if_pos hf]
      intro h
      cases h
    · rw [if_neg hf]
      cases hc : cond (ii - 1) with
      | error e =>
        intro h
        cases h
        exact hcond _ hc
      | ok b =>
        cases b with
        | true => exact ih (ii - 1) (by omega) (by omega)
        | false =>
          intro h
          cases h

/-- The budget `last() + 1` given to the loops is never exhausted: the embedding of
`truncateOuterRadius` ends with a normal return or with an exception of the
source, for every environment and state. -/
theorem truncateOuterRadius_total {α : Type} (E : Env α) (s : State α) :
    (truncateOuterRadius E s).1 ≠ some Err.out_of_fuel := by
  rcases truncateOuterRadius_cases E s with ⟨_, h⟩ | ⟨_, h⟩ | ⟨_, _, e, he, h⟩ |
    ⟨_, _, c, hc, h⟩
  · rw [h]; intro h0; cases h0
  · rw [h]; intro h0; cases h0
  · rw [h]
    intro h0
    cases h0
    unfold selectCriterion at he
    cases h1 : vecAt (E.Tirr s) s.last with
    | error e1 =>
      rw [h1] at he
      unfold vecAt at h1
      cases hg : (E.Tirr s).data.get? s.last with
      | none => rw [hg] at h1; cases h1; cases he
      | some y => rw [hg] at h1; cases h1
    | ok tirr =>
      rw [h1] at he
      cases h2 : vecAt (E.Tph_vis s) s.last with
      | error e2 =>
        rw [h2] at he
        unfold vecAt at h2
        cases hg : (E.Tph_vis s).data.get? s.last with
        | none => rw [hg] at h2; cases h2; cases he
        | some y => rw [hg] at h2; cases h2
      | ok tvis =>
        rw [h2] at he
        simp only [] at he
        split_ifs at he
        cases he
  · have hb := selectCriterion_ok_bound E s c hc
    have hcond : ∀ j, retreatCond E s c j ≠ Except.error Err.out_of_fuel := by
      intro j hj
      have := retreatCond_error E s c j _ hj
      cases this
    have hl := retreatLoop_budget (retreatCond E s c) s.first hcond (s.last + 1) (s.last + 1)
      (by omega) (le_refl _)
    rw [h]
    unfold retreatBy retreatWith
    rw [sizeInc_of_lt _ hb]
    cases hr : retreatLoop (retreatCond E s c) s.first (s.last + 1) (s.last + 1) with
    | error e =>
      intro h0
      cases h0
      exact hl hr
    | ok ii =>
      intro h0
      by_cases hii : ii ≤ sizeDec s.last
      · rw [show (match (Except.ok ii : Except Err Nat) with
          | Except.error e => ((some e, s) : Outcome α)
          | Except.ok ii =>
            if ii ≤ sizeDec s.last then (none, { s with last := ii })
            else (none, s)) = (none, { s with last := ii }) from if_pos hii] at h0
        cases h0
      · rw [show (match (Except.ok ii : Except Err Nat) with
          | Except.error e => ((some e, s) : Outcome α)
          | Except.ok ii =>
            if ii ≤ sizeDec s.last then (none, { s with last := ii })
            else (none, s)) = (none, s) from if_neg hii] at h0
        cases h0

/-- A sequence returns normally exactly when both parts do. -/
theorem andThen_ok_iff {α : Type} (r : Outcome α) (k : State α → Outcome α) (s1 : State α) :
    andThen r k = (none, s1) ↔ r.1 = none ∧ k r.2 = (none, s1) := by
  unfold andThen
  cases h : r.1 with
  | none => simp
  | some e => simp

/-! ## The claims -/

/-- C1, as the code has it: for every state with `Thot > 0` and
`Mdot_in <= Mdot_in_prev` in which `last()` indexes `Tirr` and `Tph_vis`, the
surface-density criterion is selected exactly when the comparison
`Tirr[last]/Tph_vis[last] < Tirr2Tvishot` is true, and the call is then the
retreat by it; when the comparison is false the call is the retreat by the
criterion named by `boundcond` (`Tph[ii] < Thot` for Teff, `Tirr[ii] < Thot` for
Tirr). -/
theorem truncateOuterRadius_criterion {α : Type} (E : Env α) (s : State α) (tirr tvis : α)
    (hThot : E.ops.lt E.ops.zero E.disk.Thot = true)
    (hM : E.ops.le (E.Mdot_in s) s.Mdot_in_prev = true)
    (h1 : vecAt (E.Tirr s) s.last = Except.ok tirr)
    (h2 : vecAt (E.Tph_vis s) s.last = Except.ok tvis) :
    (selectCriterion E s = Except.ok Criterion.sigma ↔
      E.ops.lt (E.ops.div tirr tvis) E.disk.Tirr2Tvishot = true) ∧
    (E.ops.lt (E.ops.div tirr tvis) E.disk.Tirr2Tvishot = true →
      truncateOuterRadius E s = retreatBy E s Criterion.sigma) ∧
    (E.ops.lt (E.ops.div tirr tvis) E.disk.Tirr2Tvishot = false →
      (E.disk.boundcond = "Teff" →
        truncateOuterRadius E s = retreatBy E s Criterion.teff) ∧
      (E.disk.boundcond = "Tirr" →
        truncateOuterRadius E s = retreatBy E s Criterion.tirr)) := by
  have hsel := selectCriterion_eq E s tirr tvis h1 h2
  refine ⟨?_, ?_, ?_⟩
  · constructor
    · intro h
      cases hlt : E.ops.lt (E.ops.div tirr tvis) E.disk.Tirr2Tvishot with
      | true => rfl
      | false =>
        rw [hsel, hlt, if_neg (by simp)] at h
        split_ifs at h <;> cases h
    · intro hlt
      rw [hsel, hlt, if_pos rfl]
  · intro hlt
    apply truncateOuterRadius_of_select E s _ hThot hM
    rw [hsel, hlt, if_pos rfl]
  · intro hlt
    constructor
    · intro hbc
      apply truncateOuterRadius_of_select E s _ hThot hM
      rw [hsel, hlt, if_neg (by simp), if_pos hbc]
    · intro hbc
      apply truncateOuterRadius_of_select E s _ hThot hM
      have hne : ¬ E.disk.boundcond = "Teff" := by rw [hbc]; decide
      rw [hsel, hlt, if_neg (by simp), if_neg hne, if_pos hbc]

/-- C1, witness: in `envMixed` the ratio at the outer edge is `1/2 < 1`, and the
call is the retreat by the surface-density criterion. -/
theorem truncateOuterRadius_criterion_witness :
    truncateOuterRadius envMixed demoState = retreatBy envMixed demoState Criterion.sigma :=
  (truncateOuterRadius_criterion envMixed demoState 1 2 (by decide) (by decide) rfl rfl).2.1
    (by decide!)

/-- C1, as stated, fails: in `envIrradiated` (`Thot = 10 > 0`,
`Mdot_in = 1 <= Mdot_in_prev = 1`, boundcond Teff) the ratio
`Tirr[last]/Tph_vis[last] = 2/1` is `>= Tirr2Tvishot = 1`, yet the call is not the
retreat by the surface-density criterion (which leaves `last = 3`): it is the
retreat by `Tph[ii] < Thot`, which moves `last` to 2. -/
theorem truncateOuterRadius_criterion_counterexample :
    envIrradiated.ops.lt envIrradiated.ops.zero envIrradiated.disk.Thot = true ∧
    envIrradiated.ops.le (envIrradiated.Mdot_in demoState) demoState.Mdot_in_prev = true ∧
    vecAt (envIrradiated.Tirr demoState) demoState.last = Except.ok 2 ∧
    vecAt (envIrradiated.Tph_vis demoState) demoState.last = Except.ok 1 ∧
    envIrradiated.ops.le envIrradiated.disk.Tirr2Tvishot (envIrradiated.ops.div 2 1) = true ∧
    truncateOuterRadius envIrradiated demoState ≠
      retreatBy envIrradiated demoState Criterion.sigma ∧
    (truncateOuterRadius envIrradiated demoState).1 = none ∧
    (truncateOuterRadius envIrradiated demoState).2.last = 2 ∧
    (retreatBy envIrradiated demoState Criterion.sigma).2.last = 3 ∧
    (retreatBy envIrradiated demoState Criterion.teff).2.last = 2 := by
  refine ⟨by decide, by decide, rfl, rfl, by decide!, ?_, by decide!, by decide!,
    by decide!, by decide!⟩
  intro h
  have h3 : (truncateOuterRadius envIrradiated demoState).2.last =
      (retreatBy envIrradiated demoState Criterion.sigma).2.last := by rw [h]
  revert h3
  decide!

/-- C2: for every state with `Thot > 0` and `Mdot_in <= Mdot_in_prev` on which the
call returns normally, a criterion `c` was selected, the new `last` lies in
`(first, old last]`, `c` is false at the new `last`, `c` is true at every index
above the new `last` up to and including the old `last`, and so the new `last` is
the greatest index of `(first, old last]` at which `c` does not hold. -/
theorem truncateOuterRadius_new_last {α : Type} (E : Env α) (s s1 : State α)
    (hThot : E.ops.lt E.ops.zero E.disk.Thot = true)
    (hM : E.ops.le (E.Mdot_in s) s.Mdot_in_prev = true)
    (hsucc : truncateOuterRadius E s = (none, s1)) :
    ∃ c, selectCriterion E s = Except.ok c ∧
      s.first < s1.last ∧ s1.last ≤ s.last ∧
      retreatCond E s c s1.last = Except.ok false ∧
      (∀ j, s1.last < j → j ≤ s.last → retreatCond E s c j = Except.ok true) ∧
      (∀ j, s.first < j → j ≤ s.last → retreatCond E s c j ≠ Except.ok true →
        j ≤ s1.last) := by
  have hp := truncateOuterRadius_past_guards E s (guard_Thot E hThot) (guard_Mdot E s hM)
  cases hc : selectCriterion E s with
  | error e =>
    rw [hc, hsucc] at hp
    cases hp
  | ok c =>
    rw [hc, hsucc] at hp
    have hb := selectCriterion_ok_bound E s c hc
    obtain ⟨_, ha, hle, hfalse, hall⟩ := retreatWith_ok (retreatCond E s c) s s1 hb hp.symm
    refine ⟨c, rfl, ha, hle, hfalse, hall, ?_⟩
    intro j _ hj2 hj3
    by_contra hgt
    exact hj3 (hall j (by omega) hj2)

/-- C2, witness: in `envMixed` the surface-density criterion holds at index 3 only,
and the call moves `last` from 3 to 2. -/
theorem truncateOuterRadius_new_last_witness :
    ∃ c, selectCriterion envMixed demoState = Except.ok c ∧
      demoState.first < (truncateOuterRadius envMixed demoState).2.last ∧
      (truncateOuterRadius envMixed demoState).2.last ≤ demoState.last ∧
      retreatCond envMixed demoState c (truncateOuterRadius envMixed demoState).2.last =
        Except.ok false ∧
      (∀ j, (truncateOuterRadius envMixed demoState).2.last < j → j ≤ demoState.last →
        retreatCond envMixed demoState c j = Except.ok true) ∧
      (∀ j, demoState.first < j → j ≤ demoState.last →
        retreatCond envMixed demoState c j ≠ Except.ok true →
        j ≤ (truncateOuterRadius envMixed demoState).2.last) :=
  truncateOuterRadius_new_last envMixed demoState (truncateOuterRadius envMixed demoState).2
    (by decide) (by decide) (Prod.ext (by decide!) rfl)

/-- C3: for every state with `Thot > 0`, `Mdot_in <= Mdot_in_prev`, a valid
`boundcond` and `last()` an index of `Tirr` and `Tph_vis`, a criterion `c` is
selected and the call fails with "Rout <= Rin" if and only if `c` holds at every
index `ii` with `first < ii <= last`; the outcome is the same under any loop
condition that agrees with `c` above `first`, so `c` is not looked at at `first`. -/
theorem truncateOuterRadius_exhausted_iff {α : Type} (E : Env α) (s : State α)
    (hThot : E.ops.lt E.ops.zero E.disk.Thot = true)
    (hM : E.ops.le (E.Mdot_in s) s.Mdot_in_prev = true)
    (hbc : E.disk.boundcond = "Teff" ∨ E.disk.boundcond = "Tirr")
    (hl1 : s.last < (E.Tirr s).size) (hl2 : s.last < (E.Tph_vis s).size) :
    ∃ c, selectCriterion E s = Except.ok c ∧
      ((truncateOuterRadius E s).1 = some (Err.runtime_error "Rout <= Rin") ↔
        ∀ ii, s.first < ii → ii ≤ s.last → retreatCond E s c ii = Except.ok true) ∧
      (∀ cond2 : Nat → Except Err Bool,
        (∀ j, s.first < j → cond2 j = retreatCond E s c j) →
        truncateOuterRadius E s = retreatWith cond2 s) := by
  obtain ⟨tirr, h1⟩ := vecAt_of_lt _ _ hl1
  obtain ⟨tvis, h2⟩ := vecAt_of_lt _ _ hl2
  have hsel := selectCriterion_eq E s tirr tvis h1 h2
  have hex : ∃ c, selectCriterion E s = Except.ok c := by
    rw [hsel]
    by_cases hlt : E.ops.lt (E.ops.div tirr tvis) E.disk.Tirr2Tvishot = true
    · exact ⟨Criterion.sigma, by rw [if_pos hlt]⟩
    · by_cases hteff : E.disk.boundcond = "Teff"
      · exact ⟨Criterion.teff, by rw [if_neg hlt, if_pos hteff]⟩
      · have htirr : E.disk.boundcond = "Tirr" := hbc.resolve_left hteff
        exact ⟨Criterion.tirr, by rw [if_neg hlt, if_neg hteff, if_pos htirr]⟩
  obtain ⟨c, hc⟩ := hex
  have hb := selectCriterion_ok_bound E s c hc
  have htr := truncateOuterRadius_of_select E s c hThot hM hc
  refine ⟨c, hc, ?_, ?_⟩
  · have hcond : ∀ j e, retreatCond E s c j = Except.error e →
        e ≠ Err.runtime_error "Rout <= Rin" := by
      intro j e he
      rw [retreatCond_error E s c j e he]
      intro h
      cases h
    have hiff := retreatLoop_exhausted_iff (retreatCond E s c) s.first hcond
      (s.last + 1) (s.last + 1) (by omega) (le_refl _)
    have hrange : (∀ j, s.first < j → j < s.last + 1 → retreatCond E s c j = Except.ok true) ↔
        ∀ ii, s.first < ii → ii ≤ s.last → retreatCond E s c ii = Except.ok true :=
      ⟨fun h ii a b => h ii a (by omega), fun h j a b => h j a (by omega)⟩
    rw [← hrange, ← hiff, htr]
    unfold retreatBy retreatWith
    rw [sizeInc_of_lt _ hb]
    cases hl : retreatLoop (retreatCond E s c) s.first (s.last + 1) (s.last + 1) with
    | error e =>
      constructor
      · intro h
        cases h
        rfl
      · intro h
        cases h
        rfl
    | ok ii =>
      constructor
      · intro h
        by_cases hii : ii ≤ sizeDec s.last
        · rw [show (match (Except.ok ii : Except Err Nat) with
            | Except.error e => ((some e, s) : Outcome α)
            | Except.ok ii =>
              if ii ≤ sizeDec s.last then (none, { s with last := ii })
              else (none, s)) = (none, { s with last := ii }) from if_pos hii] at h
          cases h
        · rw [show (match (Except.ok ii : Except Err Nat) with
            | Except.error e => ((some e, s) : Outcome α)
            | Except.ok ii =>
              if ii ≤ sizeDec s.last then (none, { s with last := ii })
              else (none, s)) = (none, s) from if_neg hii] at h
          cases h
      · intro h
        cases h
  · intro cond2 hag
    rw [htr]
    unfold retreatBy retreatWith
    rw [retreatLoop_congr (retreatCond E s c) cond2 s.first hag]

/-- C3, witness: in `envCold` every point is colder than `Thot` and below
`Sigma_minus`; the call fails with "Rout <= Rin". -/
theorem truncateOuterRadius_exhausted_iff_witness :
    ∃ c, selectCriterion envCold demoState = Except.ok c ∧
      ((truncateOuterRadius envCold demoState).1 = some (Err.runtime_error "Rout <= Rin") ↔
        ∀ ii, demoState.first < ii → ii ≤ demoState.last →
          retreatCond envCold demoState c ii = Except.ok true) ∧
      (∀ cond2 : Nat → Except Err Bool,
        (∀ j, demoState.first < j → cond2 j = retreatCond envCold demoState c j) →
        truncateOuterRadius envCold demoState = retreatWith cond2 demoState) :=
  truncateOuterRadius_exhausted_iff envCold demoState (by decide) (by decide)
    (Or.inl rfl) (by decide) (by decide)

/-- C4: for every state with `Thot <= 0` the call returns normally and leaves the
state, `last` included, as it was, whatever the profiles and `boundcond` are. -/
theorem truncateOuterRadius_Thot_nonpos {α : Type} (E : Env α) (s : State α)
    (h : E.ops.le E.disk.Thot E.ops.zero = true) :
    truncateOuterRadius E s = (none, s) := by
  unfold truncateOuterRadius
  rw [h, if_pos rfl]

/-- C4, witness: `envNoThot` has `Thot = 0` and a disk that is cold everywhere. -/
theorem truncateOuterRadius_Thot_nonpos_witness :
    truncateOuterRadius envNoThot demoState = (none, demoState) :=
  truncateOuterRadius_Thot_nonpos envNoThot demoState (by decide)

/-- C5: for every state with `Mdot_in > Mdot_in_prev` the call returns normally and
leaves the state, `last` included, as it was, even when every point of the disk
is colder than `Thot`. -/
theorem truncateOuterRadius_rising {α : Type} (E : Env α) (s : State α)
    (h : E.ops.lt s.Mdot_in_prev (E.Mdot_in s) = true) :
    truncateOuterRadius E s = (none, s) := by
  unfold truncateOuterRadius
  rw [h]
  cases E.ops.le E.disk.Thot E.ops.zero with
  | true => rw [if_pos rfl]
  | false => rw [if_neg (by simp), if_pos rfl]

/-- C5, witness: `envRising` has `Mdot_in = 2 > Mdot_in_prev = 1`, `Thot = 10` and
every point colder than `Thot`. -/
theorem truncateOuterRadius_rising_witness :
    truncateOuterRadius envRising demoState = (none, demoState) :=
  truncateOuterRadius_rising envRising demoState (by decide)

/-- C6, as the code has it: for every state on which the call returns normally, a
second call on the resulting state, with `Tph`, `Tirr`, `Tph_vis`, `Sigma` and
`Mdot_in` unchanged in between (`F` and `Mdot_in_prev` are fields of the state,
which the first call does not write), returns normally and leaves `last` as the
first call set it, provided the criterion selected at the new `last` is the one
selected at the old `last`. -/
theorem truncateOuterRadius_idempotent {α : Type} (E : Env α) (s s1 : State α)
    (h : truncateOuterRadius E s = (none, s1))
    (hMdot : E.Mdot_in s1 = E.Mdot_in s)
    (hTirr : E.Tirr s1 = E.Tirr s) (_hTvis : E.Tph_vis s1 = E.Tph_vis s)
    (hTph : E.Tph s1 = E.Tph s) (hSigma : E.Sigma s1 = E.Sigma s)
    (hsel : selectCriterion E s1 = selectCriterion E s) :
    truncateOuterRadius E s1 = (none, s1) := by
  rcases truncateOuterRadius_ok_cases E s s1 h with heq | ⟨hg1, hg2, c, hc, hr⟩
  · rw [heq] at h ⊢
    exact h
  · have hb := selectCriterion_ok_bound E s c hc
    obtain ⟨hs1, ha, hle, hfalse, _⟩ := retreatWith_ok (retreatCond E s c) s s1 hb hr
    have hfirst : s1.first = s.first := by rw [hs1]
    have hR : s1.R = s.R := by rw [hs1]
    have hprev : s1.Mdot_in_prev = s.Mdot_in_prev := by rw [hs1]
    have hg2b : E.ops.lt s1.Mdot_in_prev (E.Mdot_in s1) = false := by
      rw [hprev, hMdot]
      exact hg2
    have hp := truncateOuterRadius_past_guards E s1 hg1 hg2b
    rw [hsel, hc] at hp
    have hp2 : truncateOuterRadius E s1 = retreatBy E s1 c := hp
    rw [hp2]
    unfold retreatBy
    rw [retreatCond_congr E s s1 c hR hTirr hTph hSigma]
    exact retreatWith_fixed (retreatCond E s c) s1 (by omega) (by omega) hfalse

/-- C6, witness: in `envIrradiated` the first call moves `last` to 2 by the
criterion `Tph[ii] < Thot`, the ratio at index 2 selects the same criterion, and
the second call changes nothing. -/
theorem truncateOuterRadius_idempotent_witness :
    truncateOuterRadius envIrradiated (truncateOuterRadius envIrradiated demoState).2 =
      (none, (truncateOuterRadius envIrradiated demoState).2) :=
  truncateOuterRadius_idempotent envIrradiated demoState
    (truncateOuterRadius envIrradiated demoState).2
    (Prod.ext (by decide!) rfl) rfl rfl rfl rfl rfl
    (by decide!)

/-- C6, as stated, fails: in `envMixed` the observables do not depend on the state
and the first call returns normally with `last = 2` (surface-density criterion,
ratio `1/2 < 1` at index 3); the second call reads the ratio `2/1` at index 2,
takes the criterion `Tph[ii] < Thot` and retreats further, to `last = 1`. -/
theorem truncateOuterRadius_idempotent_counterexample :
    (truncateOuterRadius envMixed demoState).1 = none ∧
    (truncateOuterRadius envMixed demoState).2.last = 2 ∧
    (truncateOuterRadius envMixed demoState).2.F = demoState.F ∧
    (truncateOuterRadius envMixed demoState).2.Mdot_in_prev = demoState.Mdot_in_prev ∧
    envMixed.Tph (truncateOuterRadius envMixed demoState).2 = envMixed.Tph demoState ∧
    envMixed.Tirr (truncateOuterRadius envMixed demoState).2 = envMixed.Tirr demoState ∧
    envMixed.Tph_vis (truncateOuterRadius envMixed demoState).2 =
      envMixed.Tph_vis demoState ∧
    envMixed.Sigma (truncateOuterRadius envMixed demoState).2 = envMixed.Sigma demoState ∧
    envMixed.Mdot_in (truncateOuterRadius envMixed demoState).2 =
      envMixed.Mdot_in demoState ∧
    (truncateOuterRadius envMixed (truncateOuterRadius envMixed demoState).2).1 = none ∧
    (truncateOuterRadius envMixed (truncateOuterRadius envMixed demoState).2).2.last = 1 := by
  have hw := (truncateOuterRadius_writes_last envMixed demoState).1
  refine ⟨by decide!, by decide!, ?_, ?_, rfl, rfl, rfl, rfl, rfl, by decide!, by decide!⟩
  · rw [hw]
  · rw [hw]

/-- C7: for every state, after a call that returns normally the new `last` is at
most the old `last`. -/
theorem truncateOuterRadius_last_le {α : Type} (E : Env α) (s s1 : State α)
    (h : truncateOuterRadius E s = (none, s1)) : s1.last ≤ s.last := by
  rcases truncateOuterRadius_ok_cases E s s1 h with heq | ⟨_, _, c, hc, hr⟩
  · rw [heq]
  · have hb := selectCriterion_ok_bound E s c hc
    exact (retreatWith_ok (retreatCond E s c) s s1 hb hr).2.2.1

/-- C7, witness: in `envMixed` the call moves `last` from 3 to 2. -/
theorem truncateOuterRadius_last_le_witness :
    (truncateOuterRadius envMixed demoState).2.last ≤ demoState.last :=
  truncateOuterRadius_last_le envMixed demoState (truncateOuterRadius envMixed demoState).2
    (Prod.ext (by decide!) rfl)

/-- C8: the call changes no component of the state other than `last`: the grid `h`
and `R`, the torque `F`, `first`, `t`, the step index, `Mdot_out`, `F_in`,
`Mdot_in_prev` and the star sources are as before; and when it throws, the state,
`last` included, is the state before the call. -/
theorem truncateOuterRadius_frame {α : Type} (E : Env α) (s : State α) :
    (truncateOuterRadius E s).2.h = s.h ∧
    (truncateOuterRadius E s).2.R = s.R ∧
    (truncateOuterRadius E s).2.F = s.F ∧
    (truncateOuterRadius E s).2.first = s.first ∧
    (truncateOuterRadius E s).2.t = s.t ∧
    (truncateOuterRadius E s).2.i_t = s.i_t ∧
    (truncateOuterRadius E s).2.Mdot_out = s.Mdot_out ∧
    (truncateOuterRadius E s).2.F_in = s.F_in ∧
    (truncateOuterRadius E s).2.Mdot_in_prev = s.Mdot_in_prev ∧
    (truncateOuterRadius E s).2.star_sources = s.star_sources ∧
    ((truncateOuterRadius E s).1 ≠ none → (truncateOuterRadius E s).2 = s) := by
  obtain ⟨hw, he⟩ := truncateOuterRadius_writes_last E s
  refine ⟨?_, ?_, ?_, ?_, ?_, ?_, ?_, ?_, ?_, ?_, he⟩ <;> rw [hw]

/-- C8, witness: in `envCold` the call throws and the state is untouched. -/
theorem truncateOuterRadius_frame_witness :
    (truncateOuterRadius envCold demoState).2 = demoState :=
  (truncateOuterRadius_frame envCold demoState).2.2.2.2.2.2.2.2.2.2 (by decide!)

/-- C9: `step` runs, in this order, the inner truncation, `FreddiState::step`, the
diffusion solve and the outer truncation (and then refreshes the star's
sources): it returns normally with state `s5` exactly when the inner truncation
returns normally with some `s1`, `FreddiState::step(tau)` turns `s1` into some
`s2`, the solver, called on the window `[first, last]` of `s2` with the `F_in`,
`Mdot_out` and wind terms A, B, C of `s2`, turns `s2.F` into some `F3`, and the outer
truncation of `s2` with `F3` for `F` returns normally with some `s4`, of which `s5`
is the update of the star's sources.  Then the torque of `s5` is `F3`, and `last`
of `s5` is the one decided by the outer truncation on the state whose torque is
`F3`. -/
theorem step_order {α : Type} (E : Env α) (tau : α) (s s5 : State α) :
    step E tau s = (none, s5) ↔
      ∃ s1 s2 F3 s4,
        E.truncateInnerRadius s = (none, s1) ∧
        E.stateStep tau s1 = (none, s2) ∧
        E.nonlinear_diffusion_nonuniform_wind_1_2 E.calc_.tau E.calc_.eps s2.F_in s2.Mdot_out
          (E.windA s2) (E.windB s2) (E.windC s2) E.wunc s2.h s2.F s2.first s2.last =
            (none, F3) ∧
        truncateOuterRadius E { s2 with F := F3 } = (none, s4) ∧
        s5 = { s4 with star_sources := E.star_irr_sources s4 } ∧
        s5.F = F3 ∧
        s5.first = s2.first ∧
        s5.last = (truncateOuterRadius E { s2 with F := F3 }).2.last := by
  unfold step
  rw [andThen_ok_iff]
  constructor
  · rintro ⟨hI, h2⟩
    rw [andThen_ok_iff] at h2
    obtain ⟨hS, h3⟩ := h2
    rw [andThen_ok_iff] at h3
    obtain ⟨hD, h4⟩ := h3
    rw [andThen_ok_iff] at h4
    obtain ⟨hO, h5⟩ := h4
    refine ⟨(E.truncateInnerRadius s).2, (E.stateStep tau (E.truncateInnerRadius s).2).2,
      (diffusionCall E (E.stateStep tau (E.truncateInnerRadius s).2).2).2.F,
      (truncateOuterRadius E (diffusionCall E (E.stateStep tau
        (E.truncateInnerRadius s).2).2).2).2,
      Prod.ext hI rfl, Prod.ext hS rfl, Prod.ext hD rfl, Prod.ext hO rfl, ?_, ?_, ?_, ?_⟩
    · cases h5
      rfl
    · cases h5
      exact (truncateOuterRadius_writes_last E _).1 ▸ rfl
    · cases h5
      exact (truncateOuterRadius_writes_last E _).1 ▸ rfl
    · cases h5
      rfl
  · rintro ⟨s1, s2, F3, s4, hI, hS, hD, hO, h5, _, _, _⟩
    have hd : diffusionCall E s2 = (none, { s2 with F := F3 }) := by
      unfold diffusionCall
      rw [hD]
    refine ⟨by rw [hI], ?_⟩
    rw [hI, andThen_ok_iff]
    refine ⟨by rw [hS], ?_⟩
    rw [hS, andThen_ok_iff]
    refine ⟨by rw [hd], ?_⟩
    rw [hd, andThen_ok_iff]
    refine ⟨by rw [hO], ?_⟩
    rw [hO, h5]

/-- C9, witness: in `envIrradiated` a step returns normally; its torque is the
solver's result and its `last` is 2, as the outer truncation decides. -/
theorem step_order_witness :
    ∃ s1 s2 F3 s4,
      envIrradiated.truncateInnerRadius demoState = (none, s1) ∧
      envIrradiated.stateStep 2 s1 = (none, s2) ∧
      envIrradiated.nonlinear_diffusion_nonuniform_wind_1_2 envIrradiated.calc_.tau
        envIrradiated.calc_.eps s2.F_in s2.Mdot_out
        (envIrradiated.windA s2) (envIrradiated.windB s2) (envIrradiated.windC s2)
        envIrradiated.wunc s2.h s2.F s2.first s2.last = (none, F3) ∧
      truncateOuterRadius envIrradiated { s2 with F := F3 } = (none, s4) ∧
      (step envIrradiated 2 demoState).2 =
        { s4 with star_sources := envIrradiated.star_irr_sources s4 } ∧
      (step envIrradiated 2 demoState).2.F = F3 ∧
      (step envIrradiated 2 demoState).2.first = s2.first ∧
      (step envIrradiated 2 demoState).2.last =
        (truncateOuterRadius envIrradiated { s2 with F := F3 }).2.last :=
  (step_order envIrradiated 2 demoState (step envIrradiated 2 demoState).2).mp
    (Prod.ext (by decide!) rfl)

/-- C10, the code at `tau = 1` with `args().calc->tau = 2`: `FreddiState::step`
receives 1 (the stand-in advances `t` from 0 to 1), while the solver receives 2
(the stand-in adds its time step to every entry of `F = [0, 1, 1, 1]`). -/
theorem step_time_step_evaluation :
    envNoThot.calc_.tau = 2 ∧
    (step envNoThot 1 demoState).1 = none ∧
    (step envNoThot 1 demoState).2.t = 1 ∧
    (step envNoThot 1 demoState).2.F.data = [2, 3, 3, 3] := by
  refine ⟨rfl, by decide!, by decide!, by decide!⟩

/-- C13, as the code has it: for every `boundcond` other than Teff and Tirr and
every state with `Thot > 0` and `Mdot_in <= Mdot_in_prev` in which `last()` indexes
`Tirr` and `Tph_vis` and the comparison `Tirr[last]/Tph_vis[last] < Tirr2Tvishot`
is false, the call fails with the invalid-argument error "Wrong boundcond" and
leaves the state as it was. -/
theorem truncateOuterRadius_wrong_boundcond {α : Type} (E : Env α) (s : State α)
    (tirr tvis : α)
    (hThot : E.ops.lt E.ops.zero E.disk.Thot = true)
    (hM : E.ops.le (E.Mdot_in s) s.Mdot_in_prev = true)
    (hTeff : E.disk.boundcond ≠ "Teff") (hTirr : E.disk.boundcond ≠ "Tirr")
    (h1 : vecAt (E.Tirr s) s.last = Except.ok tirr)
    (h2 : vecAt (E.Tph_vis s) s.last = Except.ok tvis)
    (hlt : E.ops.lt (E.ops.div tirr tvis) E.disk.Tirr2Tvishot = false) :
    truncateOuterRadius E s = (some (Err.invalid_argument "Wrong boundcond"), s) := by
  have hp := truncateOuterRadius_past_guards E s (guard_Thot E hThot) (guard_Mdot E s hM)
  have hsel := selectCriterion_eq E s tirr tvis h1 h2
  rw [hlt, if_neg (by simp), if_neg hTeff, if_neg hTirr] at hsel
  rw [hsel] at hp
  exact hp

/-- C13, witness: `envUnknown` has boundcond MdotOut, `Thot = 10` and the ratio 2
at the outer edge; the call throws "Wrong boundcond". -/
theorem truncateOuterRadius_wrong_boundcond_witness :
    truncateOuterRadius envUnknown demoState =
      (some (Err.invalid_argument "Wrong boundcond"), demoState) :=
  truncateOuterRadius_wrong_boundcond envUnknown demoState 2 1 (by decide) (by decide)
    (by decide) (by decide) rfl rfl (by decide!)

/-- C13, as stated, fails: `envUnknownOff` has boundcond MdotOut and `Thot = 0`
(the tracker is switched off); the call returns normally and reports nothing. -/
theorem truncateOuterRadius_wrong_boundcond_counterexample :
    envUnknownOff.disk.boundcond ≠ "Teff" ∧ envUnknownOff.disk.boundcond ≠ "Tirr" ∧
    (truncateOuterRadius envUnknownOff demoState).1 = none ∧
    (truncateOuterRadius envUnknownOff demoState).1 ≠
      some (Err.invalid_argument "Wrong boundcond") := by
  refine ⟨by decide, by decide, by decide!, by decide!⟩

/-! ## Filling loops and `wunction` -/

theorem fillLoop_length {α : Type} (f : Nat → α) :
    ∀ (n i : Nat) (W : List α), (fillLoop f i n W).length = W.length := by
  intro n
  induction n with
  | zero => intro i W; rfl
  | succ n ih =>
    intro i W
    simp only [fillLoop]
    rw [ih, List.length_set]

/-- After the loop, the entries `i0 <= j < i0 + n` inside the vector hold `f j`, and
the others are as before. -/
theorem fillLoop_getElem? {α : Type} (f : Nat → α) :
    ∀ (n i : Nat) (W : List α) (j : Nat),
      (fillLoop f i n W)[j]? =
        if i ≤ j ∧ j < i + n ∧ j < W.length then some (f j) else W[j]? := by
  intro n
  induction n with
  | zero =>
    intro i W j
    simp only [fillLoop]
    rw [if_neg (by omega)]
  | succ n ih =>
    intro i W j
    simp only [fillLoop]
    rw [ih, List.length_set]
    by_cases hji : j = i
    · subst hji
      rw [if_neg (by omega)]
      by_cases hlen : j < W.length
      · rw [if_pos ⟨le_refl _, by omega, hlen⟩, List.getElem?_set_self hlen]
      · rw [if_neg (by omega)]
        rw [List.getElem?_eq_none (by rw [List.length_set]; omega),
          List.getElem?_eq_none (by omega)]
    · have hne : i ≠ j := fun h => hji h.symm
      rw [List.getElem?_set_ne hne]
      by_cases hc : i ≤ j ∧ j < i + (n + 1) ∧ j < W.length
      · rw [if_pos hc, if_pos ⟨by omega, by omega, hc.2.2⟩]
      · rw [if_neg hc, if_neg (by omega)]

theorem Vec.ofList_data {α : Type} (l : List α) (h : l.length < SIZE_MAX1) :
    (Vec.ofList l).data = l := by
  unfold Vec.ofList
  rw [dif_pos h]

theorem vecAt_eq_getElem? {α : Type} (v : Vec α) (i : Nat) (x : α) :
    vecAt v i = Except.ok x ↔ v.data[i]? = some x := by
  unfold vecAt
  rw [List.get?_eq_getElem?]
  cases v.data[i]? with
  | none => simp
  | some y => simp

theorem Vec.idx_of_vecAt {α : Type} [Zero α] (v : Vec α) (i : Nat) (x : α)
    (h : vecAt v i = Except.ok x) : v.idx i = x := by
  rw [vecAt_eq_getElem?] at h
  unfold Vec.idx
  rw [List.getD_eq_getElem?_getD, h]
  rfl

/-- The vector built by `wunction`, when `_last + 1` does not wrap. -/
theorem wunction_data {α : Type} [LinearOrderedField α] (M : CMath α)
    (oprel : OpacityRelated α) (h F : Vec α) (first last : Nat)
    (hb : last + 1 < SIZE_MAX1) :
    (wunction M oprel h F first last).data =
      fillLoop (wunctionAt M oprel h F) first (last + 1 - first)
        (List.replicate (last + 1) 0) := by
  unfold wunction
  rw [sizeInc_of_lt _ hb, Vec.ofList_data]
  rw [fillLoop_length, List.length_replicate]
  exact hb

/-- The entries of the result of `wunction`. -/
theorem wunction_getElem? {α : Type} [LinearOrderedField α] (M : CMath α)
    (oprel : OpacityRelated α) (h F : Vec α) (first last : Nat)
    (hb : last + 1 < SIZE_MAX1) (j : Nat) :
    (wunction M oprel h F first last).data[j]? =
      if first ≤ j ∧ j ≤ last then some (wunctionAt M oprel h F j)
      else if j ≤ last then some 0 else none := by
  rw [wunction_data M oprel h F first last hb, fillLoop_getElem?, List.length_replicate]
  by_cases hc : first ≤ j ∧ j ≤ last
  · rw [if_pos hc, if_pos ⟨hc.1, by omega, by omega⟩]
  · rw [if_neg hc, if_neg (by omega)]
    by_cases hj : j ≤ last
    · rw [if_pos hj, List.getElem?_replicate, if_pos (by omega)]
    · rw [if_neg hj, List.getElem?_replicate, if_neg (by omega)]

theorem Vec.size_succ_lt {α : Type} (v : Vec α) (i : Nat) (h : i < v.size) :
    i + 1 < SIZE_MAX1 := by
  have h2 := v.size_lt
  unfold Vec.size at h
  omega

/-- C11: for every window `[first, last]` with `last` within the bounds of `h`, the
result `W` of `wunction` has length `last + 1`, `W[i]` is
`|F[i]|^(1-m) * h[i]^n / ((1-m) * D)` for every `i` of the window, and `W[i] = 0`
for every `i < first`. -/
theorem wunction_spec {α : Type} [LinearOrderedField α] (M : CMath α)
    (oprel : OpacityRelated α) (h F : Vec α) (first last : Nat)
    (hh : last < h.size) :
    (wunction M oprel h F first last).size = last + 1 ∧
    (∀ i x y, first ≤ i → i ≤ last → vecAt F i = Except.ok x → vecAt h i = Except.ok y →
      vecAt (wunction M oprel h F first last) i =
        Except.ok (M.pow (M.fabs x) (1 - oprel.m) * M.pow y oprel.n /
          ((1 - oprel.m) * oprel.D))) ∧
    (∀ i, i < first → i ≤ last →
      vecAt (wunction M oprel h F first last) i = Except.ok 0) := by
  have hb := Vec.size_succ_lt h last hh
  refine ⟨?_, ?_, ?_⟩
  · unfold Vec.size
    rw [wunction_data M oprel h F first last hb, fillLoop_length, List.length_replicate]
  · intro i x y h1 h2 hx hy
    rw [vecAt_eq_getElem?, wunction_getElem? M oprel h F first last hb, if_pos ⟨h1, h2⟩]
    unfold wunctionAt
    rw [Vec.idx_of_vecAt F i x hx, Vec.idx_of_vecAt h i y hy, div_div]
  · intro i h1 h2
    rw [vecAt_eq_getElem?, wunction_getElem? M oprel h F first last hb,
      if_neg (by omega), if_pos h2]

/-- C11, witness: the window `[1, 1]` of a grid of two points. -/
theorem wunction_spec_witness :
    (wunction realMath demoOprel (realVec2 1 2) (realVec2 0 3) 1 1).size = 1 + 1 ∧
    (∀ i x y, 1 ≤ i → i ≤ 1 → vecAt (realVec2 0 3) i = Except.ok x →
      vecAt (realVec2 1 2) i = Except.ok y →
      vecAt (wunction realMath demoOprel (realVec2 1 2) (realVec2 0 3) 1 1) i =
        Except.ok (realMath.pow (realMath.fabs x) (1 - demoOprel.m) *
          realMath.pow y demoOprel.n / ((1 - demoOprel.m) * demoOprel.D))) ∧
    (∀ i, i < 1 → i ≤ 1 →
      vecAt (wunction realMath demoOprel (realVec2 1 2) (realVec2 0 3) 1 1) i =
        Except.ok 0) :=
  wunction_spec realMath demoOprel (realVec2 1 2) (realVec2 0 3) 1 1
    (by simp [Vec.size, realVec2])

theorem getD_set_self {α : Type} (l : List α) (i : Nat) (x d : α) (h : i < l.length) :
    (l.set i x).getD i d = x := by
  rw [List.getD_eq_getElem?_getD, List.getElem?_set_self h]
  rfl

/-- A loop over `0 <= i < Nx` on a vector of `Nx` zeros leaves `f i` at index `i`. -/
theorem fillLoop_zero_getD {α : Type} [Zero α] (f : Nat → α) (Nx i : Nat) (h : i < Nx) :
    (fillLoop f 0 Nx (List.replicate Nx 0)).getD i 0 = f i := by
  rw [List.getD_eq_getElem?_getD, fillLoop_getElem?, List.length_replicate,
    if_pos ⟨Nat.zero_le _, by omega, h⟩]
  rfl

/-- When every grid point is computed without exception, the grid loop is a pair
of filling loops. -/
theorem gridLoop_eq {α : Type} [Add α] [Sub α] [Mul α] [Div α] [Zero α] [One α] [NatCast α]
    (M : CMath α) (grid_scale : String) (GM h_in h_out : α) (Nx : Nat) (f : Nat → α)
    (hf : ∀ i, gridPoint M grid_scale h_in h_out Nx i = Except.ok (f i)) :
    ∀ (n i : Nat) (h R : List α), i + n ≤ h.length →
      gridLoop M grid_scale GM h_in h_out Nx i n (h, R) =
        Except.ok (fillLoop f i n h, fillLoop (fun j => f j * f j / GM) i n R) := by
  intro n
  induction n with
  | zero => intro i h R _; rfl
  | succ n ih =>
    intro i h R hlen
    simp only [gridLoop, hf, fillLoop]
    rw [getD_set_self h i (f i) 0 (by omega)]
    exact ih (i + 1) (h.set i (f i)) _ (by rw [List.length_set]; omega)

/-- The grid of the program for a known scale. -/
theorem makeGrid_eq {α : Type} [Add α] [Sub α] [Mul α] [Div α] [Zero α] [One α] [NatCast α]
    (M : CMath α) (grid_scale : String) (GM h_in h_out : α) (Nx : Nat) (f : Nat → α)
    (hf : ∀ i, gridPoint M grid_scale h_in h_out Nx i = Except.ok (f i)) :
    makeGrid M grid_scale GM h_in h_out Nx =
      Except.ok (fillLoop f 0 Nx (List.replicate Nx 0),
        fillLoop (fun j => f j * f j / GM) 0 Nx (List.replicate Nx 0)) := by
  unfold makeGrid
  exact gridLoop_eq M grid_scale GM h_in h_out Nx f hf Nx 0 _ _
    (by rw [List.length_replicate]; omega)

theorem gridPoint_real (grid_scale : String)
    (hs : grid_scale = "log" ∨ grid_scale = "linear") (h_in h_out : ℝ) (Nx i : Nat) :
    gridPoint realMath grid_scale h_in h_out Nx i =
      Except.ok (gridValue grid_scale h_in h_out Nx i) := by
  unfold gridPoint gridValue
  rcases hs with h | h
  · rw [if_pos h, if_pos h]
    rfl
  · have hne : ¬ grid_scale = "log" := by rw [h]; decide
    rw [if_neg hne, if_pos h, if_neg hne]

theorem gridValue_zero (grid_scale : String) (h_in h_out : ℝ) (Nx : Nat) :
    gridValue grid_scale h_in h_out Nx 0 = h_in := by
  unfold gridValue
  split_ifs <;> simp

theorem gridValue_last (grid_scale : String) (h_in h_out : ℝ) (Nx : Nat) (hN : 2 ≤ Nx)
    (h0 : 0 < h_in) : gridValue grid_scale h_in h_out Nx (Nx - 1) = h_out := by
  unfold gridValue
  have hcast : ((Nx - 1 : ℕ) : ℝ) = (Nx : ℝ) - 1 := by
    rw [Nat.cast_sub (by omega)]
    simp
  have hN' : (2 : ℝ) ≤ (Nx : ℝ) := by exact_mod_cast hN
  have hd : (Nx : ℝ) - 1 ≠ 0 := by linarith
  rw [hcast]
  split_ifs
  · rw [div_self hd, Real.rpow_one]
    field_simp
  · field_simp

theorem gridValue_lt (grid_scale : String) (h_in h_out : ℝ) (Nx i : Nat) (hN : 2 ≤ Nx)
    (h0 : 0 < h_in) (hlt : h_in < h_out) :
    gridValue grid_scale h_in h_out Nx i < gridValue grid_scale h_in h_out Nx (i + 1) := by
  unfold gridValue
  have hN' : (2 : ℝ) ≤ (Nx : ℝ) := by exact_mod_cast hN
  have hd : 0 < (Nx : ℝ) - 1 := by linarith
  have hexp : (i : ℝ) / ((Nx : ℝ) - 1) < ((i + 1 : ℕ) : ℝ) / ((Nx : ℝ) - 1) := by
    apply div_lt_div_of_pos_right _ hd
    push_cast
    linarith
  split_ifs
  · have hb : 1 < h_out / h_in := by
      rw [lt_div_iff₀ h0]
      linarith
    exact mul_lt_mul_of_pos_left (Real.rpow_lt_rpow_of_exponent_lt hb hexp) h0
  · have hpos : 0 < h_out - h_in := by linarith
    have : (h_out - h_in) * (i : ℝ) / ((Nx : ℝ) - 1) <
        (h_out - h_in) * ((i + 1 : ℕ) : ℝ) / ((Nx : ℝ) - 1) := by
      rw [mul_div_assoc, mul_div_assoc]
      exact mul_lt_mul_of_pos_left hexp hpos
    linarith

theorem gridValue_mono (grid_scale : String) (h_in h_out : ℝ) (Nx : Nat) (hN : 2 ≤ Nx)
    (h0 : 0 < h_in) (hlt : h_in < h_out) :
    Monotone (gridValue grid_scale h_in h_out Nx) :=
  monotone_nat_of_le_succ fun i => le_of_lt (gridValue_lt grid_scale h_in h_out Nx i hN h0 hlt)

/-- Every grid point lies between `h_in` and `h_out`. -/
theorem gridValue_mem (grid_scale : String) (h_in h_out : ℝ) (Nx i : Nat) (hN : 2 ≤ Nx)
    (h0 : 0 < h_in) (hlt : h_in < h_out) (hi : i < Nx) :
    h_in ≤ gridValue grid_scale h_in h_out Nx i ∧
      gridValue grid_scale h_in h_out Nx i ≤ h_out := by
  have hm := gridValue_mono grid_scale h_in h_out Nx hN h0 hlt
  constructor
  · have := hm (Nat.zero_le i)
    rwa [gridValue_zero] at this
  · have := hm (show i ≤ Nx - 1 by omega)
    rwa [gridValue_last grid_scale h_in h_out Nx hN h0] at this

/-- The grid of the program on the reals. -/
theorem makeGrid_real (grid_scale : String)
    (hs : grid_scale = "log" ∨ grid_scale = "linear") (GM h_in h_out : ℝ) (Nx : Nat) :
    makeGrid realMath grid_scale GM h_in h_out Nx =
      Except.ok (fillLoop (gridValue grid_scale h_in h_out Nx) 0 Nx (List.replicate Nx 0),
        fillLoop (fun j => gridValue grid_scale h_in h_out Nx j *
          gridValue grid_scale h_in h_out Nx j / GM) 0 Nx (List.replicate Nx 0)) :=
  makeGrid_eq realMath grid_scale GM h_in h_out Nx _
    (gridPoint_real grid_scale hs h_in h_out Nx)

/-! ## The arithmetic of `double`: rounding -/

theorem log2Fuel_spec (fuel n : Nat) (hf : n ≤ fuel) (hn : n ≠ 0) :
    2 ^ log2Fuel fuel n ≤ n ∧ n < 2 ^ (log2Fuel fuel n + 1) := by
  induction fuel generalizing n with
  | zero => omega
  | succ fuel ih =>
    unfold log2Fuel
    by_cases h2 : n < 2
    · rw [if_pos h2]
      constructor
      · simp; omega
      · simp; omega
    · rw [if_neg h2]
      obtain ⟨h1, h3⟩ := ih (n / 2) (by omega) (by omega)
      constructor
      · rw [pow_succ]; omega
      · rw [pow_succ]; omega

theorem binade_spec (q : ℚ) (hq : 0 < q) :
    (2 : ℚ) ^ binade q ≤ q ∧ q < (2 : ℚ) ^ (binade q + 1) := by
  have hnum : 0 < q.num := Rat.num_pos.mpr hq
  have hn0 : q.num.natAbs ≠ 0 := by omega
  have hd0 : q.den ≠ 0 := q.den_nz
  obtain ⟨ha1, ha2⟩ := log2Fuel_spec q.num.natAbs q.num.natAbs (le_refl _) hn0
  obtain ⟨hb1, hb2⟩ := log2Fuel_spec q.den q.den (le_refl _) hd0
  generalize hadef : log2Fuel q.num.natAbs q.num.natAbs = a at ha1 ha2
  generalize hbdef : log2Fuel q.den q.den = b at hb1 hb2
  have hqv : q = (q.num.natAbs : ℚ) / (q.den : ℚ) := by
    have h1 : ((q.num.natAbs : ℕ) : ℚ) = (q.num : ℚ) := by
      rw [Nat.cast_natAbs, abs_of_pos hnum]
    rw [h1, Rat.num_div_den]
  have hdpos : (0 : ℚ) < (q.den : ℚ) := by exact_mod_cast q.den_pos
  have h2 : (0 : ℚ) < 2 := by norm_num
  have ha1q : (2 : ℚ) ^ (a : ℤ) ≤ (q.num.natAbs : ℚ) := by
    rw [zpow_natCast]; exact_mod_cast ha1
  have ha2q : (q.num.natAbs : ℚ) < (2 : ℚ) ^ ((a : ℤ) + 1) := by
    rw [show ((a : ℤ) + 1) = ((a + 1 : ℕ) : ℤ) by push_cast; ring, zpow_natCast]
    exact_mod_cast ha2
  have hb1q : (2 : ℚ) ^ (b : ℤ) ≤ (q.den : ℚ) := by
    rw [zpow_natCast]; exact_mod_cast hb1
  have hb2q : (q.den : ℚ) < (2 : ℚ) ^ ((b : ℤ) + 1) := by
    rw [show ((b : ℤ) + 1) = ((b + 1 : ℕ) : ℤ) by push_cast; ring, zpow_natCast]
    exact_mod_cast hb2
  have hupper : q < (2 : ℚ) ^ ((a : ℤ) - b + 1) := by
    rw [hqv, div_lt_iff₀ hdpos]
    calc (q.num.natAbs : ℚ) < (2 : ℚ) ^ ((a : ℤ) + 1) := ha2q
      _ = (2 : ℚ) ^ ((a : ℤ) - b + 1) * (2 : ℚ) ^ (b : ℤ) := by
        rw [← zpow_add₀ (by norm_num : (2 : ℚ) ≠ 0)]; congr 1; ring
      _ ≤ (2 : ℚ) ^ ((a : ℤ) - b + 1) * (q.den : ℚ) :=
        mul_le_mul_of_nonneg_left hb1q (le_of_lt (zpow_pos h2 _))
  have hlower : (2 : ℚ) ^ ((a : ℤ) - b - 1) < q := by
    rw [hqv, lt_div_iff₀ hdpos]
    calc (2 : ℚ) ^ ((a : ℤ) - b - 1) * (q.den : ℚ)
        < (2 : ℚ) ^ ((a : ℤ) - b - 1) * (2 : ℚ) ^ ((b : ℤ) + 1) :=
          mul_lt_mul_of_pos_left hb2q (zpow_pos h2 _)
      _ = (2 : ℚ) ^ (a : ℤ) := by
        rw [← zpow_add₀ (by norm_num : (2 : ℚ) ≠ 0)]; congr 1; ring
      _ ≤ (q.num.natAbs : ℚ) := ha1q
  unfold binade
  simp only []
  rw [hadef, hbdef]
  by_cases hc : (2 : ℚ) ^ ((a : ℤ) - (b : ℤ)) ≤ q
  · rw [if_pos hc]
    exact ⟨hc, hupper⟩
  · rw [if_neg hc]
    refine ⟨le_of_lt hlower, ?_⟩
    rw [sub_add_cancel]
    exact lt_of_not_le hc


theorem binade_unique (q : ℚ) (k : ℤ) (h1 : (2 : ℚ) ^ k ≤ q) (h2 : q < (2 : ℚ) ^ (k + 1)) :
    binade q = k := by
  have hq : 0 < q := lt_of_lt_of_le (zpow_pos (by norm_num) k) h1
  obtain ⟨hb1, hb2⟩ := binade_spec q hq
  have h12 : (1 : ℚ) < 2 := by norm_num
  by_contra hne
  rcases lt_or_gt_of_ne hne with hlt | hgt
  · have : (2 : ℚ) ^ (binade q + 1) ≤ (2 : ℚ) ^ k :=
      zpow_le_zpow_right₀ (le_of_lt h12) (by omega)
    linarith
  · have : (2 : ℚ) ^ (k + 1) ≤ (2 : ℚ) ^ binade q :=
      zpow_le_zpow_right₀ (le_of_lt h12) (by omega)
    linarith

theorem binade_mono (p q : ℚ) (hp : 0 < p) (hpq : p ≤ q) : binade p ≤ binade q := by
  obtain ⟨hp1, hp2⟩ := binade_spec p hp
  obtain ⟨hq1, hq2⟩ := binade_spec q (lt_of_lt_of_le hp hpq)
  by_contra hlt
  have : (2 : ℚ) ^ (binade q + 1) ≤ (2 : ℚ) ^ binade p :=
    zpow_le_zpow_right₀ (by norm_num) (by omega)
  linarith

theorem roundEven_intCast (n : ℤ) : roundEven (n : ℚ) = n := by
  unfold roundEven
  rw [Int.floor_intCast, sub_self, if_pos (by norm_num)]

theorem roundEven_ge_floor (x : ℚ) : ⌊x⌋ ≤ roundEven x := by
  unfold roundEven
  split_ifs <;> omega

theorem roundEven_le_floor_succ (x : ℚ) : roundEven x ≤ ⌊x⌋ + 1 := by
  unfold roundEven
  split_ifs <;> omega

theorem roundEven_mono (x y : ℚ) (h : x ≤ y) : roundEven x ≤ roundEven y := by
  have hf : ⌊x⌋ ≤ ⌊y⌋ := Int.floor_mono h
  rcases lt_or_eq_of_le hf with hlt | heq
  · have h1 := roundEven_le_floor_succ x
    have h2 := roundEven_ge_floor y
    omega
  · unfold roundEven
    rw [heq]
    have hxy : x - (⌊y⌋ : ℚ) ≤ y - (⌊y⌋ : ℚ) := by linarith
    split_ifs <;> first | omega | (exfalso; linarith)

theorem roundEven_ge_of_intCast_le (n : ℤ) (x : ℚ) (h : (n : ℚ) ≤ x) : n ≤ roundEven x := by
  have := roundEven_mono _ _ h
  rwa [roundEven_intCast] at this

theorem roundEven_le_of_le_intCast (n : ℤ) (x : ℚ) (h : x ≤ (n : ℚ)) : roundEven x ≤ n := by
  have := roundEven_mono _ _ h
  rwa [roundEven_intCast] at this


theorem two_zpow_pos (e : ℤ) : (0 : ℚ) < (2 : ℚ) ^ e := zpow_pos (by norm_num) e

/-- The scaled value of a positive rational lies in `[2^52, 2^53)`. -/
theorem scaled_bounds (q : ℚ) (hq : 0 < q) :
    ((2 ^ 52 : ℤ) : ℚ) ≤ q / (2 : ℚ) ^ (binade q - 52) ∧
      q / (2 : ℚ) ^ (binade q - 52) < ((2 ^ 53 : ℤ) : ℚ) := by
  obtain ⟨h1, h2⟩ := binade_spec q hq
  have hp := two_zpow_pos (binade q - 52)
  have e1 : (2 : ℚ) ^ binade q = ((2 ^ 52 : ℤ) : ℚ) * (2 : ℚ) ^ (binade q - 52) := by
    rw [show binade q = 52 + (binade q - 52) by ring, zpow_add₀ (by norm_num : (2 : ℚ) ≠ 0)]
    norm_num
  have e2 : (2 : ℚ) ^ (binade q + 1) = ((2 ^ 53 : ℤ) : ℚ) * (2 : ℚ) ^ (binade q - 52) := by
    rw [show binade q + 1 = 53 + (binade q - 52) by ring,
      zpow_add₀ (by norm_num : (2 : ℚ) ≠ 0)]
    norm_num
  constructor
  · rw [le_div_iff₀ hp, ← e1]
    exact h1
  · rw [div_lt_iff₀ hp, ← e2]
    exact h2

/-- The mantissa of the rounding of a positive rational lies in `[2^52, 2^53]`. -/
theorem mantissa_bounds (q : ℚ) (hq : 0 < q) :
    (2 ^ 52 : ℤ) ≤ roundEven (q / (2 : ℚ) ^ (binade q - 52)) ∧
      roundEven (q / (2 : ℚ) ^ (binade q - 52)) ≤ (2 ^ 53 : ℤ) := by
  obtain ⟨h1, h2⟩ := scaled_bounds q hq
  exact ⟨roundEven_ge_of_intCast_le _ _ h1, roundEven_le_of_le_intCast _ _ (le_of_lt h2)⟩

theorem roundPos_pos (q : ℚ) (hq : 0 < q) : 0 < roundPos q := by
  unfold roundPos
  have hm := (mantissa_bounds q hq).1
  have : (0 : ℚ) < (roundEven (q / (2 : ℚ) ^ (binade q - 52)) : ℚ) := by
    have : (0 : ℤ) < roundEven (q / (2 : ℚ) ^ (binade q - 52)) := by
      have : (0 : ℤ) < 2 ^ 52 := by norm_num
      omega
    exact_mod_cast this
  exact mul_pos this (two_zpow_pos _)

/-- A number with a mantissa of 53 bits is its own rounding. -/
theorem roundPos_of_mantissa (k j : ℤ) (h1 : (2 ^ 52 : ℤ) ≤ k) (h2 : k < (2 ^ 53 : ℤ)) :
    roundPos ((k : ℚ) * (2 : ℚ) ^ j) = (k : ℚ) * (2 : ℚ) ^ j := by
  have hp := two_zpow_pos j
  have hk1 : ((2 ^ 52 : ℤ) : ℚ) ≤ (k : ℚ) := by exact_mod_cast h1
  have hk2 : (k : ℚ) < ((2 ^ 53 : ℤ) : ℚ) := by exact_mod_cast h2
  have hb : binade ((k : ℚ) * (2 : ℚ) ^ j) = j + 52 := by
    apply binade_unique
    · rw [show j + 52 = 52 + j by ring, zpow_add₀ (by norm_num : (2 : ℚ) ≠ 0)]
      have : ((2 : ℚ) ^ (52 : ℤ)) = ((2 ^ 52 : ℤ) : ℚ) := by norm_num
      rw [this]
      exact mul_le_mul_of_nonneg_right hk1 (le_of_lt hp)
    · rw [show j + 52 + 1 = 53 + j by ring, zpow_add₀ (by norm_num : (2 : ℚ) ≠ 0)]
      have : ((2 : ℚ) ^ (53 : ℤ)) = ((2 ^ 53 : ℤ) : ℚ) := by norm_num
      rw [this]
      exact mul_lt_mul_of_pos_right hk2 hp
  unfold roundPos
  rw [hb, show j + 52 - 52 = j by ring, mul_div_assoc, div_self (ne_of_gt hp), mul_one,
    roundEven_intCast]

/-- The rounding of a positive rational is its own rounding. -/
theorem roundPos_idem (q : ℚ) (hq : 0 < q) : roundPos (roundPos q) = roundPos q := by
  obtain ⟨h1, h2⟩ := mantissa_bounds q hq
  rcases lt_or_eq_of_le h2 with hlt | heq
  · exact roundPos_of_mantissa _ _ h1 hlt
  · have e : roundPos q = ((2 ^ 52 : ℤ) : ℚ) * (2 : ℚ) ^ (binade q - 52 + 1) := by
      unfold roundPos
      rw [heq, zpow_add₀ (by norm_num : (2 : ℚ) ≠ 0)]
      norm_num
      ring
    rw [e]
    exact roundPos_of_mantissa _ _ (le_refl _) (by norm_num)

/-- Rounding of positive rationals is monotone. -/
theorem roundPos_mono (p q : ℚ) (hp : 0 < p) (hpq : p ≤ q) : roundPos p ≤ roundPos q := by
  have hq : 0 < q := lt_of_lt_of_le hp hpq
  have hb := binade_mono p q hp hpq
  rcases lt_or_eq_of_le hb with hlt | heq
  · obtain ⟨_, hm2⟩ := mantissa_bounds p hp
    obtain ⟨hm1, _⟩ := mantissa_bounds q hq
    have hm2q : (roundEven (p / (2 : ℚ) ^ (binade p - 52)) : ℚ) ≤ ((2 ^ 53 : ℤ) : ℚ) := by
      exact_mod_cast hm2
    have hm1q : ((2 ^ 52 : ℤ) : ℚ) ≤ (roundEven (q / (2 : ℚ) ^ (binade q - 52)) : ℚ) := by
      exact_mod_cast hm1
    unfold roundPos
    calc (roundEven (p / (2 : ℚ) ^ (binade p - 52)) : ℚ) * (2 : ℚ) ^ (binade p - 52)
        ≤ ((2 ^ 53 : ℤ) : ℚ) * (2 : ℚ) ^ (binade p - 52) :=
          mul_le_mul_of_nonneg_right hm2q (le_of_lt (two_zpow_pos _))
      _ = (2 : ℚ) ^ (binade p + 1) := by
          rw [show binade p + 1 = 53 + (binade p - 52) by ring,
            zpow_add₀ (by norm_num : (2 : ℚ) ≠ 0)]
          norm_num
      _ ≤ (2 : ℚ) ^ binade q := zpow_le_zpow_right₀ (by norm_num) (by omega)
      _ = ((2 ^ 52 : ℤ) : ℚ) * (2 : ℚ) ^ (binade q - 52) := by
          rw [show binade q = 52 + (binade q - 52) by ring,
            zpow_add₀ (by norm_num : (2 : ℚ) ≠ 0)]
          norm_num
      _ ≤ (roundEven (q / (2 : ℚ) ^ (binade q - 52)) : ℚ) * (2 : ℚ) ^ (binade q - 52) :=
          mul_le_mul_of_nonneg_right hm1q (le_of_lt (two_zpow_pos _))
  · unfold roundPos
    rw [heq]
    have hx : p / (2 : ℚ) ^ (binade q - 52) ≤ q / (2 : ℚ) ^ (binade q - 52) :=
      div_le_div_of_nonneg_right hpq (le_of_lt (two_zpow_pos _))
    have hm := roundEven_mono _ _ hx
    have hmq : (roundEven (p / (2 : ℚ) ^ (binade q - 52)) : ℚ) ≤
        (roundEven (q / (2 : ℚ) ^ (binade q - 52)) : ℚ) := by exact_mod_cast hm
    exact mul_le_mul_of_nonneg_right hmq (le_of_lt (two_zpow_pos _))


theorem roundDouble_zero : roundDouble 0 = 0 := by
  unfold roundDouble
  rw [if_pos rfl]

theorem roundDouble_of_pos (q : ℚ) (hq : 0 < q) : roundDouble q = roundPos q := by
  unfold roundDouble
  rw [if_neg (ne_of_gt hq), if_neg (not_lt.mpr (le_of_lt hq))]

theorem roundDouble_of_neg (q : ℚ) (hq : q < 0) : roundDouble q = -roundPos (-q) := by
  unfold roundDouble
  rw [if_neg (ne_of_lt hq), if_pos hq]

theorem roundDouble_pos (q : ℚ) (hq : 0 < q) : 0 < roundDouble q := by
  rw [roundDouble_of_pos q hq]
  exact roundPos_pos q hq

theorem roundDouble_neg_of_neg (q : ℚ) (hq : q < 0) : roundDouble q < 0 := by
  rw [roundDouble_of_neg q hq]
  have := roundPos_pos (-q) (by linarith)
  linarith

theorem roundDouble_nonneg (q : ℚ) (hq : 0 ≤ q) : 0 ≤ roundDouble q := by
  rcases lt_or_eq_of_le hq with h | h
  · exact le_of_lt (roundDouble_pos q h)
  · rw [← h, roundDouble_zero]

theorem roundDouble_nonpos (q : ℚ) (hq : q ≤ 0) : roundDouble q ≤ 0 := by
  rcases lt_or_eq_of_le hq with h | h
  · exact le_of_lt (roundDouble_neg_of_neg q h)
  · rw [h, roundDouble_zero]

/-- Rounding is idempotent: its values are the numbers of the format. -/
theorem roundDouble_idem (q : ℚ) : roundDouble (roundDouble q) = roundDouble q := by
  rcases lt_trichotomy q 0 with h | h | h
  · have hp : 0 < -q := by linarith
    have h1 : roundDouble q = -roundPos (-q) := roundDouble_of_neg q h
    have h2 : -roundPos (-q) < 0 := by
      have := roundPos_pos (-q) hp
      linarith
    rw [h1, roundDouble_of_neg _ h2, neg_neg, roundPos_idem _ hp]
  · rw [h, roundDouble_zero, roundDouble_zero]
  · rw [roundDouble_of_pos q h, roundDouble_of_pos _ (roundPos_pos q h), roundPos_idem q h]

/-- Rounding is monotone. -/
theorem roundDouble_mono (p q : ℚ) (hpq : p ≤ q) : roundDouble p ≤ roundDouble q := by
  rcases lt_trichotomy p 0 with hp | hp | hp
  · rcases lt_or_le q 0 with hq | hq
    · rw [roundDouble_of_neg p hp, roundDouble_of_neg q hq]
      have := roundPos_mono (-q) (-p) (by linarith) (by linarith)
      linarith
    · have h1 := roundDouble_neg_of_neg p hp
      have h2 := roundDouble_nonneg q hq
      linarith
  · rw [hp, roundDouble_zero]
    exact roundDouble_nonneg q (by linarith)
  · have hq : 0 < q := lt_of_lt_of_le hp hpq
    rw [roundDouble_of_pos p hp, roundDouble_of_pos q hq]
    exact roundPos_mono p q hp hpq

theorem roundDouble_one : roundDouble 1 = 1 := by decide!

/-! ## The grid in doubles -/

/-- The results of the operations are numbers of the format. -/
theorem Double_results_IsDouble (a b : Double) (n : Nat) :
    (a + b).IsDouble ∧ (a - b).IsDouble ∧ (a * b).IsDouble ∧ (a / b).IsDouble ∧
      (n : Double).IsDouble :=
  ⟨roundDouble_idem _, roundDouble_idem _, roundDouble_idem _, roundDouble_idem _,
    roundDouble_idem _⟩

theorem Double_natCast_zero : ((0 : ℕ) : Double) = 0 := by
  show (⟨roundDouble ((0 : ℕ) : ℚ)⟩ : Double) = ⟨0⟩
  rw [Nat.cast_zero, roundDouble_zero]

theorem Double_zero_div (d : Double) : (0 : Double) / d = 0 := by
  show (⟨roundDouble ((0 : ℚ) / d.val)⟩ : Double) = ⟨0⟩
  rw [zero_div, roundDouble_zero]

theorem Double_mul_zero (x : Double) : x * 0 = 0 := by
  show (⟨roundDouble (x.val * (0 : ℚ))⟩ : Double) = ⟨0⟩
  rw [mul_zero, roundDouble_zero]

theorem Double_zero_mul (x : Double) : 0 * x = 0 := by
  show (⟨roundDouble ((0 : ℚ) * x.val)⟩ : Double) = ⟨0⟩
  rw [zero_mul, roundDouble_zero]

theorem Double_mul_one (x : Double) (hx : x.IsDouble) : x * 1 = x := by
  show (⟨roundDouble (x.val * (1 : ℚ))⟩ : Double) = x
  rw [mul_one, hx]

theorem Double_add_zero (x : Double) (hx : x.IsDouble) : x + 0 = x := by
  show (⟨roundDouble (x.val + (0 : ℚ))⟩ : Double) = x
  rw [add_zero, hx]

theorem Double_sub_self (x : Double) : x - x = 0 := by
  show (⟨roundDouble (x.val - x.val)⟩ : Double) = ⟨0⟩
  rw [sub_self, roundDouble_zero]

theorem Double_div_self (d : Double) (hd : d.val ≠ 0) : d / d = 1 := by
  show (⟨roundDouble (d.val / d.val)⟩ : Double) = ⟨1⟩
  rw [div_self hd, roundDouble_one]

theorem Double_natCast_mono (i j : Nat) (h : i ≤ j) : (i : Double) ≤ (j : Double) := by
  show roundDouble ((i : ℕ) : ℚ) ≤ roundDouble ((j : ℕ) : ℚ)
  exact roundDouble_mono _ _ (by exact_mod_cast h)

theorem Double_natCast_sub_one_nonneg (n : Nat) (hn : 1 ≤ n) :
    (0 : ℚ) ≤ ((n : Double) - 1).val := by
  show (0 : ℚ) ≤ roundDouble (roundDouble ((n : ℕ) : ℚ) - 1)
  apply roundDouble_nonneg
  have h1 : roundDouble 1 ≤ roundDouble ((n : ℕ) : ℚ) :=
    roundDouble_mono _ _ (by exact_mod_cast hn)
  rw [roundDouble_one] at h1
  linarith

/-- The point `i` of the linear grid in doubles. -/
theorem gridPoint_linear (M : CMath Double) (h_in h_out : Double) (Nx i : Nat) :
    gridPoint M "linear" h_in h_out Nx i =
      Except.ok (h_in + (h_out - h_in) * (i : Double) / ((Nx : Double) - 1)) := by
  unfold gridPoint
  rw [if_neg (by decide), if_pos rfl]

/-- The point `i` of the log grid in doubles. -/
theorem gridPoint_log (M : CMath Double) (h_in h_out : Double) (Nx i : Nat) :
    gridPoint M "log" h_in h_out Nx i =
      Except.ok (h_in * M.pow (h_out / h_in) ((i : Double) / ((Nx : Double) - 1))) := by
  unfold gridPoint
  rw [if_pos rfl]

/-- The linear grid in doubles does not decrease. -/
theorem gridPoint_linear_mono (h_in h_out : Double) (Nx i j : Nat) (hN : 1 ≤ Nx)
    (hle : h_in ≤ h_out) (hij : i ≤ j) :
    h_in + (h_out - h_in) * (i : Double) / ((Nx : Double) - 1) ≤
      h_in + (h_out - h_in) * (j : Double) / ((Nx : Double) - 1) := by
  have hd : (0 : ℚ) ≤ (h_out - h_in).val := by
    show (0 : ℚ) ≤ roundDouble (h_out.val - h_in.val)
    exact roundDouble_nonneg _ (sub_nonneg.mpr hle)
  have hc : (i : Double).val ≤ (j : Double).val := Double_natCast_mono i j hij
  have hn := Double_natCast_sub_one_nonneg Nx hN
  have hp : ((h_out - h_in) * (i : Double)).val ≤ ((h_out - h_in) * (j : Double)).val := by
    show roundDouble ((h_out - h_in).val * (i : Double).val) ≤
      roundDouble ((h_out - h_in).val * (j : Double).val)
    exact roundDouble_mono _ _ (mul_le_mul_of_nonneg_left hc hd)
  have hs : ((h_out - h_in) * (i : Double) / ((Nx : Double) - 1)).val ≤
      ((h_out - h_in) * (j : Double) / ((Nx : Double) - 1)).val := by
    show roundDouble (((h_out - h_in) * (i : Double)).val / ((Nx : Double) - 1).val) ≤
      roundDouble (((h_out - h_in) * (j : Double)).val / ((Nx : Double) - 1).val)
    exact roundDouble_mono _ _ (div_le_div_of_nonneg_right hp hn)
  show roundDouble (h_in.val + ((h_out - h_in) * (i : Double) / ((Nx : Double) - 1)).val) ≤
    roundDouble (h_in.val + ((h_out - h_in) * (j : Double) / ((Nx : Double) - 1)).val)
  exact roundDouble_mono _ _ (by linarith)

/-- Rounding to the nearest integer moves a number by a half at most. -/
theorem roundEven_sub_le (x : ℚ) :
    (roundEven x : ℚ) ≤ x + 1 / 2 ∧ x - 1 / 2 ≤ (roundEven x : ℚ) := by
  have h1 := Int.floor_le x
  have h2 := Int.lt_floor_add_one x
  unfold roundEven
  split_ifs with ha hb hc
  · constructor <;> linarith
  · constructor
    · push_cast; linarith
    · push_cast; linarith
  · have he : x - (⌊x⌋ : ℚ) = 1 / 2 := le_antisymm (not_lt.mp hb) (not_lt.mp ha)
    constructor <;> linarith
  · have he : x - (⌊x⌋ : ℚ) = 1 / 2 := le_antisymm (not_lt.mp hb) (not_lt.mp ha)
    constructor
    · push_cast; linarith
    · push_cast; linarith

/-- The relative error of the rounding of a positive rational is at most `2^-53`. -/
theorem roundPos_rel (q : ℚ) (hq : 0 < q) :
    q * (1 - 1 / 2 ^ 53) ≤ roundPos q ∧ roundPos q ≤ q * (1 + 1 / 2 ^ 53) := by
  obtain ⟨hx1, _⟩ := scaled_bounds q hq
  obtain ⟨hr1, hr2⟩ := roundEven_sub_le (q / (2 : ℚ) ^ (binade q - 52))
  have hp := two_zpow_pos (binade q - 52)
  unfold roundPos
  generalize (2 : ℚ) ^ (binade q - 52) = t at hx1 hr1 hr2 hp
  generalize (roundEven (q / t) : ℚ) = m at hr1 hr2
  have hx : q / t * t = q := div_mul_cancel₀ q (ne_of_gt hp)
  have h52 : ((2 ^ 52 : ℤ) : ℚ) = 2 ^ 52 := by norm_num
  rw [h52] at hx1
  -- t / 2 ≤ q / 2 ^ 53
  have ht : t * 2 ^ 52 ≤ q := by
    calc t * 2 ^ 52 = 2 ^ 52 * t := by ring
      _ ≤ q / t * t := mul_le_mul_of_nonneg_right hx1 (le_of_lt hp)
      _ = q := hx
  constructor
  · have : (q / t - 1 / 2) * t ≤ m * t := mul_le_mul_of_nonneg_right hr2 (le_of_lt hp)
    have e : (q / t - 1 / 2) * t = q - t / 2 := by rw [sub_mul, hx]; ring
    rw [e] at this
    have h3 : q * (1 - 1 / 2 ^ 53) = q - q / 2 ^ 53 := by ring
    rw [h3]
    have h4 : t / 2 ≤ q / 2 ^ 53 := by
      calc t / 2 = t * 2 ^ 52 / 2 ^ 53 := by ring
        _ ≤ q / 2 ^ 53 := div_le_div_of_nonneg_right ht (by norm_num)
    linarith
  · have : m * t ≤ (q / t + 1 / 2) * t := mul_le_mul_of_nonneg_right hr1 (le_of_lt hp)
    have e : (q / t + 1 / 2) * t = q + t / 2 := by rw [add_mul, hx]; ring
    rw [e] at this
    have h3 : q * (1 + 1 / 2 ^ 53) = q + q / 2 ^ 53 := by ring
    rw [h3]
    have h4 : t / 2 ≤ q / 2 ^ 53 := by
      calc t / 2 = t * 2 ^ 52 / 2 ^ 53 := by ring
        _ ≤ q / 2 ^ 53 := div_le_div_of_nonneg_right ht (by norm_num)
    linarith

/-- The relative error of the rounding of a non-negative rational. -/
theorem roundDouble_rel (q : ℚ) (hq : 0 ≤ q) :
    q * (1 - 1 / 2 ^ 53) ≤ roundDouble q ∧ roundDouble q ≤ q * (1 + 1 / 2 ^ 53) := by
  rcases lt_or_eq_of_le hq with h | h
  · rw [roundDouble_of_pos q h]
    exact roundPos_rel q h
  · rw [← h, roundDouble_zero]
    constructor <;> norm_num

/-- The natural numbers below `2^53` are numbers of the format. -/
theorem roundDouble_natCast (n : Nat) (hn : n < 2 ^ 53) : roundDouble (n : ℚ) = (n : ℚ) := by
  rcases Nat.eq_zero_or_pos n with h0 | hpos
  · rw [h0, Nat.cast_zero, roundDouble_zero]
  · obtain ⟨hb1, hb2⟩ := log2Fuel_spec n n (le_refl _) (by omega)
    generalize log2Fuel n n = b at hb1 hb2
    have hb : b ≤ 52 := by
      by_contra hlt
      have : 2 ^ 53 ≤ 2 ^ b := Nat.pow_le_pow_right (by norm_num) (by omega)
      omega
    have hq : (0 : ℚ) < (n : ℚ) := by exact_mod_cast hpos
    rw [roundDouble_of_pos _ hq]
    have e : (n : ℚ) = (((n * 2 ^ (52 - b) : ℕ) : ℤ) : ℚ) * (2 : ℚ) ^ ((b : ℤ) - 52) := by
      have h2 : (2 : ℚ) ^ ((b : ℤ) - 52) = ((2 : ℚ) ^ (52 - b))⁻¹ := by
        rw [show ((b : ℤ) - 52) = -(((52 - b : ℕ)) : ℤ) by omega, zpow_neg, zpow_natCast]
      rw [h2]
      push_cast
      field_simp
    have hk1 : (2 ^ 52 : ℤ) ≤ ((n * 2 ^ (52 - b) : ℕ) : ℤ) := by
      have : 2 ^ 52 ≤ n * 2 ^ (52 - b) := by
        calc 2 ^ 52 = 2 ^ b * 2 ^ (52 - b) := by rw [← pow_add]; congr 1; omega
          _ ≤ n * 2 ^ (52 - b) := Nat.mul_le_mul_right _ hb1
      exact_mod_cast this
    have hk2 : ((n * 2 ^ (52 - b) : ℕ) : ℤ) < (2 ^ 53 : ℤ) := by
      have : n * 2 ^ (52 - b) < 2 ^ 53 := by
        calc n * 2 ^ (52 - b) < 2 ^ (b + 1) * 2 ^ (52 - b) :=
              Nat.mul_lt_mul_of_pos_right hb2 (by positivity)
          _ = 2 ^ 53 := by rw [← pow_add]; congr 1; omega
      exact_mod_cast this
    rw [e]
    exact roundPos_of_mantissa _ _ hk1 hk2


/-- The rounding of a rational between two non-negative bounds. -/
theorem roundDouble_between (x lo hi : ℚ) (h0 : 0 ≤ lo) (h1 : lo ≤ x) (h2 : x ≤ hi) :
    lo * (1 - 1 / 2 ^ 53) ≤ roundDouble x ∧ roundDouble x ≤ hi * (1 + 1 / 2 ^ 53) := by
  obtain ⟨ha, hb⟩ := roundDouble_rel x (le_trans h0 h1)
  constructor
  · calc lo * (1 - 1 / 2 ^ 53) ≤ x * (1 - 1 / 2 ^ 53) :=
        mul_le_mul_of_nonneg_right h1 (by norm_num)
      _ ≤ roundDouble x := ha
  · calc roundDouble x ≤ x * (1 + 1 / 2 ^ 53) := hb
      _ ≤ hi * (1 + 1 / 2 ^ 53) := mul_le_mul_of_nonneg_right h2 (by norm_num)

/-- The conversion of `Nx - 1` and the difference `Nx - 1.` are exact. -/
theorem Double_count_exact (Nx : Nat) (hN : 1 ≤ Nx) (hlt : Nx < 2 ^ 31) :
    ((Nx - 1 : ℕ) : Double).val = (Nx : ℚ) - 1 ∧ ((Nx : Double) - 1).val = (Nx : ℚ) - 1 := by
  have e : (((Nx - 1 : ℕ)) : ℚ) = (Nx : ℚ) - 1 := by
    rw [Nat.cast_sub hN]
    simp
  have h1 : roundDouble ((Nx - 1 : ℕ) : ℚ) = ((Nx - 1 : ℕ) : ℚ) :=
    roundDouble_natCast _ (by
      have : (2 : ℕ) ^ 31 ≤ 2 ^ 53 := by norm_num
      omega)
  have h2 : roundDouble ((Nx : ℕ) : ℚ) = ((Nx : ℕ) : ℚ) :=
    roundDouble_natCast _ (by
      have : (2 : ℕ) ^ 31 ≤ 2 ^ 53 := by norm_num
      omega)
  constructor
  · show roundDouble ((Nx - 1 : ℕ) : ℚ) = (Nx : ℚ) - 1
    rw [h1, e]
  · show roundDouble (roundDouble ((Nx : ℕ) : ℚ) - (1 : ℚ)) = (Nx : ℚ) - 1
    rw [h2, ← e, h1]

/-- In doubles the last point of the linear grid is `h_out` up to a relative error
of `2^-50`. -/
theorem gridPoint_linear_last (h_in h_out : Double) (Nx : Nat) (hN : 2 ≤ Nx)
    (hlt : Nx < 2 ^ 31) (h0 : (0 : Double) < h_in) (hio : h_in < h_out) :
    |(h_in + (h_out - h_in) * ((Nx - 1 : ℕ) : Double) / ((Nx : Double) - 1)).val - h_out.val| ≤
      h_out.val / 2 ^ 50 := by
  obtain ⟨hc, hn⟩ := Double_count_exact Nx (by omega) hlt
  have hNq : (2 : ℚ) ≤ (Nx : ℚ) := by exact_mod_cast hN
  have hnpos : (0 : ℚ) < (Nx : ℚ) - 1 := by linarith
  have hi0 : (0 : ℚ) < h_in.val := h0
  have hlt' : h_in.val < h_out.val := hio
  have hA : (0 : ℚ) < h_out.val - h_in.val := by linarith
  -- the difference
  obtain ⟨d1, d2⟩ := roundDouble_rel (h_out.val - h_in.val) (le_of_lt hA)
  have hd : (h_out - h_in).val = roundDouble (h_out.val - h_in.val) := rfl
  -- the product
  have hp : ((h_out - h_in) * ((Nx - 1 : ℕ) : Double)).val =
      roundDouble ((h_out - h_in).val * ((Nx : ℚ) - 1)) := by
    show roundDouble ((h_out - h_in).val * ((Nx - 1 : ℕ) : Double).val) = _
    rw [hc]
  have hd0 : (0 : ℚ) ≤ (h_out.val - h_in.val) * (1 - 1 / 2 ^ 53) :=
    mul_nonneg (le_of_lt hA) (by norm_num)
  obtain ⟨p1, p2⟩ := roundDouble_between ((h_out - h_in).val * ((Nx : ℚ) - 1))
    ((h_out.val - h_in.val) * (1 - 1 / 2 ^ 53) * ((Nx : ℚ) - 1))
    ((h_out.val - h_in.val) * (1 + 1 / 2 ^ 53) * ((Nx : ℚ) - 1))
    (mul_nonneg hd0 (le_of_lt hnpos))
    (mul_le_mul_of_nonneg_right (by rw [hd]; exact d1) (le_of_lt hnpos))
    (mul_le_mul_of_nonneg_right (by rw [hd]; exact d2) (le_of_lt hnpos))
  rw [← hp] at p1 p2
  -- the quotient
  have hs : ((h_out - h_in) * ((Nx - 1 : ℕ) : Double) / ((Nx : Double) - 1)).val =
      roundDouble (((h_out - h_in) * ((Nx - 1 : ℕ) : Double)).val / ((Nx : ℚ) - 1)) := by
    show roundDouble (((h_out - h_in) * ((Nx - 1 : ℕ) : Double)).val /
      ((Nx : Double) - 1).val) = _
    rw [hn]
  obtain ⟨s1, s2⟩ := roundDouble_between
    (((h_out - h_in) * ((Nx - 1 : ℕ) : Double)).val / ((Nx : ℚ) - 1))
    ((h_out.val - h_in.val) * (1 - 1 / 2 ^ 53) * (1 - 1 / 2 ^ 53))
    ((h_out.val - h_in.val) * (1 + 1 / 2 ^ 53) * (1 + 1 / 2 ^ 53))
    (mul_nonneg hd0 (by norm_num))
    (by
      rw [le_div_iff₀ hnpos]
      calc (h_out.val - h_in.val) * (1 - 1 / 2 ^ 53) * (1 - 1 / 2 ^ 53) * ((Nx : ℚ) - 1)
          = (h_out.val - h_in.val) * (1 - 1 / 2 ^ 53) * ((Nx : ℚ) - 1) * (1 - 1 / 2 ^ 53) := by
            ring
        _ ≤ _ := p1)
    (by
      rw [div_le_iff₀ hnpos]
      calc ((h_out - h_in) * ((Nx - 1 : ℕ) : Double)).val
          ≤ (h_out.val - h_in.val) * (1 + 1 / 2 ^ 53) * ((Nx : ℚ) - 1) * (1 + 1 / 2 ^ 53) := p2
        _ = _ := by ring)
  rw [← hs] at s1 s2
  show |roundDouble (h_in.val +
    ((h_out - h_in) * ((Nx - 1 : ℕ) : Double) / ((Nx : Double) - 1)).val) - h_out.val| ≤
      h_out.val / 2 ^ 50
  generalize ((h_out - h_in) * ((Nx - 1 : ℕ) : Double) / ((Nx : Double) - 1)).val = s
    at s1 s2 ⊢
  -- the sum
  have hs0 : (0 : ℚ) ≤ s := by
    have : (0 : ℚ) ≤ (h_out.val - h_in.val) * (1 - 1 / 2 ^ 53) * (1 - 1 / 2 ^ 53) *
        (1 - 1 / 2 ^ 53) := mul_nonneg (mul_nonneg hd0 (by norm_num)) (by norm_num)
    linarith
  obtain ⟨t1, t2⟩ := roundDouble_rel (h_in.val + s) (by linarith)
  rw [abs_le]
  generalize roundDouble (h_in.val + s) = t at t1 t2
  generalize h_in.val = a at *
  generalize h_out.val = b at *
  have hb : 0 < b := by linarith
  constructor
  · -- lower bound
    have e1 : (b - a) * (1 - 1 / 2 ^ 53) * (1 - 1 / 2 ^ 53) * (1 - 1 / 2 ^ 53) =
        (b - a) * (1 - 1 / 2 ^ 53) ^ 3 := by ring
    have k1 : a + (b - a) * (1 - 1 / 2 ^ 53) ^ 3 ≥ b * (1 - 1 / 2 ^ 53) ^ 3 := by
      have : a * (1 - (1 - 1 / 2 ^ 53) ^ 3) ≥ 0 :=
        mul_nonneg (le_of_lt hi0) (by norm_num)
      linarith
    have k2 : (a + s) * (1 - 1 / 2 ^ 53) ≥ b * (1 - 1 / 2 ^ 53) ^ 3 * (1 - 1 / 2 ^ 53) :=
      mul_le_mul_of_nonneg_right (by rw [e1] at s1; linarith) (by norm_num)
    have k3 : b * (1 - 1 / 2 ^ 53) ^ 3 * (1 - 1 / 2 ^ 53) ≥ b - b / 2 ^ 50 := by
      have : b * ((1 - 1 / 2 ^ 53) ^ 3 * (1 - 1 / 2 ^ 53) - (1 - 1 / 2 ^ 50)) ≥ 0 :=
        mul_nonneg (le_of_lt hb) (by norm_num)
      linarith
    linarith
  · have e1 : (b - a) * (1 + 1 / 2 ^ 53) * (1 + 1 / 2 ^ 53) * (1 + 1 / 2 ^ 53) =
        (b - a) * (1 + 1 / 2 ^ 53) ^ 3 := by ring
    have k1 : a + (b - a) * (1 + 1 / 2 ^ 53) ^ 3 ≤ b * (1 + 1 / 2 ^ 53) ^ 3 := by
      have : a * ((1 + 1 / 2 ^ 53) ^ 3 - 1) ≥ 0 :=
        mul_nonneg (le_of_lt hi0) (by norm_num)
      linarith
    have k2 : (a + s) * (1 + 1 / 2 ^ 53) ≤ b * (1 + 1 / 2 ^ 53) ^ 3 * (1 + 1 / 2 ^ 53) :=
      mul_le_mul_of_nonneg_right (by rw [e1] at s2; linarith) (by norm_num)
    have k3 : b * (1 + 1 / 2 ^ 53) ^ 3 * (1 + 1 / 2 ^ 53) ≤ b + b / 2 ^ 50 := by
      have : b * ((1 + 1 / 2 ^ 50) - (1 + 1 / 2 ^ 53) ^ 3 * (1 + 1 / 2 ^ 53)) ≥ 0 :=
        mul_nonneg (le_of_lt hb) (by norm_num)
      linarith
    linarith


/-- In doubles the last point of the log grid is `h_out` up to a relative error of
`2^-50`, when `pow(x, 1) = x`. -/
theorem gridPoint_log_last (M : CMath Double) (hpow : ∀ x : Double, M.pow x 1 = x)
    (h_in h_out : Double) (Nx : Nat) (hN : 2 ≤ Nx)
    (hlt : Nx < 2 ^ 31) (h0 : (0 : Double) < h_in) (hio : h_in < h_out) :
    |(h_in * M.pow (h_out / h_in) (((Nx - 1 : ℕ) : Double) / ((Nx : Double) - 1))).val -
      h_out.val| ≤ h_out.val / 2 ^ 50 := by
  obtain ⟨hc, hn⟩ := Double_count_exact Nx (by omega) hlt
  have hNq : (2 : ℚ) ≤ (Nx : ℚ) := by exact_mod_cast hN
  have hnpos : (0 : ℚ) < (Nx : ℚ) - 1 := by linarith
  have hone : ((Nx - 1 : ℕ) : Double) / ((Nx : Double) - 1) = 1 := by
    show (⟨roundDouble (((Nx - 1 : ℕ) : Double).val / ((Nx : Double) - 1).val)⟩ : Double) = ⟨1⟩
    rw [hc, hn, div_self (ne_of_gt hnpos), roundDouble_one]
  rw [hone, hpow]
  have hi0 : (0 : ℚ) < h_in.val := h0
  have hlt' : h_in.val < h_out.val := hio
  have hb : (0 : ℚ) < h_out.val := by linarith
  have hr : (0 : ℚ) < h_out.val / h_in.val := div_pos hb hi0
  obtain ⟨q1, q2⟩ := roundDouble_rel (h_out.val / h_in.val) (le_of_lt hr)
  have hmul : h_in.val * (h_out.val / h_in.val) = h_out.val := by
    field_simp
  obtain ⟨t1, t2⟩ := roundDouble_between (h_in.val * roundDouble (h_out.val / h_in.val))
    (h_out.val * (1 - 1 / 2 ^ 53)) (h_out.val * (1 + 1 / 2 ^ 53))
    (mul_nonneg (le_of_lt hb) (by norm_num))
    (by
      calc h_out.val * (1 - 1 / 2 ^ 53)
          = h_in.val * (h_out.val / h_in.val * (1 - 1 / 2 ^ 53)) := by rw [← mul_assoc, hmul]
        _ ≤ h_in.val * roundDouble (h_out.val / h_in.val) :=
          mul_le_mul_of_nonneg_left q1 (le_of_lt hi0))
    (by
      calc h_in.val * roundDouble (h_out.val / h_in.val)
          ≤ h_in.val * (h_out.val / h_in.val * (1 + 1 / 2 ^ 53)) :=
            mul_le_mul_of_nonneg_left q2 (le_of_lt hi0)
        _ = h_out.val * (1 + 1 / 2 ^ 53) := by rw [← mul_assoc, hmul])
  show |roundDouble (h_in.val * roundDouble (h_out.val / h_in.val)) - h_out.val| ≤
    h_out.val / 2 ^ 50
  generalize roundDouble (h_in.val * roundDouble (h_out.val / h_in.val)) = t at t1 t2
  generalize h_out.val = b at *
  rw [abs_le]
  constructor
  · have : b * ((1 - 1 / 2 ^ 53) * (1 - 1 / 2 ^ 53) - (1 - 1 / 2 ^ 50)) ≥ 0 :=
      mul_nonneg (le_of_lt hb) (by norm_num)
    linarith
  · have : b * ((1 + 1 / 2 ^ 50) - (1 + 1 / 2 ^ 53) * (1 + 1 / 2 ^ 53)) ≥ 0 :=
      mul_nonneg (le_of_lt hb) (by norm_num)
    linarith

/-- The grid of the program in doubles: what is exact, and the last point up to
rounding. -/
theorem makeGrid_double (M : CMath Double) (grid_scale : String)
    (hs : grid_scale = "log" ∨ grid_scale = "linear") (GM h_in h_out : Double) (Nx : Nat)
    (hN : 2 ≤ Nx) (hin : h_in.IsDouble) (hpow : ∀ x : Double, M.pow x 0 = 1) :
    ∃ h R, makeGrid M grid_scale GM h_in h_out Nx = Except.ok (h, R) ∧
      h.length = Nx ∧ R.length = Nx ∧ h.getD 0 0 = h_in ∧
      (∀ i, i < Nx → R.getD i 0 = h.getD i 0 * h.getD i 0 / GM) ∧
      (grid_scale = "linear" → h_in ≤ h_out →
        ∀ i, i + 1 < Nx → h.getD i 0 ≤ h.getD (i + 1) 0) ∧
      (0 < h_in → h_in < h_out → Nx < 2 ^ 31 →
        (grid_scale = "linear" ∨ (grid_scale = "log" ∧ ∀ x : Double, M.pow x 1 = x)) →
        |(h.getD (Nx - 1) 0).val - h_out.val| ≤ h_out.val / 2 ^ 50) := by
  rcases hs with hs | hs
  · rw [hs]
    refine ⟨_, _, makeGrid_eq M "log" GM h_in h_out Nx _ (gridPoint_log M h_in h_out Nx),
      ?_, ?_, ?_, ?_, ?_, ?_⟩
    · rw [fillLoop_length, List.length_replicate]
    · rw [fillLoop_length, List.length_replicate]
    · rw [fillLoop_zero_getD _ Nx 0 (by omega), Double_natCast_zero, Double_zero_div, hpow,
        Double_mul_one h_in hin]
    · intro i hi
      rw [fillLoop_zero_getD _ Nx i hi, fillLoop_zero_getD _ Nx i hi]
    · intro h
      exact absurd h (by decide)
    · intro h0 hio hlt hsc
      rw [fillLoop_zero_getD _ Nx (Nx - 1) (by omega)]
      rcases hsc with hlin | ⟨_, hpow1⟩
      · exact absurd hlin (by decide)
      · exact gridPoint_log_last M hpow1 h_in h_out Nx hN hlt h0 hio
  · rw [hs]
    refine ⟨_, _, makeGrid_eq M "linear" GM h_in h_out Nx _
      (gridPoint_linear M h_in h_out Nx), ?_, ?_, ?_, ?_, ?_, ?_⟩
    · rw [fillLoop_length, List.length_replicate]
    · rw [fillLoop_length, List.length_replicate]
    · rw [fillLoop_zero_getD _ Nx 0 (by omega), Double_natCast_zero, Double_mul_zero,
        Double_zero_div, Double_add_zero h_in hin]
    · intro i hi
      rw [fillLoop_zero_getD _ Nx i hi, fillLoop_zero_getD _ Nx i hi]
    · intro _ hle i hi
      rw [fillLoop_zero_getD _ Nx i (by omega), fillLoop_zero_getD _ Nx (i + 1) hi]
      exact gridPoint_linear_mono h_in h_out Nx i (i + 1) (by omega) hle (by omega)
    · intro h0 hio hlt _
      rw [fillLoop_zero_getD _ Nx (Nx - 1) (by omega)]
      exact gridPoint_linear_last h_in h_out Nx hN hlt h0 hio

/-- The grid of the program in exact real arithmetic: for `Nx >= 2` and
`0 < h_in < h_out` it has `Nx` points with `h[0] = h_in`, `h[Nx-1] = h_out`,
`h[i] < h[i+1]`, the constant ratio `(h_out/h_in)^(1/(Nx-1))` on the log scale, the
constant difference `(h_out - h_in)/(Nx-1)` on the linear scale, and
`R[i] = h[i]^2/GM`. -/
theorem makeGrid_real_spec (grid_scale : String)
    (hs : grid_scale = "log" ∨ grid_scale = "linear") (GM h_in h_out : ℝ) (Nx : Nat)
    (hN : 2 ≤ Nx) (h0 : 0 < h_in) (hlt : h_in < h_out) :
    ∃ h R, makeGrid realMath grid_scale GM h_in h_out Nx = Except.ok (h, R) ∧
      h.length = Nx ∧ R.length = Nx ∧
      h.getD 0 0 = h_in ∧ h.getD (Nx - 1) 0 = h_out ∧
      (∀ i, i + 1 < Nx → h.getD i 0 < h.getD (i + 1) 0) ∧
      (grid_scale = "log" → ∀ i, i + 1 < Nx →
        h.getD (i + 1) 0 / h.getD i 0 = (h_out / h_in) ^ (1 / ((Nx : ℝ) - 1))) ∧
      (grid_scale = "linear" → ∀ i, i + 1 < Nx →
        h.getD (i + 1) 0 - h.getD i 0 = (h_out - h_in) / ((Nx : ℝ) - 1)) ∧
      (∀ i, i < Nx → R.getD i 0 = h.getD i 0 ^ 2 / GM) := by
  have hN' : (2 : ℝ) ≤ (Nx : ℝ) := by exact_mod_cast hN
  have hd : 0 < (Nx : ℝ) - 1 := by linarith
  refine ⟨_, _, makeGrid_real grid_scale hs GM h_in h_out Nx, ?_, ?_, ?_, ?_, ?_, ?_, ?_, ?_⟩
  · rw [fillLoop_length, List.length_replicate]
  · rw [fillLoop_length, List.length_replicate]
  · rw [fillLoop_zero_getD _ Nx 0 (by omega), gridValue_zero]
  · rw [fillLoop_zero_getD _ Nx (Nx - 1) (by omega),
      gridValue_last grid_scale h_in h_out Nx hN h0]
  · intro i hi
    rw [fillLoop_zero_getD _ Nx i (by omega), fillLoop_zero_getD _ Nx (i + 1) hi]
    exact gridValue_lt grid_scale h_in h_out Nx i hN h0 hlt
  · intro hlog i hi
    rw [fillLoop_zero_getD _ Nx i (by omega), fillLoop_zero_getD _ Nx (i + 1) hi]
    unfold gridValue
    rw [if_pos hlog, if_pos hlog]
    have hb : 0 < h_out / h_in := div_pos (by linarith) h0
    have hpow : 0 < (h_out / h_in) ^ ((i : ℝ) / ((Nx : ℝ) - 1)) := Real.rpow_pos_of_pos hb _
    rw [mul_div_mul_left _ _ (ne_of_gt h0), ← Real.rpow_sub hb]
    congr 1
    push_cast
    field_simp
  · intro hlin i hi
    rw [fillLoop_zero_getD _ Nx i (by omega), fillLoop_zero_getD _ Nx (i + 1) hi]
    unfold gridValue
    have hne : ¬ grid_scale = "log" := by rw [hlin]; decide
    rw [if_neg hne, if_neg hne]
    push_cast
    field_simp
    ring
  · intro i hi
    rw [fillLoop_zero_getD _ Nx i hi, fillLoop_zero_getD _ Nx i hi]
    ring

/-- C17, counterexample: in the double arithmetic of the program,
(1) on the linear grid of 1000 points between the end points that the program
computes for `--Mx 5.3` (`h_in = 5.747370991325926e16`,
`h_out = 9.68697514200406e18`), `h[999]` is `9.686975142004062e18`, not `h_out`;
(2) on the linear grid at the defaults (`Mx = 7.5`), `h[2] - h[1]` and `h[3] - h[2]`
differ; (3) on the log grid for `--Mx 4` (`h_in = 4.337638484019567e16`,
`h_out = 7.906722586023453e18`), when `pow(x, 1) = x`, `h[999]` is
`7.906722586023454e18`, not `h_out`; (4) on the linear grid of 3 points from `1` to
`1 + 2^-52`, `h[1] = h[0]`. -/
theorem makeGrid_spec_counterexample :
    (roundDouble 57473709913259264 = 57473709913259264 ∧
      roundDouble 9686975142004060160 = 9686975142004060160 ∧
      (0 : ℚ) < 57473709913259264 ∧ (57473709913259264 : ℚ) < 9686975142004060160 ∧
      ∀ M : CMath Double, ∃ h R,
        makeGrid M "linear" ⟨703419347479999994235191296⟩ ⟨57473709913259264⟩
          ⟨9686975142004060160⟩ 1000 = Except.ok (h, R) ∧
        h.getD 999 0 = ⟨9686975142004062208⟩ ∧ h.getD 999 0 ≠ ⟨9686975142004060160⟩) ∧
    (∀ M : CMath Double, ∃ h R,
        makeGrid M "linear" ⟨995404736999999927012556800⟩ ⟨81330721575366880⟩
          ⟨12442661001031880704⟩ 1000 = Except.ok (h, R) ∧
        h.getD 2 0 - h.getD 1 0 = ⟨12373703983439952⟩ ∧
        h.getD 3 0 - h.getD 2 0 = ⟨12373703983439968⟩) ∧
    (∀ M : CMath Double, (∀ x : Double, M.pow x 1 = x) → ∃ h R,
        makeGrid M "log" ⟨530882526399999983979855872⟩ ⟨43376384840195672⟩
          ⟨7906722586023452672⟩ 1000 = Except.ok (h, R) ∧
        h.getD 999 0 = ⟨7906722586023453696⟩ ∧ h.getD 999 0 ≠ ⟨7906722586023452672⟩) ∧
    (∀ M : CMath Double, ∃ h R,
        makeGrid M "linear" 1 1 ⟨1 + 1 / 2 ^ 52⟩ 3 = Except.ok (h, R) ∧
        h.getD 0 0 = 1 ∧ h.getD 1 0 = 1 ∧ ¬ h.getD 0 0 < h.getD 1 0) := by
  refine ⟨⟨by decide!, by decide!, by norm_num, by norm_num, ?_⟩, ?_, ?_, ?_⟩
  · intro M
    refine ⟨_, _, makeGrid_eq M "linear" _ _ _ 1000 _ (gridPoint_linear M _ _ 1000), ?_⟩
    rw [fillLoop_zero_getD _ 1000 999 (by decide)]
    exact ⟨by decide!, by decide!⟩
  · intro M
    refine ⟨_, _, makeGrid_eq M "linear" _ _ _ 1000 _ (gridPoint_linear M _ _ 1000), ?_⟩
    rw [fillLoop_zero_getD _ 1000 1 (by decide), fillLoop_zero_getD _ 1000 2 (by decide),
      fillLoop_zero_getD _ 1000 3 (by decide)]
    exact ⟨by decide!, by decide!⟩
  · intro M hpow
    refine ⟨_, _, makeGrid_eq M "log" _ _ _ 1000 _ (gridPoint_log M _ _ 1000), ?_⟩
    rw [fillLoop_zero_getD _ 1000 999 (by decide)]
    have e : ((999 : ℕ) : Double) / (((1000 : ℕ) : Double) - 1) = 1 := by decide!
    rw [e, hpow]
    exact ⟨by decide!, by decide!⟩
  · intro M
    refine ⟨_, _, makeGrid_eq M "linear" _ _ _ 3 _ (gridPoint_linear M _ _ 3), ?_⟩
    rw [fillLoop_zero_getD _ 3 0 (by decide), fillLoop_zero_getD _ 3 1 (by decide)]
    exact ⟨by decide!, by decide!, by decide!⟩

/-- C17, as the code has it: for every `Nx >= 2`, in the double arithmetic of the
program (with `pow(x, 0) = 1`) the log and the linear grid have `Nx` points with
`h[0] = h_in` exactly and `R[i] = h[i] * h[i] / GM` as computed, the linear grid
does not decrease, and for `0 < h_in < h_out` the last point `h[Nx-1]` is `h_out`
up to a relative error of `2^-50` (on the log grid when `pow(x, 1) = x`); in exact
real arithmetic, for `0 < h_in < h_out`, moreover
`h[Nx-1] = h_out`, `h[i] < h[i+1]`, the log grid has the constant ratio
`(h_out/h_in)^(1/(Nx-1))`, the linear grid the constant difference
`(h_out - h_in)/(Nx-1)`, and `R[i] = h[i]^2/GM`. -/
theorem makeGrid_spec :
    (∀ (M : CMath Double) (grid_scale : String),
      (grid_scale = "log" ∨ grid_scale = "linear") →
      ∀ (GM h_in h_out : Double) (Nx : Nat), 2 ≤ Nx → h_in.IsDouble →
      (∀ x : Double, M.pow x 0 = 1) →
      ∃ h R, makeGrid M grid_scale GM h_in h_out Nx = Except.ok (h, R) ∧
        h.length = Nx ∧ R.length = Nx ∧ h.getD 0 0 = h_in ∧
        (∀ i, i < Nx → R.getD i 0 = h.getD i 0 * h.getD i 0 / GM) ∧
        (grid_scale = "linear" → h_in ≤ h_out →
          ∀ i, i + 1 < Nx → h.getD i 0 ≤ h.getD (i + 1) 0) ∧
        (0 < h_in → h_in < h_out → Nx < 2 ^ 31 →
          (grid_scale = "linear" ∨ (grid_scale = "log" ∧ ∀ x : Double, M.pow x 1 = x)) →
          |(h.getD (Nx - 1) 0).val - h_out.val| ≤ h_out.val / 2 ^ 50)) ∧
    (∀ (grid_scale : String), (grid_scale = "log" ∨ grid_scale = "linear") →
      ∀ (GM h_in h_out : ℝ) (Nx : Nat), 2 ≤ Nx → 0 < h_in → h_in < h_out →
      ∃ h R, makeGrid realMath grid_scale GM h_in h_out Nx = Except.ok (h, R) ∧
        h.length = Nx ∧ R.length = Nx ∧
        h.getD 0 0 = h_in ∧ h.getD (Nx - 1) 0 = h_out ∧
        (∀ i, i + 1 < Nx → h.getD i 0 < h.getD (i + 1) 0) ∧
        (grid_scale = "log" → ∀ i, i + 1 < Nx →
          h.getD (i + 1) 0 / h.getD i 0 = (h_out / h_in) ^ (1 / ((Nx : ℝ) - 1))) ∧
        (grid_scale = "linear" → ∀ i, i + 1 < Nx →
          h.getD (i + 1) 0 - h.getD i 0 = (h_out - h_in) / ((Nx : ℝ) - 1)) ∧
        (∀ i, i < Nx → R.getD i 0 = h.getD i 0 ^ 2 / GM)) :=
  ⟨fun M grid_scale hs GM h_in h_out Nx hN hin hpow =>
      makeGrid_double M grid_scale hs GM h_in h_out Nx hN hin hpow,
    fun grid_scale hs GM h_in h_out Nx hN h0 hlt =>
      makeGrid_real_spec grid_scale hs GM h_in h_out Nx hN h0 hlt⟩

/-- C17, witness: the log grid of three points from 1 to 4, in doubles with the
stand-in `demoLibm` and in exact real arithmetic. -/
theorem makeGrid_spec_witness :
    (∃ h R, makeGrid demoLibm "log" 1 1 4 3 = Except.ok (h, R) ∧
        h.length = 3 ∧ R.length = 3 ∧ h.getD 0 0 = 1 ∧
        (∀ i, i < 3 → R.getD i 0 = h.getD i 0 * h.getD i 0 / 1) ∧
        ("log" = "linear" → (1 : Double) ≤ 4 →
          ∀ i, i + 1 < 3 → h.getD i 0 ≤ h.getD (i + 1) 0) ∧
        ((0 : Double) < 1 → (1 : Double) < 4 → 3 < 2 ^ 31 →
          ("log" = "linear" ∨ ("log" = "log" ∧ ∀ x : Double, demoLibm.pow x 1 = x)) →
          |(h.getD (3 - 1) 0).val - (4 : Double).val| ≤ (4 : Double).val / 2 ^ 50)) ∧
    (∃ h R, makeGrid realMath "log" 1 1 4 3 = Except.ok (h, R) ∧
      h.length = 3 ∧ R.length = 3 ∧
      h.getD 0 0 = 1 ∧ h.getD (3 - 1) 0 = 4 ∧
      (∀ i, i + 1 < 3 → h.getD i 0 < h.getD (i + 1) 0) ∧
      ("log" = "log" → ∀ i, i + 1 < 3 →
        h.getD (i + 1) 0 / h.getD i 0 = ((4 : ℝ) / 1) ^ (1 / (((3 : ℕ) : ℝ) - 1))) ∧
      ("log" = "linear" → ∀ i, i + 1 < 3 →
        h.getD (i + 1) 0 - h.getD i 0 = ((4 : ℝ) - 1) / (((3 : ℕ) : ℝ) - 1)) ∧
      (∀ i, i < 3 → R.getD i 0 = h.getD i 0 ^ 2 / 1)) :=
  ⟨makeGrid_spec.1 demoLibm "log" (Or.inl rfl) 1 1 4 3 (by decide) roundDouble_one
      (fun _ => rfl),
    makeGrid_spec.2 "log" (Or.inl rfl) 1 1 4 3 (by decide) (by norm_num) (by norm_num)⟩

/-- C18: for every grid `h`, the shape power with `powerorder = 0` yields `F[i] = F0`
at every index `i < Nx`, the innermost one included. -/
theorem initialF_power_zero (K : GslConst ℝ) (P : InitialParams ℝ) (h R : List ℝ) (Nx : Nat)
    (hshape : P.initial_cond_shape = "power") (hp : P.power_order = 0) :
    ∃ r, initialF realMath K P h R Nx = Except.ok r ∧ r.F.length = Nx ∧
      ∀ i, i < Nx → r.F.getD i 0 = P.F0_gauss := by
  have hne : ¬ P.initial_cond_shape = "sinusgauss" := by rw [hshape]; decide
  unfold initialF
  rw [if_neg hne, if_pos hshape]
  refine ⟨_, rfl, ?_, ?_⟩
  · show (fillLoop _ 0 Nx (List.replicate Nx 0)).length = Nx
    rw [fillLoop_length, List.length_replicate]
  · intro i hi
    show (fillLoop _ 0 Nx (List.replicate Nx 0)).getD i 0 = P.F0_gauss
    rw [fillLoop_zero_getD _ Nx i hi, hp]
    show P.F0_gauss * ((h.getD i 0 - P.h_in) / (P.h_out - P.h_in)) ^ (0 : ℝ) = P.F0_gauss
    rw [Real.rpow_zero, mul_one]

/-- C18, witness: `powerorder = 0` and `F0 = 10^37` on a grid of three points whose
first point is `h_in`. -/
theorem initialF_power_zero_witness :
    ∃ r, initialF realMath gslCgsm demoPowerZero [1, 2, 4] [1, 4, 16] 3 = Except.ok r ∧
      r.F.length = 3 ∧ ∀ i, i < 3 → r.F.getD i 0 = demoPowerZero.F0_gauss :=
  initialF_power_zero gslCgsm demoPowerZero [1, 2, 4] [1, 4, 16] 3 rfl rfl

/-- The initial torque of the shape power, in any arithmetic. -/
theorem initialF_power_eq {α : Type} [Add α] [Sub α] [Mul α] [Div α] [Zero α] [One α]
    [NatCast α] [Neg α] [OfScientific α] [LT α] [LE α]
    [DecidableRel (fun a b : α => a < b)] [DecidableRel (fun a b : α => a ≤ b)]
    (M : CMath α) (K : GslConst α) (P : InitialParams α) (h R : List α) (Nx : Nat)
    (hshape : P.initial_cond_shape = "power") :
    initialF M K P h R Nx = Except.ok {
      F := fillLoop (fun i =>
        P.F0_gauss * M.pow ((h.getD i 0 - P.h_in) / (P.h_out - P.h_in)) P.power_order)
        0 Nx (List.replicate Nx 0)
      F0_gauss := P.F0_gauss
      Mdot_out := P.Mdot_out } := by
  have hne : ¬ P.initial_cond_shape = "sinusgauss" := by rw [hshape]; decide
  unfold initialF
  rw [if_neg hne, if_pos hshape]

/-- The initial torque of the shape sinus, in any arithmetic. -/
theorem initialF_sinus_eq {α : Type} [Add α] [Sub α] [Mul α] [Div α] [Zero α] [One α]
    [NatCast α] [Neg α] [OfScientific α] [LT α] [LE α]
    [DecidableRel (fun a b : α => a < b)] [DecidableRel (fun a b : α => a ≤ b)]
    (M : CMath α) (K : GslConst α) (P : InitialParams α) (h R : List α) (Nx : Nat)
    (hshape : P.initial_cond_shape = "sinus") :
    initialF M K P h R Nx = Except.ok {
      F := fillLoop (fun i =>
        P.F0_gauss * M.sin ((h.getD i 0 - P.h_in) / (P.h_out - P.h_in) * M.pi / 2))
        0 Nx (List.replicate Nx 0)
      F0_gauss := P.F0_gauss
      Mdot_out := P.Mdot_out } := by
  have hne1 : ¬ P.initial_cond_shape = "sinusgauss" := by rw [hshape]; decide
  have hne2 : ¬ P.initial_cond_shape = "power" := by rw [hshape]; decide
  unfold initialF
  rw [if_neg hne1, if_neg hne2, if_pos hshape]

/-- In doubles, the relative position of a grid point between the end points lies
in `[0, 1]`. -/
theorem Double_position_unit (x a b : Double) (hab : a < b) (hax : a ≤ x) (hxb : x ≤ b) :
    (0 : Double) ≤ (x - a) / (b - a) ∧ (x - a) / (b - a) ≤ 1 := by
  have hd : (0 : ℚ) < (b - a).val := by
    show (0 : ℚ) < roundDouble (b.val - a.val)
    exact roundDouble_pos _ (sub_pos.mpr hab)
  have hu0 : (0 : ℚ) ≤ (x - a).val := by
    show (0 : ℚ) ≤ roundDouble (x.val - a.val)
    exact roundDouble_nonneg _ (sub_nonneg.mpr hax)
  have hu1 : (x - a).val ≤ (b - a).val := by
    show roundDouble (x.val - a.val) ≤ roundDouble (b.val - a.val)
    exact roundDouble_mono _ _ (by
      have : x.val ≤ b.val := hxb
      linarith)
  constructor
  · show (0 : ℚ) ≤ roundDouble ((x - a).val / (b - a).val)
    exact roundDouble_nonneg _ (div_nonneg hu0 (le_of_lt hd))
  · show roundDouble ((x - a).val / (b - a).val) ≤ (1 : ℚ)
    have := roundDouble_mono _ _ ((div_le_one hd).mpr hu1)
    rwa [roundDouble_one] at this

/-- In doubles, the relative position of the outer end point is 1. -/
theorem Double_position_one (a b : Double) (hab : a < b) : (b - a) / (b - a) = 1 := by
  apply Double_div_self
  have hd : (0 : ℚ) < roundDouble (b.val - a.val) := roundDouble_pos _ (sub_pos.mpr hab)
  exact ne_of_gt hd

/-- In doubles, the product of `F0 >= 0` by a number of `[0, 1]` lies in `[0, F0]`. -/
theorem Double_scale_unit (F0 y : Double) (hF : F0.IsDouble) (hF0 : (0 : Double) ≤ F0)
    (hy0 : (0 : Double) ≤ y) (hy1 : y ≤ 1) : (0 : Double) ≤ F0 * y ∧ F0 * y ≤ F0 := by
  have h0 : (0 : ℚ) ≤ F0.val := hF0
  have h1 : (0 : ℚ) ≤ y.val := hy0
  have h2 : y.val ≤ (1 : ℚ) := hy1
  constructor
  · show (0 : ℚ) ≤ roundDouble (F0.val * y.val)
    exact roundDouble_nonneg _ (mul_nonneg h0 h1)
  · show roundDouble (F0.val * y.val) ≤ F0.val
    have := roundDouble_mono (F0.val * y.val) F0.val (by nlinarith)
    rwa [hF] at this

/-- The invariants of the initial torque in doubles. -/
theorem initialF_invariants_double (M : CMath Double) (K : GslConst Double)
    (P : InitialParams Double) (h R : List Double) (Nx : Nat) (hN : 1 ≤ Nx)
    (hfirst : h.getD 0 0 = P.h_in) (hlast : h.getD (Nx - 1) 0 = P.h_out)
    (hlt : P.h_in < P.h_out)
    (hmem : ∀ i, i < Nx → P.h_in ≤ h.getD i 0 ∧ h.getD i 0 ≤ P.h_out)
    (hF : P.F0_gauss.IsDouble) (hF0 : (0 : Double) ≤ P.F0_gauss)
    (hshape : (P.initial_cond_shape = "power" ∧ 0 < P.power_order ∧ PowLaws M) ∨
      (P.initial_cond_shape = "sinus" ∧ SinLaws M)) :
    ∃ r, initialF M K P h R Nx = Except.ok r ∧
      r.F.getD 0 0 = 0 ∧ r.F.getD (Nx - 1) 0 = P.F0_gauss ∧
      ∀ i, i < Nx → 0 ≤ r.F.getD i 0 ∧ r.F.getD i 0 ≤ P.F0_gauss := by
  rcases hshape with ⟨hpow, hp, L⟩ | ⟨hsin, L⟩
  · refine ⟨_, initialF_power_eq M K P h R Nx hpow, ?_, ?_, ?_⟩
    · show (fillLoop _ 0 Nx (List.replicate Nx 0)).getD 0 0 = 0
      rw [fillLoop_zero_getD _ Nx 0 (by omega), hfirst, Double_sub_self, Double_zero_div,
        L.pow_zero_base _ hp, Double_mul_zero]
    · show (fillLoop _ 0 Nx (List.replicate Nx 0)).getD (Nx - 1) 0 = P.F0_gauss
      rw [fillLoop_zero_getD _ Nx (Nx - 1) (by omega), hlast, Double_position_one _ _ hlt,
        L.pow_one_base, Double_mul_one _ hF]
    · intro i hi
      show 0 ≤ (fillLoop _ 0 Nx (List.replicate Nx 0)).getD i 0 ∧
        (fillLoop _ 0 Nx (List.replicate Nx 0)).getD i 0 ≤ P.F0_gauss
      rw [fillLoop_zero_getD _ Nx i hi]
      obtain ⟨hx0, hx1⟩ := Double_position_unit _ _ _ hlt (hmem i hi).1 (hmem i hi).2
      obtain ⟨hy0, hy1⟩ := L.pow_unit _ _ hx0 hx1 hp
      exact Double_scale_unit _ _ hF hF0 hy0 hy1
  · refine ⟨_, initialF_sinus_eq M K P h R Nx hsin, ?_, ?_, ?_⟩
    · show (fillLoop _ 0 Nx (List.replicate Nx 0)).getD 0 0 = 0
      rw [fillLoop_zero_getD _ Nx 0 (by omega), hfirst, Double_sub_self, Double_zero_div,
        Double_zero_mul, Double_zero_div, L.sin_zero, Double_mul_zero]
    · show (fillLoop _ 0 Nx (List.replicate Nx 0)).getD (Nx - 1) 0 = P.F0_gauss
      rw [fillLoop_zero_getD _ Nx (Nx - 1) (by omega), hlast, Double_position_one _ _ hlt,
        L.sin_half_pi, Double_mul_one _ hF]
    · intro i hi
      show 0 ≤ (fillLoop _ 0 Nx (List.replicate Nx 0)).getD i 0 ∧
        (fillLoop _ 0 Nx (List.replicate Nx 0)).getD i 0 ≤ P.F0_gauss
      rw [fillLoop_zero_getD _ Nx i hi]
      obtain ⟨hx0, hx1⟩ := Double_position_unit _ _ _ hlt (hmem i hi).1 (hmem i hi).2
      obtain ⟨hy0, hy1⟩ := L.sin_unit _ hx0 hx1
      exact Double_scale_unit _ _ hF hF0 hy0 hy1

/-- The invariants of the initial torque in exact real arithmetic. -/
theorem initialF_invariants_real (K : GslConst ℝ) (P : InitialParams ℝ) (h R : List ℝ)
    (Nx : Nat) (hN : 1 ≤ Nx)
    (hfirst : h.getD 0 0 = P.h_in) (hlast : h.getD (Nx - 1) 0 = P.h_out)
    (hlt : P.h_in < P.h_out)
    (hmem : ∀ i, i < Nx → P.h_in ≤ h.getD i 0 ∧ h.getD i 0 ≤ P.h_out)
    (hF0 : 0 ≤ P.F0_gauss)
    (hshape : (P.initial_cond_shape = "power" ∧ 0 < P.power_order) ∨
      P.initial_cond_shape = "sinus") :
    ∃ r, initialF realMath K P h R Nx = Except.ok r ∧
      r.F.getD 0 0 = 0 ∧ r.F.getD (Nx - 1) 0 = P.F0_gauss ∧
      ∀ i, i < Nx → 0 ≤ r.F.getD i 0 ∧ r.F.getD i 0 ≤ P.F0_gauss := by
  have hd : 0 < P.h_out - P.h_in := by linarith
  have hx : ∀ i, i < Nx →
      0 ≤ (h.getD i 0 - P.h_in) / (P.h_out - P.h_in) ∧
      (h.getD i 0 - P.h_in) / (P.h_out - P.h_in) ≤ 1 := by
    intro i hi
    obtain ⟨ha, hb⟩ := hmem i hi
    constructor
    · exact div_nonneg (by linarith) (le_of_lt hd)
    · rw [div_le_one hd]
      linarith
  have hx0 : (h.getD 0 0 - P.h_in) / (P.h_out - P.h_in) = 0 := by
    rw [hfirst, sub_self, zero_div]
  have hx1 : (h.getD (Nx - 1) 0 - P.h_in) / (P.h_out - P.h_in) = 1 := by
    rw [hlast, div_self (ne_of_gt hd)]
  rcases hshape with ⟨hpow, hp⟩ | hsin
  · refine ⟨_, initialF_power_eq realMath K P h R Nx hpow, ?_, ?_, ?_⟩
    · show (fillLoop _ 0 Nx (List.replicate Nx 0)).getD 0 0 = 0
      rw [fillLoop_zero_getD _ Nx 0 (by omega), hx0]
      show P.F0_gauss * (0 : ℝ) ^ P.power_order = 0
      rw [Real.zero_rpow (ne_of_gt hp), mul_zero]
    · show (fillLoop _ 0 Nx (List.replicate Nx 0)).getD (Nx - 1) 0 = P.F0_gauss
      rw [fillLoop_zero_getD _ Nx (Nx - 1) (by omega), hx1]
      show P.F0_gauss * (1 : ℝ) ^ P.power_order = P.F0_gauss
      rw [Real.one_rpow, mul_one]
    · intro i hi
      show 0 ≤ (fillLoop _ 0 Nx (List.replicate Nx 0)).getD i 0 ∧
        (fillLoop _ 0 Nx (List.replicate Nx 0)).getD i 0 ≤ P.F0_gauss
      rw [fillLoop_zero_getD _ Nx i hi]
      obtain ⟨ha, hb⟩ := hx i hi
      have h1 : 0 ≤ ((h.getD i 0 - P.h_in) / (P.h_out - P.h_in)) ^ P.power_order :=
        Real.rpow_nonneg ha _
      have h2 : ((h.getD i 0 - P.h_in) / (P.h_out - P.h_in)) ^ P.power_order ≤ 1 :=
        Real.rpow_le_one ha hb (le_of_lt hp)
      exact ⟨mul_nonneg hF0 h1, by
        calc P.F0_gauss * _ ≤ P.F0_gauss * 1 := mul_le_mul_of_nonneg_left h2 hF0
          _ = P.F0_gauss := mul_one _⟩
  · refine ⟨_, initialF_sinus_eq realMath K P h R Nx hsin, ?_, ?_, ?_⟩
    · show (fillLoop _ 0 Nx (List.replicate Nx 0)).getD 0 0 = 0
      rw [fillLoop_zero_getD _ Nx 0 (by omega), hx0]
      show P.F0_gauss * Real.sin (0 * Real.pi / 2) = 0
      rw [zero_mul, zero_div, Real.sin_zero, mul_zero]
    · show (fillLoop _ 0 Nx (List.replicate Nx 0)).getD (Nx - 1) 0 = P.F0_gauss
      rw [fillLoop_zero_getD _ Nx (Nx - 1) (by omega), hx1]
      show P.F0_gauss * Real.sin (1 * Real.pi / 2) = P.F0_gauss
      rw [one_mul, Real.sin_pi_div_two, mul_one]
    · intro i hi
      show 0 ≤ (fillLoop _ 0 Nx (List.replicate Nx 0)).getD i 0 ∧
        (fillLoop _ 0 Nx (List.replicate Nx 0)).getD i 0 ≤ P.F0_gauss
      rw [fillLoop_zero_getD _ Nx i hi]
      obtain ⟨ha, hb⟩ := hx i hi
      have hpi := Real.pi_pos
      have h1 : 0 ≤ Real.sin ((h.getD i 0 - P.h_in) / (P.h_out - P.h_in) * Real.pi / 2) := by
        apply Real.sin_nonneg_of_nonneg_of_le_pi
        · exact div_nonneg (mul_nonneg ha (le_of_lt hpi)) (by norm_num)
        · have : (h.getD i 0 - P.h_in) / (P.h_out - P.h_in) * Real.pi ≤ 1 * Real.pi :=
            mul_le_mul_of_nonneg_right hb (le_of_lt hpi)
          linarith
      have h2 := Real.sin_le_one ((h.getD i 0 - P.h_in) / (P.h_out - P.h_in) * Real.pi / 2)
      exact ⟨mul_nonneg hF0 h1, by
        calc P.F0_gauss * _ ≤ P.F0_gauss * 1 := mul_le_mul_of_nonneg_left h2 hF0
          _ = P.F0_gauss := mul_one _⟩

/-- The stand-in `demoLibm` satisfies the laws of `pow`. -/
theorem demoLibm_PowLaws : PowLaws demoLibm where
  pow_zero_base := by
    intro p hp
    have hne : p ≠ 0 := by
      intro h
      rw [h] at hp
      exact lt_irrefl (0 : ℚ) hp
    show (if p = 0 then (1 : Double) else 0) = 0
    rw [if_neg hne]
  pow_one_base := by
    intro p
    show (if p = 0 then (1 : Double) else 1) = 1
    split_ifs <;> rfl
  pow_unit := by
    intro x p hx0 hx1 _
    show (0 : Double) ≤ (if p = 0 then (1 : Double) else x) ∧
      (if p = 0 then (1 : Double) else x) ≤ 1
    split_ifs
    · exact ⟨by decide, by decide⟩
    · exact ⟨hx0, hx1⟩

/-- C19: for the shape power with `p > 0` and for the shape sinus, with `F0 >= 0`, on
a grid with `h[0] = h_in < h_out = h[Nx-1]` whose points lie between `h_in` and
`h_out`, the initial profile satisfies `F[0] = 0`, `F[Nx-1] = F0` and
`0 <= F[i] <= F0` for every `i`: in exact real arithmetic, and in the double
arithmetic of the program when `F0` is a double and `pow` or `sin` of libm obeys
`PowLaws` or `SinLaws`. -/
theorem initialF_invariants :
    (∀ (K : GslConst ℝ) (P : InitialParams ℝ) (h R : List ℝ) (Nx : Nat), 1 ≤ Nx →
      h.getD 0 0 = P.h_in → h.getD (Nx - 1) 0 = P.h_out → P.h_in < P.h_out →
      (∀ i, i < Nx → P.h_in ≤ h.getD i 0 ∧ h.getD i 0 ≤ P.h_out) → 0 ≤ P.F0_gauss →
      ((P.initial_cond_shape = "power" ∧ 0 < P.power_order) ∨
        P.initial_cond_shape = "sinus") →
      ∃ r, initialF realMath K P h R Nx = Except.ok r ∧
        r.F.getD 0 0 = 0 ∧ r.F.getD (Nx - 1) 0 = P.F0_gauss ∧
        ∀ i, i < Nx → 0 ≤ r.F.getD i 0 ∧ r.F.getD i 0 ≤ P.F0_gauss) ∧
    (∀ (M : CMath Double) (K : GslConst Double) (P : InitialParams Double)
      (h R : List Double) (Nx : Nat), 1 ≤ Nx →
      h.getD 0 0 = P.h_in → h.getD (Nx - 1) 0 = P.h_out → P.h_in < P.h_out →
      (∀ i, i < Nx → P.h_in ≤ h.getD i 0 ∧ h.getD i 0 ≤ P.h_out) →
      P.F0_gauss.IsDouble → 0 ≤ P.F0_gauss →
      ((P.initial_cond_shape = "power" ∧ 0 < P.power_order ∧ PowLaws M) ∨
        (P.initial_cond_shape = "sinus" ∧ SinLaws M)) →
      ∃ r, initialF M K P h R Nx = Except.ok r ∧
        r.F.getD 0 0 = 0 ∧ r.F.getD (Nx - 1) 0 = P.F0_gauss ∧
        ∀ i, i < Nx → 0 ≤ r.F.getD i 0 ∧ r.F.getD i 0 ≤ P.F0_gauss) :=
  ⟨initialF_invariants_real, initialF_invariants_double⟩

/-- C19, witness: the shape power on the grid `1, 2, 4`, with `p = 6` in exact real
arithmetic and with `p = 1` in doubles. -/
theorem initialF_invariants_witness :
    (∃ r, initialF realMath gslCgsm demoPowerSix [1, 2, 4] [1, 4, 16] 3 = Except.ok r ∧
      r.F.getD 0 0 = 0 ∧ r.F.getD (3 - 1) 0 = demoPowerSix.F0_gauss ∧
      ∀ i, i < 3 → 0 ≤ r.F.getD i 0 ∧ r.F.getD i 0 ≤ demoPowerSix.F0_gauss) ∧
    (∃ r, initialF demoLibm ⟨0, 0, 0, 0⟩ demoPowerOneD [1, 2, 4] [1, 4, 16] 3 = Except.ok r ∧
      r.F.getD 0 0 = 0 ∧ r.F.getD (3 - 1) 0 = demoPowerOneD.F0_gauss ∧
      ∀ i, i < 3 → 0 ≤ r.F.getD i 0 ∧ r.F.getD i 0 ≤ demoPowerOneD.F0_gauss) :=
  ⟨initialF_invariants.1 gslCgsm demoPowerSix [1, 2, 4] [1, 4, 16] 3 (by decide)
      (by norm_num [demoPowerSix, demoPowerZero]) (by norm_num [demoPowerSix, demoPowerZero])
      (by norm_num [demoPowerSix, demoPowerZero])
      (by
        intro i hi
        interval_cases i <;> norm_num [demoPowerSix, demoPowerZero])
      (by norm_num [demoPowerSix, demoPowerZero]) (Or.inl ⟨rfl, by
        norm_num [demoPowerSix, demoPowerZero]⟩),
    initialF_invariants.2 demoLibm ⟨0, 0, 0, 0⟩ demoPowerOneD [1, 2, 4] [1, 4, 16] 3
      (by decide) (by decide!) (by decide!) (by decide!)
      (by
        intro i hi
        interval_cases i <;> exact ⟨by decide!, by decide!⟩)
      (roundDouble_idem _) (by decide!) (Or.inl ⟨rfl, by decide!, demoLibm_PowLaws⟩)⟩

/-- C16: the hot-disk threshold `Sigma_hot_disk(r)` is
`19.95 * (alpha/0.1)^(-0.80) * (r/1e10)^(1.11) * (Mx/M_sun)^(-0.37)`, for every `r`,
`alpha` and `Mx` and whatever `pow` is: the factor of the source, `0.5 * 39.9`, is
`19.95`. -/
theorem Sigma_hot_disk_eq {α : Type} [LinearOrderedField α] (M : CMath α) (K : GslConst α)
    (alpha Mx r : α) :
    Sigma_hot_disk M K alpha Mx r =
      19.95 * M.pow (alpha / 0.1) (-0.80) * M.pow (r / 1e10) 1.11 *
        M.pow (Mx / K.SOLAR_MASS) (-0.37) := by
  unfold Sigma_hot_disk
  have h : (0.5 : α) * 39.9 = 19.95 := by norm_num
  rw [h]

/-- C20: each of `Ropt`, `rin`, `rout` and `risco` is the supplied value when one is
supplied, and otherwise its default, `rocheLobeVolumeRadius(Mopt, Mx, period)`,
`r_kerrISCO(Mx, kerr)`, `0.9 * rocheLobeVolumeRadius(Mx, Mopt, period)` and
`r_kerrISCO(Mx, kerr)`; as this holds whatever the other three optional arguments
are, a supplied radius does not change the default of another. -/
theorem BasicDiskBinaryArguments_radii {α : Type} [LinearOrderedField α] (M : CMath α)
    (K : GslConst α) (X : ArgumentFunctions α) (alpha Mx kerr period Mopt : α)
    (Ropt : Option α) (Topt : α) (rin rout risco : Option α) :
    ((∀ v, Ropt = some v →
        (BasicDiskBinaryArguments.new M K X alpha Mx kerr period Mopt Ropt Topt
          rin rout risco).Ropt = v) ∧
      (Ropt = none →
        (BasicDiskBinaryArguments.new M K X alpha Mx kerr period Mopt Ropt Topt
          rin rout risco).Ropt = rocheLobeVolumeRadius M K X Mopt Mx period)) ∧
    ((∀ v, rin = some v →
        (BasicDiskBinaryArguments.new M K X alpha Mx kerr period Mopt Ropt Topt
          rin rout risco).rin = v) ∧
      (rin = none →
        (BasicDiskBinaryArguments.new M K X alpha Mx kerr period Mopt Ropt Topt
          rin rout risco).rin = r_kerrISCO X Mx kerr)) ∧
    ((∀ v, rout = some v →
        (BasicDiskBinaryArguments.new M K X alpha Mx kerr period Mopt Ropt Topt
          rin rout risco).rout = v) ∧
      (rout = none →
        (BasicDiskBinaryArguments.new M K X alpha Mx kerr period Mopt Ropt Topt
          rin rout risco).rout = 0.9 * rocheLobeVolumeRadius M K X Mx Mopt period)) ∧
    ((∀ v, risco = some v →
        (BasicDiskBinaryArguments.new M K X alpha Mx kerr period Mopt Ropt Topt
          rin rout risco).risco = v) ∧
      (risco = none →
        (BasicDiskBinaryArguments.new M K X alpha Mx kerr period Mopt Ropt Topt
          rin rout risco).risco = r_kerrISCO X Mx kerr)) := by
  refine ⟨⟨?_, ?_⟩, ⟨?_, ?_⟩, ⟨?_, ?_⟩, ⟨?_, ?_⟩⟩
  · intro v hv; rw [hv]; rfl
  · intro hv; rw [hv]; rfl
  · intro v hv; rw [hv]; rfl
  · intro hv; rw [hv]; rfl
  · intro v hv; rw [hv]; rfl
  · intro hv; rw [hv]; rfl
  · intro v hv; rw [hv]; rfl
  · intro hv; rw [hv]; rfl

/-- C20, witness: with `rout` supplied and the other radii absent, `rin` is still
`r_kerrISCO(Mx, kerr)`. -/
theorem BasicDiskBinaryArguments_radii_witness :
    (BasicDiskBinaryArguments.new realMath gslCgsm demoArgumentFunctions 0.25 10 0 1 1 none 0
      none (some 5) none).rin = r_kerrISCO demoArgumentFunctions 10 0 :=
  (BasicDiskBinaryArguments_radii realMath gslCgsm demoArgumentFunctions 0.25 10 0 1 1 none 0
    none (some 5) none).2.1.2 rfl

/-! ## The observables of fred.cpp -/

/-- A loop over `1 <= i < Nx` on a vector of `Nx` zeros leaves `f i` at index `i`. -/
theorem fillLoop_one_getD {α : Type} [Zero α] (f : Nat → α) (Nx i : Nat) (h1 : 1 ≤ i)
    (h : i < Nx) : (fillLoop f 1 (Nx - 1) (List.replicate Nx 0)).getD i 0 = f i := by
  rw [List.getD_eq_getElem?_getD, fillLoop_getElem?, List.length_replicate,
    if_pos ⟨h1, by omega, h⟩]
  rfl

/-- The value of `Tph_vis[i]` on the reals, with the exponents as fractions. -/
theorem Tph_vis_loop_value (K : GslConst ℝ) (GM : ℝ) (h F : List ℝ) (Nx i : Nat)
    (h1 : 1 ≤ i) (hi : i < Nx) (hpos : 0 < h.getD i 0) :
    (Tph_vis_loop realMath K GM h F Nx).getD i 0 =
      (GM / h.getD i 0 ^ ((7 : ℝ) / 4)) *
        (0.75 * F.getD i 0 / K.STEFAN_BOLTZMANN_CONSTANT) ^ ((1 : ℝ) / 4) := by
  unfold Tph_vis_loop
  rw [fillLoop_one_getD _ Nx i h1 hi]
  unfold Tph_vis_at
  show GM * h.getD i 0 ^ (-1.75 : ℝ) *
      (0.75 * F.getD i 0 / K.STEFAN_BOLTZMANN_CONSTANT) ^ (0.25 : ℝ) = _
  have e1 : (-1.75 : ℝ) = -((7 : ℝ) / 4) := by norm_num
  have e2 : (0.25 : ℝ) = (1 : ℝ) / 4 := by norm_num
  rw [e1, e2, Real.rpow_neg (le_of_lt hpos)]
  ring

/-- C14, as the code has it: for every grid index `1 <= i < Nx` with `h_i > 0`, the
value `Tph_vis[i]` computed in the evolution loop is
`(GM / h_i^(7/4)) * (0.75 * F_i / sigma_SB)^(1/4)`. -/
theorem Tph_vis_loop_spec (K : GslConst ℝ) (GM : ℝ) (h F : List ℝ) (Nx i : Nat)
    (h1 : 1 ≤ i) (hi : i < Nx) (hpos : 0 < h.getD i 0) (_hF : 0 ≤ F.getD i 0) :
    (Tph_vis_loop realMath K GM h F Nx).getD i 0 =
      (GM / h.getD i 0 ^ ((7 : ℝ) / 4)) *
        (0.75 * F.getD i 0 / K.STEFAN_BOLTZMANN_CONSTANT) ^ ((1 : ℝ) / 4) :=
  Tph_vis_loop_value K GM h F Nx i h1 hi hpos

/-- C14, witness: index 1 of a grid of two points, with `GM` of the default mass of
the program (7.5 solar masses), `h_1 = 10^18` and `F_1 = 10^37`. -/
theorem Tph_vis_loop_spec_witness :
    (Tph_vis_loop realMath gslCgsm (gslCgsm.GRAVITATIONAL_CONSTANT * (7.5 * gslCgsm.SOLAR_MASS))
        [1e17, 1e18] [0, 1e37] 2).getD 1 0 =
      (gslCgsm.GRAVITATIONAL_CONSTANT * (7.5 * gslCgsm.SOLAR_MASS) /
          ([1e17, 1e18] : List ℝ).getD 1 0 ^ ((7 : ℝ) / 4)) *
        (0.75 * ([0, 1e37] : List ℝ).getD 1 0 / gslCgsm.STEFAN_BOLTZMANN_CONSTANT) ^
          ((1 : ℝ) / 4) :=
  Tph_vis_loop_spec gslCgsm _ [1e17, 1e18] [0, 1e37] 2 1 (le_refl _) (by decide)
    (by norm_num) (by norm_num)

/-- C14, as stated, fails: at index 1 of a grid of two points, with `GM` of the
default mass of the program, `h_1 = 10^18 > 0` and `F_1 = 10^37 >= 0`, the value
computed by the loop is not `(GM / h_1^(7/2)) * (0.75 * F_1 / sigma_SB)^(1/4)`: the
code has the exponent `-1.75 = -7/4` on `h`. -/
theorem Tph_vis_loop_spec_counterexample :
    (Tph_vis_loop realMath gslCgsm (gslCgsm.GRAVITATIONAL_CONSTANT * (7.5 * gslCgsm.SOLAR_MASS))
        [1e17, 1e18] [0, 1e37] 2).getD 1 0 ≠
      (gslCgsm.GRAVITATIONAL_CONSTANT * (7.5 * gslCgsm.SOLAR_MASS) /
          (1e18 : ℝ) ^ ((7 : ℝ) / 2)) *
        (0.75 * 1e37 / gslCgsm.STEFAN_BOLTZMANN_CONSTANT) ^ ((1 : ℝ) / 4) := by
  have hval := Tph_vis_loop_value gslCgsm
    (gslCgsm.GRAVITATIONAL_CONSTANT * (7.5 * gslCgsm.SOLAR_MASS))
    [1e17, 1e18] [0, 1e37] 2 1 (le_refl _) (by decide) (by norm_num)
  rw [hval]
  have h16 : ([1e17, 1e18] : List ℝ).getD 1 0 = 1e18 := rfl
  have hF : ([0, 1e37] : List ℝ).getD 1 0 = 1e37 := rfl
  rw [h16, hF]
  have hsig : 0 < gslCgsm.STEFAN_BOLTZMANN_CONSTANT := by
    show (0 : ℝ) < 5.67040047374e-5
    norm_num
  have hGM : 0 < gslCgsm.GRAVITATIONAL_CONSTANT * (7.5 * gslCgsm.SOLAR_MASS) := by
    show (0 : ℝ) < 6.673e-8 * (7.5 * 1.98892e33)
    norm_num
  have hB : 0 < (0.75 * 1e37 / gslCgsm.STEFAN_BOLTZMANN_CONSTANT) ^ ((1 : ℝ) / 4) :=
    Real.rpow_pos_of_pos (div_pos (by norm_num) hsig) _
  have hlt : (1e18 : ℝ) ^ ((7 : ℝ) / 4) < (1e18 : ℝ) ^ ((7 : ℝ) / 2) :=
    Real.rpow_lt_rpow_of_exponent_lt (by norm_num) (by norm_num)
  have hp : 0 < (1e18 : ℝ) ^ ((7 : ℝ) / 4) := Real.rpow_pos_of_pos (by norm_num) _
  have hdiv : gslCgsm.GRAVITATIONAL_CONSTANT * (7.5 * gslCgsm.SOLAR_MASS) /
        (1e18 : ℝ) ^ ((7 : ℝ) / 2) <
      gslCgsm.GRAVITATIONAL_CONSTANT * (7.5 * gslCgsm.SOLAR_MASS) /
        (1e18 : ℝ) ^ ((7 : ℝ) / 4) :=
    div_lt_div_of_pos_left hGM hp hlt
  exact ne_of_gt (mul_lt_mul_of_pos_right hdiv hB)

/-- The loop of the branch Teff ends below its entry index and leaves `Tph` as it
was below the exit index. -/
theorem teffLoop_below {α : Type} [LinearOrderedField α] (M : CMath α) (K : GslConst α)
    (P : WalkParams α) (Mdot_in : α) (Height R Tph_vis : List α) :
    ∀ (n : Nat) (Tph : List α) (r : Nat × α × List α),
      teffLoop M K P Mdot_in Height R Tph_vis n Tph = Except.ok r →
      r.1 < n ∧ ∀ j, j < r.1 → r.2.2[j]? = Tph[j]? := by
  intro n
  induction n with
  | zero =>
    intro Tph r h
    simp only [teffLoop] at h
    cases h
  | succ n ih =>
    intro Tph r h
    simp only [teffLoop] at h
    cases hH : listAt Height n with
    | error e => rw [hH] at h; cases h
    | ok H =>
      cases hR : listAt R n with
      | error e => rw [hH, hR] at h; cases h
      | ok rr =>
        cases hT : listAt Tph_vis n with
        | error e => rw [hH, hR, hT] at h; cases h
        | ok tv =>
          rw [hH, hR, hT] at h
          simp only [] at h
          by_cases hlen : n < Tph.length
          · rw [if_pos hlen] at h
            by_cases hc : (irradiatedTph M K P Mdot_in H rr tv).2 < P.T_min_hot_disk
            · rw [if_pos hc] at h
              obtain ⟨h1, h2⟩ := ih _ r h
              refine ⟨by omega, ?_⟩
              intro j hj
              rw [h2 j hj, List.getElem?_set_ne (by omega)]
            · rw [if_neg hc] at h
              cases h
              refine ⟨by simp, ?_⟩
              intro j hj
              have hj' : j < n := hj
              show (Tph.set n _)[j]? = Tph[j]?
              rw [List.getElem?_set_ne (by omega)]
          · rw [if_neg hlen] at h
            cases h

/-- After the boundary block, in every branch, `Tph` is `Tph_vis` below the exit
index `ii`. -/
theorem boundaryWalk_below {α : Type} [LinearOrderedField α] (M : CMath α)
    (K : GslConst α) (P : WalkParams α) (Mdot_in Mdot_out : α)
    (Sigma Height R Tph_vis : List α) (Nx : Nat) (r : WalkResult α)
    (h : boundaryWalk M K P Mdot_in Mdot_out Sigma Height R Tph_vis Nx = Except.ok r) :
    ∀ j, j < r.ii → r.Tph[j]? = Tph_vis[j]? := by
  unfold boundaryWalk at h
  split_ifs at h with h1 h2 h3 h4
  · cases hs : sigmaLoop (fun r => Sigma_hot_disk M K P.alpha P.Mx r) Sigma R Nx with
    | error e => rw [hs] at h; cases h
    | ok ii => rw [hs] at h; cases h; intro j _; rfl
  · cases hs : sigmaLoop (fun r => 4 * Sigma_hot_disk M K P.alpha P.Mx r) Sigma R Nx with
    | error e => rw [hs] at h; cases h
    | ok ii => rw [hs] at h; cases h; intro j _; rfl
  · cases ht : teffLoop M K P Mdot_in Height R Tph_vis Nx Tph_vis with
    | error e => rw [ht] at h; cases h
    | ok q =>
      rw [ht] at h
      cases h
      exact (teffLoop_below M K P Mdot_in Height R Tph_vis Nx Tph_vis q ht).2
  · cases h
    intro j _
    rfl

/-- On the reals, with a non-negative `Tph_vis` and a non-negative irradiation term,
the combined temperature is at least `Tph_vis`, and greater when the term is
positive. -/
theorem irradiatedTph_ge (K : GslConst ℝ) (P : WalkParams ℝ) (Mdot_in H r tv : ℝ)
    (htv : 0 ≤ tv)
    (hq : 0 ≤ P.k_irr * (H / r) ^ (2 : ℝ) * Mdot_in * K.SPEED_OF_LIGHT * K.SPEED_OF_LIGHT *
      P.eta / (4 * Real.pi * r * r) / K.STEFAN_BOLTZMANN_CONSTANT) :
    tv ≤ (irradiatedTph realMath K P Mdot_in H r tv).2 ∧
      (0 < P.k_irr * (H / r) ^ (2 : ℝ) * Mdot_in * K.SPEED_OF_LIGHT * K.SPEED_OF_LIGHT *
        P.eta / (4 * Real.pi * r * r) / K.STEFAN_BOLTZMANN_CONSTANT →
        tv < (irradiatedTph realMath K P Mdot_in H r tv).2) := by
  have h4 : 0 ≤ tv ^ (4 : ℝ) := Real.rpow_nonneg htv _
  have hroot : (tv ^ (4 : ℝ)) ^ (0.25 : ℝ) = tv := by
    rw [← Real.rpow_mul htv]
    norm_num
  constructor
  · show tv ≤ (tv ^ (4 : ℝ) + _) ^ (0.25 : ℝ)
    calc tv = (tv ^ (4 : ℝ)) ^ (0.25 : ℝ) := hroot.symm
      _ ≤ _ := Real.rpow_le_rpow h4 (le_add_of_nonneg_right hq) (by norm_num)
  · intro hpos
    show tv < (tv ^ (4 : ℝ) + _) ^ (0.25 : ℝ)
    calc tv = (tv ^ (4 : ℝ)) ^ (0.25 : ℝ) := hroot.symm
      _ < _ := Real.rpow_lt_rpow h4 (lt_add_of_pos_right _ hpos) (by norm_num)

/-- C15, the code: after the boundary block of a time step, `Tph[j]` is `Tph_vis[j]`,
without the irradiation term, at every index `j` below the exit index `ii` of the
walk, in every branch of `bound_cond_type`. -/
theorem boundaryWalk_Tph_unvisited {α : Type} [LinearOrderedField α] (M : CMath α)
    (K : GslConst α) (P : WalkParams α) (Mdot_in Mdot_out : α)
    (Sigma Height R Tph_vis : List α) (Nx : Nat) (r : WalkResult α)
    (h : boundaryWalk M K P Mdot_in Mdot_out Sigma Height R Tph_vis Nx = Except.ok r) :
    ∀ j, j < r.ii → r.Tph[j]? = Tph_vis[j]? :=
  boundaryWalk_below M K P Mdot_in Mdot_out Sigma Height R Tph_vis Nx r h

/-- C15, witness: three grid points, `Thot = 8000`, `Tph_vis = [0, 20000, 10000]`.  The
walk visits index 2 only, where the combined temperature is at least 10000; at
index 1 `Tph` stays `Tph_vis[1] = 20000`, which is less than the combined
temperature `(Tph_vis[1]^4 + Qx[1]/sigma_SB)^(1/4)` of that index. -/
theorem boundaryWalk_Tph_unvisited_witness :
    ∃ r, boundaryWalk realMath gslCgsm demoWalkParams 1e18 0 [0, 1, 1] [0, 2e8, 3e9]
        [1e9, 1e10, 1e11] [0, 20000, 10000] 3 = Except.ok r ∧
      r.ii = 2 ∧ r.Tph[1]? = some 20000 ∧
      (20000 : ℝ) < (irradiatedTph realMath gslCgsm demoWalkParams 1e18 2e8 1e10 20000).2 := by
  have hq2 : (0 : ℝ) ≤ demoWalkParams.k_irr * (3e9 / 1e11) ^ (2 : ℝ) * 1e18 *
      gslCgsm.SPEED_OF_LIGHT * gslCgsm.SPEED_OF_LIGHT * demoWalkParams.eta /
        (4 * Real.pi * 1e11 * 1e11) / gslCgsm.STEFAN_BOLTZMANN_CONSTANT := by
    simp only [demoWalkParams, gslCgsm]
    positivity
  have hq1 : (0 : ℝ) < demoWalkParams.k_irr * (2e8 / 1e10) ^ (2 : ℝ) * 1e18 *
      gslCgsm.SPEED_OF_LIGHT * gslCgsm.SPEED_OF_LIGHT * demoWalkParams.eta /
        (4 * Real.pi * 1e10 * 1e10) / gslCgsm.STEFAN_BOLTZMANN_CONSTANT := by
    simp only [demoWalkParams, gslCgsm]
    positivity
  have hge := (irradiatedTph_ge gslCgsm demoWalkParams 1e18 3e9 1e11 10000 (by norm_num) hq2).1
  have hexit : ¬ (irradiatedTph realMath gslCgsm demoWalkParams 1e18 3e9 1e11 10000).2 <
      demoWalkParams.T_min_hot_disk := by
    have : demoWalkParams.T_min_hot_disk = 8000 := rfl
    rw [this]
    linarith
  have hT : (0 : ℝ) < demoWalkParams.T_min_hot_disk := by
    show (0 : ℝ) < 8000
    norm_num
  have hw : boundaryWalk realMath gslCgsm demoWalkParams 1e18 0 [0, 1, 1] [0, 2e8, 3e9]
      [1e9, 1e10, 1e11] [0, 20000, 10000] 3 =
      Except.ok ⟨2, (irradiatedTph realMath gslCgsm demoWalkParams 1e18 3e9 1e11 10000).1,
        ([0, 20000, 10000] : List ℝ).set 2
          (irradiatedTph realMath gslCgsm demoWalkParams 1e18 3e9 1e11 10000).2, 0⟩ := by
    have hb1 : ¬ demoWalkParams.bound_cond_type = "MdotOut" := by decide
    have hb2 : ¬ demoWalkParams.bound_cond_type = "fourSigmaCrit" := by decide
    have hb3 : demoWalkParams.bound_cond_type = "Teff" := rfl
    unfold boundaryWalk
    rw [if_neg hb1, if_neg hb2, if_pos hb3, if_pos hT]
    have hl : teffLoop realMath gslCgsm demoWalkParams 1e18 [0, 2e8, 3e9]
        [1e9, 1e10, 1e11] [0, 20000, 10000] 3 [0, 20000, 10000] =
        Except.ok (2, (irradiatedTph realMath gslCgsm demoWalkParams 1e18 3e9 1e11 10000).1,
          ([0, 20000, 10000] : List ℝ).set 2
            (irradiatedTph realMath gslCgsm demoWalkParams 1e18 3e9 1e11 10000).2) := by
      simp only [teffLoop, listAt, List.getElem?_cons_succ, List.getElem?_cons_zero,
        List.length_cons, List.length_nil]
      rw [if_pos (by norm_num), if_neg hexit]
    rw [hl]
  refine ⟨_, hw, rfl, ?_, ?_⟩
  · rw [boundaryWalk_Tph_unvisited realMath gslCgsm demoWalkParams 1e18 0 [0, 1, 1]
      [0, 2e8, 3e9] [1e9, 1e10, 1e11] [0, 20000, 10000] 3 _ hw 1 (by decide)]
    rfl
  · exact (irradiatedTph_ge gslCgsm demoWalkParams 1e18 2e8 1e10 20000 (by norm_num)
      (le_of_lt hq1)).2 hq1

/-- C28: for every state with `first < last`, a call that returns normally returns a
state with `first < last`. -/
theorem truncateOuterRadius_window {α : Type} (E : Env α) (s s1 : State α)
    (hw : s.first < s.last) (h : truncateOuterRadius E s = (none, s1)) :
    s1.first < s1.last := by
  rcases truncateOuterRadius_ok_cases E s s1 h with heq | ⟨_, _, c, hc, hr⟩
  · rw [heq]
    exact hw
  · have hb := selectCriterion_ok_bound E s c hc
    obtain ⟨hs1, ha, _, _, _⟩ := retreatWith_ok (retreatCond E s c) s s1 hb hr
    have hfirst : s1.first = s.first := by rw [hs1]
    rw [hfirst]
    exact ha

/-- C28, witness: in `envMixed` the window `[0, 3]` becomes `[0, 2]`. -/
theorem truncateOuterRadius_window_witness :
    (truncateOuterRadius envMixed demoState).2.first <
      (truncateOuterRadius envMixed demoState).2.last :=
  truncateOuterRadius_window envMixed demoState (truncateOuterRadius envMixed demoState).2
    (by decide) (Prod.ext (by decide!) rfl)

/-- C30: when `tau` is supplied the stored `tau` is the supplied value; when it is
absent the stored `tau` is `time / 200`, and 200 such steps make up `time`. -/
theorem CalculationArguments_tau {α : Type} [LinearOrderedField α] (time : α)
    (tau : Option α) (Nx : Nat) (gridscale : String) (starlod : Nat) (eps : α) :
    (∀ v, tau = some v →
      (CalculationArguments.new time tau Nx gridscale starlod eps).tau = v) ∧
    (tau = none →
      (CalculationArguments.new time tau Nx gridscale starlod eps).tau = time / 200 ∧
      200 * (CalculationArguments.new time tau Nx gridscale starlod eps).tau = time) := by
  constructor
  · intro v hv
    rw [hv]
    rfl
  · intro hv
    rw [hv]
    have h : (CalculationArguments.new time none Nx gridscale starlod eps).tau = time / 200 := by
      show time / ((200 : ℕ) : α) = time / 200
      norm_num
    rw [h]
    refine ⟨rfl, ?_⟩
    field_simp

/-- C30, witness: `time = 100` without `tau` gives `tau = 100 / 200`. -/
theorem CalculationArguments_tau_witness :
    (CalculationArguments.new (100 : ℚ) none 1000 "log" 3 (1 / 1000000)).tau = 100 / 200 ∧
    200 * (CalculationArguments.new (100 : ℚ) none 1000 "log" 3 (1 / 1000000)).tau = 100 :=
  (CalculationArguments_tau (100 : ℚ) none 1000 "log" 3 (1 / 1000000)).2 rfl

/-! ## Neutron-star arguments -/

/-- An `nsprop` of the Sibgatullin-Sunyaev family is not `dummy`. -/
theorem sibsun_ne_dummy (nsprop : String)
    (h : nsprop = "sibgatullinsunyaev2000" ∨ nsprop = "sibsun2000") : nsprop ≠ "dummy" := by
  rcases h with h | h <;> rw [h] <;> decide

/-- C24: for `nsprop` equal to `sibgatullinsunyaev2000` or `sibsun2000` and no `freqx`
supplied, the construction of `NeutronStarArguments` fails with the runtime error of
`initializeFreqx`, whether or not `Rx` is supplied and whatever the other
parameters are. -/
theorem NeutronStarArguments_freqx_required {α : Type} [LinearOrderedField α]
    (nsprop : String) (Rx : Option α) (Bx hotspotarea epsilonAlfven inversebeta Rdead : α)
    (fptype : String) (fpparams : Pard α)
    (h : nsprop = "sibgatullinsunyaev2000" ∨ nsprop = "sibsun2000") :
    NeutronStarArguments.new nsprop none Rx Bx hotspotarea epsilonAlfven inversebeta Rdead
        fptype fpparams =
      Except.error
        (Err.runtime_error "freqx must be specified for nsprop=sibgatullinsunyaev2000") := by
  have hd := sibsun_ne_dummy nsprop h
  simp only [NeutronStarArguments.new, initializeFreqx, if_neg hd, if_pos h]

/-- C24, witness: `nsprop = sibsun2000` with `Rx` supplied and `freqx` absent. -/
theorem NeutronStarArguments_freqx_required_witness :
    NeutronStarArguments.new "sibsun2000" none (some (1200000 : ℚ)) 0 1 1 0 0 "no-outflow"
        Pard.empty =
      Except.error
        (Err.runtime_error "freqx must be specified for nsprop=sibgatullinsunyaev2000") :=
  NeutronStarArguments_freqx_required "sibsun2000" (some (1200000 : ℚ)) 0 1 1 0 0 "no-outflow"
    Pard.empty (Or.inr rfl)

/-- C25, counterexample: with `freqx`, `Rx` and `risco` all supplied, the unknown value
`nsprop = "unknown"` is accepted: both constructions succeed and the objects hold
the supplied values. -/
theorem constructNeutronStar_unknown_counterexample :
    ∃ r, constructNeutronStar realMath gslCgsm demoArgumentFunctions "unknown" (some 500)
        (some 1200000) 0 1 1 0 0 "no-outflow" Pard.empty 0.25 1.4 0 1 1 (some 1) 0 (some 1)
        (some 1) (some 1500000) = Except.ok r ∧
      r.1.nsprop = "unknown" ∧ r.1.freqx = 500 ∧ r.1.Rx = 1200000 ∧ r.2.risco = 1500000 :=
  ⟨_, rfl, rfl, rfl, rfl, rfl⟩

/-- C25, as the code has it: for every `nsprop` other than `dummy`,
`sibgatullinsunyaev2000` and `sibsun2000`, the two constructions fail with the
invalid-argument error `Wrong nsprop value` when at least one of `freqx`, `Rx` and
`risco` is not supplied; when all three are supplied, `nsprop` is not looked at and
both constructions succeed. -/
theorem constructNeutronStar_unknown_nsprop {α : Type} [LinearOrderedField α]
    (M : CMath α) (K : GslConst α) (X : ArgumentFunctions α) (nsprop : String)
    (freqx Rx : Option α) (Bx hotspotarea epsilonAlfven inversebeta Rdead : α)
    (fptype : String) (fpparams : Pard α) (alpha Mx kerr period Mopt : α)
    (Ropt : Option α) (Topt : α) (rin rout risco : Option α)
    (h : nsprop ≠ "dummy" ∧ nsprop ≠ "sibgatullinsunyaev2000" ∧ nsprop ≠ "sibsun2000") :
    ((freqx = none ∨ Rx = none ∨ risco = none) →
      constructNeutronStar M K X nsprop freqx Rx Bx hotspotarea epsilonAlfven inversebeta
          Rdead fptype fpparams alpha Mx kerr period Mopt Ropt Topt rin rout risco =
        Except.error (Err.invalid_argument "Wrong nsprop value")) ∧
    ((freqx ≠ none ∧ Rx ≠ none ∧ risco ≠ none) →
      ∃ r, constructNeutronStar M K X nsprop freqx Rx Bx hotspotarea epsilonAlfven
          inversebeta Rdead fptype fpparams alpha Mx kerr period Mopt Ropt Topt rin rout
          risco = Except.ok r) := by
  obtain ⟨h1, h2, h3⟩ := h
  have h23 : ¬ (nsprop = "sibgatullinsunyaev2000" ∨ nsprop = "sibsun2000") := by
    rintro (e | e)
    · exact h2 e
    · exact h3 e
  constructor
  · intro habs
    cases freqx with
    | none =>
      simp only [constructNeutronStar, NeutronStarArguments.new, initializeFreqx, if_neg h1,
        if_neg h23]
    | some f =>
      cases Rx with
      | none =>
        simp only [constructNeutronStar, NeutronStarArguments.new, initializeRx, if_neg h1,
          if_neg h23]
      | some r =>
        cases risco with
        | none =>
          simp only [constructNeutronStar, NeutronStarArguments.new,
            NeutronStarBasicDiskBinaryArguments.new, initializeRisco, if_neg h1, if_neg h23]
        | some c =>
          rcases habs with e | e | e <;> cases e
  · rintro ⟨hf, hr, hc⟩
    cases freqx with
    | none => exact absurd rfl hf
    | some f =>
      cases Rx with
      | none => exact absurd rfl hr
      | some r =>
        cases risco with
        | none => exact absurd rfl hc
        | some c => exact ⟨_, rfl⟩

/-- C25, witness: `nsprop = "unknown"` with `Rx` and `risco` supplied and `freqx`
absent fails with `Wrong nsprop value`. -/
theorem constructNeutronStar_unknown_nsprop_witness :
    constructNeutronStar realMath gslCgsm demoArgumentFunctions "unknown" none
        (some 1200000) 0 1 1 0 0 "no-outflow" Pard.empty 0.25 1.4 0 1 1 (some 1) 0 (some 1)
        (some 1) (some 1500000) =
      Except.error (Err.invalid_argument "Wrong nsprop value") :=
  (constructNeutronStar_unknown_nsprop realMath gslCgsm demoArgumentFunctions "unknown" none
    (some 1200000) 0 1 1 0 0 "no-outflow" Pard.empty 0.25 1.4 0 1 1 (some 1) 0 (some 1)
    (some 1) (some 1500000) (by decide)).1 (Or.inl rfl)

/-- C29: `initializeRisco` returns a supplied `risco` unchanged for every `nsprop`;
with no `risco` supplied the result is absent for `nsprop = dummy`, so that the
constructed object holds `r_kerrISCO(Mx, kerr)`; it is `radiusISCO(freqx)` for
`nsprop` equal to `sibgatullinsunyaev2000` or `sibsun2000`, and the invalid-argument
error `Wrong nsprop value` for any other `nsprop`. -/
theorem initializeRisco_spec {α : Type} [LinearOrderedField α]
    (M : CMath α) (K : GslConst α) (X : ArgumentFunctions α)
    (ns_args : NeutronStarArguments α) (alpha Mx kerr period Mopt : α)
    (Ropt : Option α) (Topt : α) (rin rout : Option α) :
    (∀ v, initializeRisco ns_args (some v) = Except.ok (some v)) ∧
    (ns_args.nsprop = "dummy" →
      initializeRisco ns_args none = Except.ok none ∧
      ∃ b, NeutronStarBasicDiskBinaryArguments.new M K X ns_args alpha Mx kerr period Mopt
          Ropt Topt rin rout none = Except.ok b ∧ b.risco = r_kerrISCO X Mx kerr) ∧
    ((ns_args.nsprop = "sibgatullinsunyaev2000" ∨ ns_args.nsprop = "sibsun2000") →
      initializeRisco ns_args none = Except.ok (some (radiusISCO ns_args.freqx))) ∧
    ((ns_args.nsprop ≠ "dummy" ∧ ns_args.nsprop ≠ "sibgatullinsunyaev2000" ∧
        ns_args.nsprop ≠ "sibsun2000") →
      initializeRisco ns_args none =
        Except.error (Err.invalid_argument "Wrong nsprop value")) := by
  refine ⟨fun v => rfl, ?_, ?_, ?_⟩
  · intro hd
    have hi : initializeRisco ns_args none = Except.ok none := by
      simp only [initializeRisco, if_pos hd]
    refine ⟨hi, ?_⟩
    simp only [NeutronStarBasicDiskBinaryArguments.new, hi]
    exact ⟨_, rfl, rfl⟩
  · intro hs
    have hd := sibsun_ne_dummy ns_args.nsprop hs
    simp only [initializeRisco, if_neg hd, if_pos hs]
  · rintro ⟨h1, h2, h3⟩
    have h23 : ¬ (ns_args.nsprop = "sibgatullinsunyaev2000" ∨
        ns_args.nsprop = "sibsun2000") := by
      rintro (e | e)
      · exact h2 e
      · exact h3 e
    simp only [initializeRisco, if_neg h1, if_neg h23]

/-- C29, witness: for `nsprop = sibsun2000` and `freqx = 0` the result is
`radiusISCO(0)`. -/
theorem initializeRisco_spec_witness :
    initializeRisco (⟨"sibsun2000", 0, 1244000, 0, 1, 1, 0, 0, "no-outflow", Pard.empty⟩ :
        NeutronStarArguments ℝ) none = Except.ok (some (radiusISCO 0)) :=
  (initializeRisco_spec realMath gslCgsm demoArgumentFunctions
    (⟨"sibsun2000", 0, 1244000, 0, 1, 1, 0, 0, "no-outflow", Pard.empty⟩ :
      NeutronStarArguments ℝ) 0.25 1.4 0 1 1 none 0 none none).2.2.1 (Or.inr rfl)

/-! ## Options -/

/-- The three default paths spelled out. -/
theorem config_file_paths_default_eq (home INSTALLPATHPREFIX : String) :
    config_file_paths_default home INSTALLPATHPREFIX =
      ["./freddi.ini", home ++ "/freddi.ini", INSTALLPATHPREFIX ++ "/etc/freddi.ini",
        "/etc/freddi.ini"] := by
  have e1 : "." ++ "/" ++ default_config_filename = "./freddi.ini" := by decide
  have e2 : home ++ "/" ++ default_config_filename = home ++ "/freddi.ini" := by
    rw [String.append_assoc]
    rfl
  have e3 : INSTALLPATHPREFIX ++ "/etc" ++ "/" ++ default_config_filename =
      INSTALLPATHPREFIX ++ "/etc/freddi.ini" := by
    rw [String.append_assoc, String.append_assoc]
    rfl
  have e4 : "/etc" ++ "/" ++ default_config_filename = "/etc/freddi.ini" := by decide
  simp only [config_file_paths_default, config_file_dirs, List.map, e1, e2, e3, e4]

/-- C27, counterexample: with the default `INSTALLPATHPREFIX` the list of files has
four entries, `/etc/freddi.ini` twice, and is not the list of three of the claim;
with `INSTALLPATHPREFIX` set to `/usr/local` the file `/usr/local/etc/freddi.ini`
is read, between the file of `$HOME` and the file of `/etc`. -/
theorem parseOptions_order_counterexample :
    parseOptions "/home/user" default_INSTALLPATHPREFIX none =
      [Source.command_line, Source.config_file "./freddi.ini",
        Source.config_file "/home/user/freddi.ini", Source.config_file "/etc/freddi.ini",
        Source.config_file "/etc/freddi.ini"] ∧
    parseOptions "/home/user" default_INSTALLPATHPREFIX none ≠
      [Source.command_line, Source.config_file "./freddi.ini",
        Source.config_file "/home/user/freddi.ini", Source.config_file "/etc/freddi.ini"] ∧
    parseOptions "/home/user" "/usr/local" none =
      [Source.command_line, Source.config_file "./freddi.ini",
        Source.config_file "/home/user/freddi.ini",
        Source.config_file "/usr/local/etc/freddi.ini",
        Source.config_file "/etc/freddi.ini"] := by
  refine ⟨by decide, by decide, by decide⟩

/-- C27, as the code has it: the command line is stored before any file, and the
files read afterwards are, in this order, the `--config` path when given, then
`./freddi.ini`, `$HOME/freddi.ini`, `INSTALLPATHPREFIX/etc/freddi.ini` and
`/etc/freddi.ini`, with no other file in the list. -/
theorem parseOptions_order (home INSTALLPATHPREFIX : String) (config : Option String) :
    parseOptions home INSTALLPATHPREFIX config =
      Source.command_line ::
        (config.toList ++
          ["./freddi.ini", home ++ "/freddi.ini", INSTALLPATHPREFIX ++ "/etc/freddi.ini",
            "/etc/freddi.ini"]).map Source.config_file := by
  cases config with
  | none =>
    simp only [parseOptions, config_file_paths, config_file_paths_default_eq,
      Option.toList, List.nil_append]
  | some path =>
    simp only [parseOptions, config_file_paths, config_file_paths_default_eq,
      Option.toList, List.singleton_append]

/-- One turn of the loop on a token of two parts with a numeric value part. -/
theorem fpparamsLoop_cons {α : Type} (stod : String → Except Err α) (token : String)
    (tokens : List String) (m : Pard α) (v : α) (h2 : (boostSplit token).length = 2)
    (hv : stod ((boostSplit token).getD 1 "") = Except.ok v) :
    fpparamsLoop stod (token :: tokens) m =
      fpparamsLoop stod tokens (m.assign ((boostSplit token).getD 0 "") v) := by
  simp only [fpparamsLoop, h2, ne_eq, not_true_eq_false, if_false, hv]

/-- A token that does not split into two parts ends the loop with the validation
error, when the value parts before it are numeric. -/
theorem fpparamsLoop_invalid {α : Type} (stod : String → Except Err α)
    (tokens : List String) (m : Pard α)
    (hnum : ∀ token ∈ tokens, (boostSplit token).length = 2 →
      ∃ v, stod ((boostSplit token).getD 1 "") = Except.ok v)
    (hbad : ∃ token ∈ tokens, (boostSplit token).length ≠ 2) :
    fpparamsLoop stod tokens m = Except.error Err.validation_error := by
  induction tokens generalizing m with
  | nil =>
    obtain ⟨token, ht, _⟩ := hbad
    cases ht
  | cons token tokens ih =>
    by_cases h2 : (boostSplit token).length = 2
    · obtain ⟨v, hv⟩ := hnum token (List.mem_cons_self _ _) h2
      rw [fpparamsLoop_cons stod token tokens m v h2 hv]
      apply ih
      · intro u hu
        exact hnum u (List.mem_cons_of_mem _ hu)
      · obtain ⟨u, hu, hlen⟩ := hbad
        rcases List.mem_cons.mp hu with e | hmem
        · rw [e] at hlen
          exact absurd h2 hlen
        · exact ⟨u, hmem, hlen⟩
    · simp only [fpparamsLoop, ne_eq, h2, not_false_eq_true, if_true]

/-- When every token splits into two parts with a numeric value part, the loop
returns a map that keeps the entries of the names not met, and holds under the name
of a token that no later token carries the number of that token. -/
theorem fpparamsLoop_valid {α : Type} (stod : String → Except Err α)
    (tokens : List String) (m : Pard α)
    (hnum : ∀ token ∈ tokens, (boostSplit token).length = 2 →
      ∃ v, stod ((boostSplit token).getD 1 "") = Except.ok v)
    (hgood : ∀ token ∈ tokens, (boostSplit token).length = 2) :
    ∃ m1, fpparamsLoop stod tokens m = Except.ok m1 ∧
      (∀ name, (∀ token ∈ tokens, (boostSplit token).getD 0 "" ≠ name) → m1 name = m name) ∧
      (∀ pre token post v, tokens = pre ++ token :: post →
        (∀ u ∈ post, (boostSplit u).getD 0 "" ≠ (boostSplit token).getD 0 "") →
        stod ((boostSplit token).getD 1 "") = Except.ok v →
        m1 ((boostSplit token).getD 0 "") = some v) := by
  induction tokens generalizing m with
  | nil =>
    refine ⟨m, rfl, fun _ _ => rfl, ?_⟩
    intro pre token post v he
    cases pre <;> cases he
  | cons t tokens ih =>
    have h2 := hgood t (List.mem_cons_self _ _)
    obtain ⟨w, hw⟩ := hnum t (List.mem_cons_self _ _) h2
    obtain ⟨m1, hm1, hkeep, hlast⟩ := ih (m.assign ((boostSplit t).getD 0 "") w)
      (fun u hu => hnum u (List.mem_cons_of_mem _ hu))
      (fun u hu => hgood u (List.mem_cons_of_mem _ hu))
    refine ⟨m1, ?_, ?_, ?_⟩
    · rw [fpparamsLoop_cons stod t tokens m w h2 hw]
      exact hm1
    · intro name hname
      rw [hkeep name (fun u hu => hname u (List.mem_cons_of_mem _ hu))]
      have hne : name ≠ (boostSplit t).getD 0 "" :=
        fun e => hname t (List.mem_cons_self _ _) e.symm
      simp only [Pard.assign, if_neg hne]
    · intro pre token post v he hpost hv
      cases pre with
      | nil =>
        rw [List.nil_append] at he
        injection he with e1 e2
        subst e1
        subst e2
        rw [hkeep _ hpost]
        rw [hw] at hv
        injection hv with hv
        simp only [Pard.assign, if_true, hv]
      | cons p pre =>
        rw [List.cons_append] at he
        injection he with e1 e2
        exact hlast pre token post v e2 hpost hv

/-- C26: `fpparamsInitializer` returns the empty map when the option is absent; for a
list of tokens whose value parts are numeric it fails with the validation error if
and only if some token does not split at the colons into exactly two parts;
otherwise it returns a map that holds, under the name of each token that no later
token carries, the number of that token, and nothing under a name that no token
carries. -/
theorem fpparamsInitializer_spec {α : Type} (stod : String → Except Err α)
    (tokens : List String)
    (hnum : ∀ token ∈ tokens, (boostSplit token).length = 2 →
      ∃ v, stod ((boostSplit token).getD 1 "") = Except.ok v) :
    fpparamsInitializer stod none = Except.ok Pard.empty ∧
    (fpparamsInitializer stod (some tokens) = Except.error Err.validation_error ↔
      ∃ token ∈ tokens, (boostSplit token).length ≠ 2) ∧
    ((∀ token ∈ tokens, (boostSplit token).length = 2) →
      ∃ m, fpparamsInitializer stod (some tokens) = Except.ok m ∧
        (∀ name, (∀ token ∈ tokens, (boostSplit token).getD 0 "" ≠ name) → m name = none) ∧
        (∀ pre token post v, tokens = pre ++ token :: post →
          (∀ u ∈ post, (boostSplit u).getD 0 "" ≠ (boostSplit token).getD 0 "") →
          stod ((boostSplit token).getD 1 "") = Except.ok v →
          m ((boostSplit token).getD 0 "") = some v)) := by
  refine ⟨rfl, ⟨?_, ?_⟩, ?_⟩
  · intro herr
    by_contra hnone
    have hgood : ∀ token ∈ tokens, (boostSplit token).length = 2 := by
      intro token ht
      by_contra hlen
      exact hnone ⟨token, ht, hlen⟩
    obtain ⟨m1, hm1, _, _⟩ := fpparamsLoop_valid stod tokens Pard.empty hnum hgood
    have hm : fpparamsInitializer stod (some tokens) = Except.ok m1 := hm1
    rw [hm] at herr
    cases herr
  · intro hbad
    exact fpparamsLoop_invalid stod tokens Pard.empty hnum hbad
  · intro hgood
    obtain ⟨m1, hm1, hkeep, hlast⟩ := fpparamsLoop_valid stod tokens Pard.empty hnum hgood
    exact ⟨m1, hm1, fun name hname => hkeep name hname, hlast⟩

/-- C26, witness: the tokens `chi:15 par:3 chi:20` give a map with `chi = 20`. -/
theorem fpparamsInitializer_spec_witness :
    ∃ m, fpparamsInitializer demoStod (some ["chi:15", "par:3", "chi:20"]) = Except.ok m ∧
      m "chi" = some 20 ∧ m "par" = some 3 ∧ m "other" = none := by
  have hnum : ∀ token ∈ ["chi:15", "par:3", "chi:20"], (boostSplit token).length = 2 →
      ∃ v, demoStod ((boostSplit token).getD 1 "") = Except.ok v := by
    intro token ht _
    simp only [List.mem_cons, List.mem_singleton, List.not_mem_nil, or_false] at ht
    rcases ht with e | e | e <;> rw [e]
    · exact ⟨15, by decide⟩
    · exact ⟨3, by decide⟩
    · exact ⟨20, by decide⟩
  have hgood : ∀ token ∈ ["chi:15", "par:3", "chi:20"], (boostSplit token).length = 2 := by
    decide
  obtain ⟨m, hm, hnone, hlast⟩ :=
    (fpparamsInitializer_spec demoStod ["chi:15", "par:3", "chi:20"] hnum).2.2 hgood
  refine ⟨m, hm, ?_, ?_, ?_⟩
  · exact hlast ["chi:15", "par:3"] "chi:20" [] 20 rfl (by decide) (by decide)
  · exact hlast ["chi:15"] "par:3" ["chi:20"] 3 rfl (by decide) (by decide)
  · exact hnone "other" (by decide)

/-! ## The default radii of fred.cpp -/

/-- The cube root of a non-negative real number. -/
theorem realMath_cbrt_of_nonneg (x : ℝ) (h : 0 ≤ x) :
    realMath.cbrt x = x ^ ((1 : ℝ) / 3) := by
  show (if 0 ≤ x then x ^ ((1 : ℝ) / 3) else -((-x) ^ ((1 : ℝ) / 3))) = _
  rw [if_pos h]

/-- Rational brackets of a cube root. -/
theorem realMath_cbrt_bracket (a b x : ℝ) (ha : 0 ≤ a) (hb : 0 ≤ b) (h1 : a ^ 3 ≤ x)
    (h2 : x ≤ b ^ 3) : a ≤ realMath.cbrt x ∧ realMath.cbrt x ≤ b := by
  have hx : 0 ≤ x := le_trans (pow_nonneg ha 3) h1
  have e : ((1 : ℝ) / 3) = (((3 : ℕ) : ℝ))⁻¹ := by norm_num
  rw [realMath_cbrt_of_nonneg x hx, e]
  have ea : (a ^ 3) ^ (((3 : ℕ) : ℝ))⁻¹ = a := Real.pow_rpow_inv_natCast ha (by norm_num)
  have eb : (b ^ 3) ^ (((3 : ℕ) : ℝ))⁻¹ = b := Real.pow_rpow_inv_natCast hb (by norm_num)
  constructor
  · calc a = (a ^ 3) ^ (((3 : ℕ) : ℝ))⁻¹ := ea.symm
      _ ≤ x ^ (((3 : ℕ) : ℝ))⁻¹ :=
        Real.rpow_le_rpow (pow_nonneg ha 3) h1 (by norm_num)
  · calc x ^ (((3 : ℕ) : ℝ))⁻¹ ≤ (b ^ 3) ^ (((3 : ℕ) : ℝ))⁻¹ :=
        Real.rpow_le_rpow hx h2 (by norm_num)
      _ = b := eb

/-- Rational brackets of a square root. -/
theorem realMath_sqrt_bracket (a b x : ℝ) (hb : 0 ≤ b) (h1 : a ^ 2 ≤ x)
    (h2 : x ≤ b ^ 2) : a ≤ realMath.sqrt x ∧ realMath.sqrt x ≤ b := by
  show a ≤ Real.sqrt x ∧ Real.sqrt x ≤ b
  constructor
  · exact Real.le_sqrt_of_sq_le h1
  · exact Real.sqrt_le_iff.mpr ⟨hb, h2⟩

/-- C22: for every `Mx`, `r_in_func(Mx, 0)` is `6 * G * Mx / c^2`. -/
theorem r_in_func_schwarzschild (K : GslConst ℝ) (Mx : ℝ) :
    r_in_func realMath K Mx 0 =
      6 * K.GRAVITATIONAL_CONSTANT * Mx / K.SPEED_OF_LIGHT ^ 2 := by
  have hc : realMath.cbrt 1 = 1 := by
    rw [realMath_cbrt_of_nonneg 1 (by norm_num), Real.one_rpow]
  have h9 : realMath.sqrt 9 = 3 := by
    show Real.sqrt 9 = 3
    rw [show (9 : ℝ) = 3 ^ 2 by norm_num, Real.sqrt_sq (by norm_num)]
  have h0 : realMath.sqrt 0 = 0 := Real.sqrt_zero
  have e1 : (1 : ℝ) - 0 * 0 = 1 := by norm_num
  have e2 : (1 : ℝ) + 0 = 1 := by norm_num
  have e3 : (1 : ℝ) - 0 = 1 := by norm_num
  have e4 : (3 : ℝ) * 0 * 0 + (1 + 1 * (1 + 1)) * (1 + 1 * (1 + 1)) = 9 := by norm_num
  have e5 : ((3 : ℝ) - (1 + 1 * (1 + 1))) * (3 + (1 + 1 * (1 + 1)) + 2 * 3) = 0 := by
    norm_num
  simp only [r_in_func, e1, e2, e3, hc, e4, h9, e5, h0]
  ring

/-- The bracket of `r_in_func(Mx, 0.998)` in units of `G * Mx / c^2`. -/
theorem r_in_func_kerr_bracket (K : GslConst ℝ) (Mx : ℝ) :
    ∃ k : ℝ, 1.235 ≤ k ∧ k ≤ 1.238 ∧
      r_in_func realMath K Mx 0.998 =
        K.GRAVITATIONAL_CONSTANT * Mx / (K.SPEED_OF_LIGHT * K.SPEED_OF_LIGHT) * k := by
  obtain ⟨hu1, hu2⟩ := realMath_cbrt_bracket 0.1586 0.1587 (1 - 0.998 * 0.998)
    (by norm_num) (by norm_num) (by norm_num) (by norm_num)
  obtain ⟨hv1, hv2⟩ := realMath_cbrt_bracket 1.2595 1.2596 (1 + 0.998)
    (by norm_num) (by norm_num) (by norm_num) (by norm_num)
  obtain ⟨hw1, hw2⟩ := realMath_cbrt_bracket 0.1259 0.1260 (1 - 0.998)
    (by norm_num) (by norm_num) (by norm_num) (by norm_num)
  generalize hu : realMath.cbrt (1 - 0.998 * 0.998) = u at hu1 hu2
  generalize hv : realMath.cbrt (1 + 0.998) = v at hv1 hv2
  generalize hw : realMath.cbrt (1 - 0.998) = w at hw1 hw2
  have hZ1l : 1.2197 ≤ 1 + u * (v + w) := by nlinarith
  have hZ1u : 1 + u * (v + w) ≤ 1.2199 := by nlinarith
  obtain ⟨hZ2l, hZ2u⟩ := realMath_sqrt_bracket 2.115 2.116
    (3 * 0.998 * 0.998 + (1 + u * (v + w)) * (1 + u * (v + w))) (by norm_num)
    (by nlinarith) (by nlinarith)
  generalize hZ1 : 1 + u * (v + w) = Z1 at hZ1l hZ1u hZ2l hZ2u
  generalize hZ2 : realMath.sqrt (3 * 0.998 * 0.998 + Z1 * Z1) = Z2 at hZ2l hZ2u
  obtain ⟨hsl, hsu⟩ := realMath_sqrt_bracket 3.878 3.880 ((3 - Z1) * (3 + Z1 + 2 * Z2))
    (by norm_num) (by nlinarith) (by nlinarith)
  refine ⟨3 + Z2 - realMath.sqrt ((3 - Z1) * (3 + Z1 + 2 * Z2)), by linarith, by linarith, ?_⟩
  simp only [r_in_func, hu, hv, hw, hZ1, hZ2]

/-- C23: for every `Mx > 0`, with positive `G` and `c`, `r_in_func(Mx, 0.998)` lies
between `1.23` and `1.25` times `G * Mx / c^2`. -/
theorem r_in_func_kerr (K : GslConst ℝ) (Mx : ℝ) (hG : 0 < K.GRAVITATIONAL_CONSTANT)
    (hc : 0 < K.SPEED_OF_LIGHT) (hMx : 0 < Mx) :
    1.23 * (K.GRAVITATIONAL_CONSTANT * Mx / K.SPEED_OF_LIGHT ^ 2) ≤
        r_in_func realMath K Mx 0.998 ∧
      r_in_func realMath K Mx 0.998 ≤
        1.25 * (K.GRAVITATIONAL_CONSTANT * Mx / K.SPEED_OF_LIGHT ^ 2) := by
  obtain ⟨k, hk1, hk2, hr⟩ := r_in_func_kerr_bracket K Mx
  have hg : 0 < K.GRAVITATIONAL_CONSTANT * Mx / (K.SPEED_OF_LIGHT * K.SPEED_OF_LIGHT) :=
    div_pos (mul_pos hG hMx) (mul_pos hc hc)
  rw [hr, pow_two]
  generalize K.GRAVITATIONAL_CONSTANT * Mx / (K.SPEED_OF_LIGHT * K.SPEED_OF_LIGHT) = g at hg
  constructor
  · nlinarith
  · nlinarith

/-- C23, witness: the default mass of fred.cpp, 7.5 solar masses, with the constants
of GSL. -/
theorem r_in_func_kerr_witness :
    1.23 * (gslCgsm.GRAVITATIONAL_CONSTANT * (7.5 * gslCgsm.SOLAR_MASS) /
          gslCgsm.SPEED_OF_LIGHT ^ 2) ≤
        r_in_func realMath gslCgsm (7.5 * gslCgsm.SOLAR_MASS) 0.998 ∧
      r_in_func realMath gslCgsm (7.5 * gslCgsm.SOLAR_MASS) 0.998 ≤
        1.25 * (gslCgsm.GRAVITATIONAL_CONSTANT * (7.5 * gslCgsm.SOLAR_MASS) /
          gslCgsm.SPEED_OF_LIGHT ^ 2) :=
  r_in_func_kerr gslCgsm (7.5 * gslCgsm.SOLAR_MASS) (by norm_num [gslCgsm])
    (by norm_num [gslCgsm]) (by norm_num [gslCgsm])

/-- C21, as the code has it: for all `Mx, Mopt, P > 0` (and `G > 0`),
`r_out_func(Mx, Mopt, P)` is `0.8` times Eggleton's volume radius of the Roche lobe
of the compact object, which is positive, and so it is not `0.9` times that
radius. -/
theorem r_out_func_factor (K : GslConst ℝ) (Mx Mopt P : ℝ)
    (hG : 0 < K.GRAVITATIONAL_CONSTANT) (hMx : 0 < Mx) (hMopt : 0 < Mopt) (hP : 0 < P) :
    r_out_func realMath K Mx Mopt P = 0.8 * eggletonRadius K Mx Mopt P ∧
      0 < eggletonRadius K Mx Mopt P ∧
      r_out_func realMath K Mx Mopt P ≠ 0.9 * eggletonRadius K Mx Mopt P := by
  have hx : 0 < Mx / Mopt := div_pos hMx hMopt
  have hy : 0 < K.GRAVITATIONAL_CONSTANT * (Mx + Mopt) * P ^ 2 / (4 * Real.pi ^ 2) :=
    div_pos (mul_pos (mul_pos hG (add_pos hMx hMopt)) (pow_pos hP 2))
      (mul_pos (by norm_num) (pow_pos Real.pi_pos 2))
  have ey : K.GRAVITATIONAL_CONSTANT * (Mx + Mopt) * P * P / (4 * realMath.pi * realMath.pi) =
      K.GRAVITATIONAL_CONSTANT * (Mx + Mopt) * P ^ 2 / (4 * Real.pi ^ 2) := by
    show K.GRAVITATIONAL_CONSTANT * (Mx + Mopt) * P * P / (4 * Real.pi * Real.pi) = _
    ring
  have hq : 0 < (Mx / Mopt) ^ ((1 : ℝ) / 3) := Real.rpow_pos_of_pos hx _
  have hqq : (Mx / Mopt) ^ ((1 : ℝ) / 3) * (Mx / Mopt) ^ ((1 : ℝ) / 3) =
      (Mx / Mopt) ^ ((2 : ℝ) / 3) := by
    rw [← Real.rpow_add hx]
    norm_num
  have hq2 : 0 < (Mx / Mopt) ^ ((2 : ℝ) / 3) := Real.rpow_pos_of_pos hx _
  have ha : 0 < (K.GRAVITATIONAL_CONSTANT * (Mx + Mopt) * P ^ 2 / (4 * Real.pi ^ 2)) ^
      ((1 : ℝ) / 3) := Real.rpow_pos_of_pos hy _
  have hlog : 0 < Real.log (1 + (Mx / Mopt) ^ ((1 : ℝ) / 3)) :=
    Real.log_pos (by linarith)
  have hE : 0 < eggletonRadius K Mx Mopt P := by
    unfold eggletonRadius
    exact div_pos (mul_pos (mul_pos ha (by norm_num)) hq2)
      (add_pos (mul_pos (by norm_num) hq2) hlog)
  have hval : r_out_func realMath K Mx Mopt P = 0.8 * eggletonRadius K Mx Mopt P := by
    simp only [r_out_func, eggletonRadius, ey, realMath_cbrt_of_nonneg _ (le_of_lt hx),
      realMath_cbrt_of_nonneg _ (le_of_lt hy)]
    show 0.8 * (_ / (_ + Real.log _)) = _
    rw [mul_assoc _ ((Mx / Mopt) ^ ((1 : ℝ) / 3)) ((Mx / Mopt) ^ ((1 : ℝ) / 3)),
      mul_assoc (0.6 : ℝ) ((Mx / Mopt) ^ ((1 : ℝ) / 3)) ((Mx / Mopt) ^ ((1 : ℝ) / 3)), hqq]
  refine ⟨hval, hE, ?_⟩
  rw [hval]
  intro h
  linarith

/-- C21, witness: the defaults of fred.cpp, `Mx` of 7.5 and `Mopt` of 0.8 solar
masses and a period of 0.433 days, with the constants of GSL. -/
theorem r_out_func_factor_witness :
    r_out_func realMath gslCgsm (7.5 * gslCgsm.SOLAR_MASS) (0.8 * gslCgsm.SOLAR_MASS)
        (0.433 * 86400) =
      0.8 * eggletonRadius gslCgsm (7.5 * gslCgsm.SOLAR_MASS) (0.8 * gslCgsm.SOLAR_MASS)
        (0.433 * 86400) ∧
    0 < eggletonRadius gslCgsm (7.5 * gslCgsm.SOLAR_MASS) (0.8 * gslCgsm.SOLAR_MASS)
        (0.433 * 86400) ∧
    r_out_func realMath gslCgsm (7.5 * gslCgsm.SOLAR_MASS) (0.8 * gslCgsm.SOLAR_MASS)
        (0.433 * 86400) ≠
      0.9 * eggletonRadius gslCgsm (7.5 * gslCgsm.SOLAR_MASS) (0.8 * gslCgsm.SOLAR_MASS)
        (0.433 * 86400) :=
  r_out_func_factor gslCgsm (7.5 * gslCgsm.SOLAR_MASS) (0.8 * gslCgsm.SOLAR_MASS)
    (0.433 * 86400) (by norm_num [gslCgsm]) (by norm_num [gslCgsm]) (by norm_num [gslCgsm])
    (by norm_num)

/-- C31: for every `Mx` and every kerr parameter `a` (in `[-1, 1]` or not),
`r_in_func(Mx, -a) = r_in_func(Mx, a)`, so that a retrograde spin gets the radius of
the prograde one, and `r_in_func(Mx, 1) = r_in_func(Mx, -1) = G * Mx / c^2`. -/
theorem r_in_func_spin_symmetry (K : GslConst ℝ) (Mx a : ℝ) :
    r_in_func realMath K Mx (-a) = r_in_func realMath K Mx a ∧
    r_in_func realMath K Mx 1 = K.GRAVITATIONAL_CONSTANT * Mx / K.SPEED_OF_LIGHT ^ 2 ∧
    r_in_func realMath K Mx (-1) = K.GRAVITATIONAL_CONSTANT * Mx / K.SPEED_OF_LIGHT ^ 2 := by
  have hsym : ∀ b : ℝ, r_in_func realMath K Mx (-b) = r_in_func realMath K Mx b := by
    intro b
    have e1 : (1 : ℝ) - -b * -b = 1 - b * b := by ring
    have e2 : (1 : ℝ) + -b = 1 - b := by ring
    have e3 : (1 : ℝ) - -b = 1 + b := by ring
    have e4 : (3 : ℝ) * -b * -b = 3 * b * b := by ring
    simp only [r_in_func, e1, e2, e3, e4,
      add_comm (realMath.cbrt (1 - b)) (realMath.cbrt (1 + b))]
  have hone : r_in_func realMath K Mx 1 =
      K.GRAVITATIONAL_CONSTANT * Mx / K.SPEED_OF_LIGHT ^ 2 := by
    have hc0 : realMath.cbrt 0 = 0 := by
      rw [realMath_cbrt_of_nonneg 0 (le_refl 0), Real.zero_rpow (by norm_num)]
    have h4 : realMath.sqrt 4 = 2 := by
      show Real.sqrt 4 = 2
      rw [show (4 : ℝ) = 2 ^ 2 by norm_num, Real.sqrt_sq (by norm_num)]
    have h16 : realMath.sqrt 16 = 4 := by
      show Real.sqrt 16 = 4
      rw [show (16 : ℝ) = 4 ^ 2 by norm_num, Real.sqrt_sq (by norm_num)]
    have e1 : (1 : ℝ) - 1 * 1 = 0 := by norm_num
    have e2 : (1 : ℝ) - 1 = 0 := by norm_num
    have e3 : (1 : ℝ) + 0 * (realMath.cbrt (1 + 1) + 0) = 1 := by ring
    have e4 : (3 : ℝ) * 1 * 1 + 1 * 1 = 4 := by norm_num
    have e5 : ((3 : ℝ) - 1) * (3 + 1 + 2 * 2) = 16 := by norm_num
    simp only [r_in_func, e1, e2, hc0, e3, e4, h4, e5, h16]
    ring
  refine ⟨hsym a, hone, ?_⟩
  rw [hsym 1]
  exact hone

/-! ## The geometry of Sibgatullin and Sunyaev -/

/-- The difference of the two radii is `1e5` times the polynomial of `radiusISCO`. -/
theorem radiusISCO_sub_radiusNS {α : Type} [LinearOrderedField α] (freqx : α) :
    radiusISCO freqx - radiusNS freqx =
      1e5 * (1.44 - 3.061 * (freqx / 1000.0) + 0.843 * (freqx / 1000.0) ^ 2 +
        0.6 * (freqx / 1000.0) ^ 3 - 0.22 * (freqx / 1000.0) ^ 4) := by
  simp only [radiusISCO]
  ring

/-- C32, counterexample: at `freqx = 1000` Hz, `radiusISCO` is `1198400` cm and
`radiusNS` is `1238200` cm: the orbit is inside the star. -/
theorem radiusISCO_ge_radiusNS_counterexample :
    (0 : ℚ) ≤ 1000 ∧ radiusISCO (1000 : ℚ) = 1198400 ∧ radiusNS (1000 : ℚ) = 1238200 ∧
      radiusISCO (1000 : ℚ) < radiusNS (1000 : ℚ) := by
  refine ⟨by norm_num, ?_, ?_, ?_⟩ <;> norm_num [radiusISCO, radiusNS]

/-- C32, as the code has it: for every rotation frequency `0 <= freqx <= 600` Hz,
`radiusISCO(freqx) >= radiusNS(freqx)`, with `radiusNS(0) = 12.44` km and
`radiusISCO(0) = 13.88` km (in cm). -/
theorem radiusISCO_ge_radiusNS {α : Type} [LinearOrderedField α] (freqx : α)
    (h0 : 0 ≤ freqx) (h1 : freqx ≤ 600) :
    radiusNS freqx ≤ radiusISCO freqx ∧ radiusNS (0 : α) = 1244000 ∧
      radiusISCO (0 : α) = 1388000 := by
  refine ⟨?_, by norm_num [radiusNS], by norm_num [radiusISCO, radiusNS]⟩
  have hd := radiusISCO_sub_radiusNS freqx
  have hk0 : (0 : α) ≤ freqx / 1000.0 := div_nonneg h0 (by norm_num)
  have hk1 : freqx / 1000.0 ≤ (0.6 : α) := by
    rw [div_le_iff₀ (by norm_num)]
    norm_num
    linarith
  generalize freqx / 1000.0 = k at hd hk0 hk1
  have hp : (0 : α) ≤ 1.44 - 3.061 * k + 0.843 * k ^ 2 + 0.6 * k ^ 3 - 0.22 * k ^ 4 := by
    have hr : (0 : α) ≤ 3.061 - 0.843 * (k + 0.6) - 0.6 * (k ^ 2 + 0.6 * k + 0.36) +
        0.22 * (k ^ 3 + 0.6 * k ^ 2 + 0.36 * k + 0.216) := by
      have hk2 : k ^ 2 ≤ 0.36 := by nlinarith
      have hk3 : (0 : α) ≤ k ^ 3 := pow_nonneg hk0 3
      have hk22 : (0 : α) ≤ k ^ 2 := pow_nonneg hk0 2
      nlinarith
    have hs : (0 : α) ≤ (0.6 - k) * (3.061 - 0.843 * (k + 0.6) -
        0.6 * (k ^ 2 + 0.6 * k + 0.36) + 0.22 * (k ^ 3 + 0.6 * k ^ 2 + 0.36 * k + 0.216)) :=
      mul_nonneg (by linarith) hr
    nlinarith
  have h5 : (0 : α) ≤ 1e5 * (1.44 - 3.061 * k + 0.843 * k ^ 2 + 0.6 * k ^ 3 - 0.22 * k ^ 4) :=
    mul_nonneg (by norm_num) hp
  linarith

/-- C32, witness: `freqx = 500` Hz. -/
theorem radiusISCO_ge_radiusNS_witness :
    radiusNS (500 : ℚ) ≤ radiusISCO 500 ∧ radiusNS (0 : ℚ) = 1244000 ∧
      radiusISCO (0 : ℚ) = 1388000 :=
  radiusISCO_ge_radiusNS (500 : ℚ) (by norm_num) (by norm_num)

/-! ## Geometry -/

end Freddi
